import Mathlib

/-!
# A verification development for `mmal.c` (first-fit heap allocator)

The C program keeps two linked structures in raw memory: a singly linked list
of arenas and one circular singly linked list of block headers.  The embedding
below keeps the heap state explicit:

* `Heap.arenas` and `Heap.hdrs` are the arena records and header records stored
  in memory, indexed by their address;
* `Heap.bytes` is the payload memory, indexed by address;
* the global `first_arena` and the two function-local statics (`end` of
  `arena_append`, `temp` of `hdr_ctor`) are fields of the state;
* `size_t` and pointer arithmetic is arithmetic on `Nat` modulo `2^64`;
* the two loops (`first_fit`, `hdr_get_prev`) take fuel;
* `mmap` is the environment: its answer is an argument of the call that
  may ask for a page (`MAP_FAILED` is `(void*)-1`).

Header records at different addresses are separate records, and payload bytes
are kept apart from header records: two headers whose byte ranges overlap
without coinciding are outside the model (the invariant `WF` below excludes
them in every state reached by requests up to `MAXREQ`).

`assert` lines of the source are preconditions, they are not executed
(the struct definitions of the file are the `NDEBUG` ones).
-/

namespace Mmal

/-! ## Constants and machine arithmetic -/

/-- Modulus of `size_t` and of pointers (64-bit target). -/
def W : Nat := 18446744073709551616

/-- The value of `sizeof(Header)`: a pointer and two `size_t`. -/
def sizeof_Header : Nat := 24

/-- The value of `sizeof(Arena)`: a pointer and one `size_t`. -/
def sizeof_Arena : Nat := 16

/-- The macro `PAGE_SIZE (128*1024)`. -/
def PAGE_SIZE : Nat := 131072

/-- The value `(void*)-1` that `mmap` returns on failure. -/
def MAP_FAILED : Nat := 18446744073709551615

/-- Unsigned subtraction of `size_t` values, wrapping modulo `2^64`. -/
def sub64 (a b : Nat) : Nat := (a % W + W - b % W) % W

/-- Unsigned addition of `size_t` values, wrapping modulo `2^64`. -/
def add64 (a b : Nat) : Nat := (a + b) % W

/-! ## Data model -/

/-- The record `struct header`. -/
structure Header where
  next : Nat
  size : Nat
  asize : Nat
deriving DecidableEq, Repr

/-- The record `struct arena`. -/
structure Arena where
  next : Nat
  size : Nat
deriving DecidableEq, Repr

/-- The whole heap state of the program. -/
structure Heap where
  /-- the global `first_arena` (0 is `NULL`) -/
  first_arena : Nat
  /-- the static `end` of `arena_append` -/
  arena_end : Nat
  /-- the static `temp` of `hdr_ctor` -/
  ctor_temp : Nat
  /-- arena records in memory, by address -/
  arenas : Nat → Arena
  /-- header records in memory, by address -/
  hdrs : Nat → Header
  /-- payload bytes, by address -/
  bytes : Nat → Nat

/-- Result of a call: a value, a fault (dereference of a `NULL` arena), or
the loop fuel of the model ran out. -/
inductive Outcome (α : Type) where
  | ok : α → Outcome α
  | fault : Outcome α
  | nofuel : Outcome α

/-- The state at program start: all statics are `NULL`, memory is zero. -/
def init : Heap :=
  { first_arena := 0, arena_end := 0, ctor_temp := 0,
    arenas := fun _ => ⟨0, 0⟩, hdrs := fun _ => ⟨0, 0, 0⟩, bytes := fun _ => 0 }

/-- The store `h->next = v`. -/
def setNext (s : Heap) (h v : Nat) : Heap :=
  { s with hdrs := Function.update s.hdrs h { s.hdrs h with next := v } }

/-- The store `h->size = v`. -/
def setSize (s : Heap) (h v : Nat) : Heap :=
  { s with hdrs := Function.update s.hdrs h { s.hdrs h with size := v } }

/-- The store `h->asize = v`. -/
def setAsize (s : Heap) (h v : Nat) : Heap :=
  { s with hdrs := Function.update s.hdrs h { s.hdrs h with asize := v } }

/-! ## The functions of `mmal.c` -/

/-- Function `allign_page`: `((size + PAGE_SIZE - 1) / PAGE_SIZE) * PAGE_SIZE`. -/
def allign_page (size : Nat) : Nat :=
  ((sub64 (add64 size PAGE_SIZE) 1) / PAGE_SIZE * PAGE_SIZE) % W

/-- Function `arena_alloc`: `mm` is what `mmap` answers.  On success the region is
zero-filled (`MAP_ANONYMOUS`), so the record reads `next = NULL`, and then
`temp->size = req_size`. -/
def arena_alloc (mm req_size : Nat) (s : Heap) : Nat × Heap :=
  if mm = MAP_FAILED then (0, s)
  else (mm, { s with arenas := Function.update s.arenas mm ⟨0, req_size⟩ })

/-- Function `arena_append`. -/
def arena_append (a : Nat) (s : Heap) : Heap :=
  let s1 : Heap :=
    if s.first_arena = 0 then { s with first_arena := a }
    else { s with arenas :=
      Function.update s.arenas s.arena_end { s.arenas s.arena_end with next := a } }
  { s1 with arena_end := a }

/-- Function `hdr_ctor`. -/
def hdr_ctor (hdr size : Nat) (s : Heap) : Heap :=
  let s1 := setSize s hdr size
  let s2 := setAsize s1 hdr 0
  let s3 :=
    if s2.ctor_temp ≠ 0 then
      let s21 := setNext s2 hdr (s2.hdrs s2.ctor_temp).next
      setNext s21 s21.ctor_temp hdr
    else setNext s2 hdr hdr
  { s3 with ctor_temp := hdr }

/-- Function `hdr_should_split`: `hdr->size >= sizeof(Header) + size + 1`. -/
def hdr_should_split (hdr size : Nat) (s : Heap) : Bool :=
  decide ((s.hdrs hdr).size ≥ add64 (add64 sizeof_Header size) 1)

/-- Function `hdr_split`; the stores are in the order of the source. -/
def hdr_split (hdr req_size : Nat) (s : Heap) : Nat × Heap :=
  let temp := add64 (add64 hdr sizeof_Header) req_size
  let s1 := setNext s temp (s.hdrs hdr).next
  let s2 := setNext s1 hdr temp
  let s3 := setAsize s2 temp 0
  let s4 := setSize s3 temp (sub64 (sub64 (s3.hdrs hdr).size req_size) sizeof_Header)
  let s5 := setSize s4 hdr req_size
  (temp, s5)

/-- Function `hdr_can_merge`. -/
def hdr_can_merge (left right : Nat) (s : Heap) : Bool :=
  decide (add64 (add64 left (s.hdrs left).size) sizeof_Header = right) &&
    decide ((s.hdrs left).asize = 0) && decide ((s.hdrs right).asize = 0)

/-- Function `hdr_merge`. -/
def hdr_merge (left right : Nat) (s : Heap) : Heap :=
  let s1 := setSize s left
    (add64 (s.hdrs left).size (add64 (s.hdrs right).size sizeof_Header))
  setNext s1 left (s1.hdrs right).next

/-- The `do ... while (header != first)` loop of `first_fit`; `some 0` is
the `NULL` result, `none` is out of fuel. -/
def first_fit_loop (size first : Nat) (s : Heap) : Nat → Nat → Option Nat
  | 0, _ => none
  | fuel + 1, header =>
    let header := (s.hdrs header).next
    if (s.hdrs header).asize = 0 ∧ (s.hdrs header).size ≥ size then some header
    else if header ≠ first then first_fit_loop size first s fuel header
    else some 0

/-- Function `first_fit`: the search starts at `(Header *)(first_arena + 1)`. -/
def first_fit (fuel size : Nat) (s : Heap) : Option Nat :=
  first_fit_loop size (s.first_arena + sizeof_Arena) s fuel (s.first_arena + sizeof_Arena)

/-- The `while (temp->next != hdr)` loop of `hdr_get_prev`. -/
def hdr_get_prev_loop (hdr : Nat) (s : Heap) : Nat → Nat → Option Nat
  | 0, _ => none
  | fuel + 1, temp =>
    if (s.hdrs temp).next ≠ hdr then hdr_get_prev_loop hdr s fuel (s.hdrs temp).next
    else some temp

/-- Function `hdr_get_prev`. -/
def hdr_get_prev (fuel hdr : Nat) (s : Heap) : Option Nat :=
  hdr_get_prev_loop hdr s fuel hdr

/-- The block `arena_alloc; arena_append; hdr_ctor` that `mmalloc` runs
twice in the source.  Reading `ar->size` of a `NULL` arena is the fault. -/
def new_arena (mm size : Nat) (s : Heap) : Outcome (Nat × Heap) :=
  let r := arena_alloc mm (allign_page (add64 (add64 size sizeof_Header) sizeof_Arena)) s
  let ar := r.1
  let s2 := arena_append ar r.2
  if ar = 0 then Outcome.fault
  else
    let new_header := ar + sizeof_Arena
    Outcome.ok (new_header,
      hdr_ctor new_header (sub64 (sub64 (s2.arenas ar).size sizeof_Header) sizeof_Arena) s2)

/-- The tail of `mmalloc`, from `first_fit` on. -/
def mmalloc_search (fuel mm2 size : Nat) (s : Heap) : Outcome (Nat × Heap) :=
  match first_fit fuel size s with
  | none => Outcome.nofuel
  | some block =>
    if block ≠ 0 then
      let s1 := if hdr_should_split block size s then (hdr_split block size s).2 else s
      Outcome.ok (block + sizeof_Header, setAsize s1 block size)
    else
      match new_arena mm2 size s with
      | Outcome.ok (new_header, s1) =>
        let s2 :=
          if hdr_should_split new_header size s1 then (hdr_split new_header size s1).2 else s1
        Outcome.ok (new_header + sizeof_Header, setAsize s2 new_header size)
      | Outcome.fault => Outcome.fault
      | Outcome.nofuel => Outcome.nofuel

/-- Function `mmalloc`: `mm1` answers the `mmap` of the `first_arena == NULL` branch,
`mm2` the one of the no-fit branch. -/
def mmalloc (fuel mm1 mm2 size : Nat) (s : Heap) : Outcome (Nat × Heap) :=
  if s.first_arena = 0 then
    match new_arena mm1 size s with
    | Outcome.ok (_, s1) => mmalloc_search fuel mm2 size s1
    | Outcome.fault => Outcome.fault
    | Outcome.nofuel => Outcome.nofuel
  else mmalloc_search fuel mm2 size s

/-- Function `mfree`. -/
def mfree (fuel ptr : Nat) (s : Heap) : Outcome Heap :=
  let header := ptr - sizeof_Header
  let s1 := setAsize s header 0
  let nx := (s1.hdrs header).next
  let s2 := if header < nx ∧ hdr_can_merge header nx s1 = true then hdr_merge header nx s1 else s1
  match hdr_get_prev fuel header s2 with
  | none => Outcome.nofuel
  | some prev =>
    Outcome.ok
      (if prev < header ∧ hdr_can_merge prev header s2 = true then hdr_merge prev header s2
       else s2)

/-- Function `memcpy(dst, src, n)` on the payload bytes. -/
def memcpy (dst src n : Nat) (s : Heap) : Heap :=
  { s with bytes := fun a =>
      if dst ≤ a ∧ a < dst + n then s.bytes (src + (a - dst)) else s.bytes a }

/-- Function `mrealloc`. -/
def mrealloc (fuel mm1 mm2 ptr size : Nat) (s : Heap) : Outcome (Nat × Heap) :=
  let header := ptr - sizeof_Header
  let next_header := (s.hdrs header).next
  if (s.hdrs header).size = size then Outcome.ok (ptr, s)
  else if (s.hdrs header).size > size then Outcome.ok (ptr, setAsize s header size)
  else if (s.hdrs next_header).asize = 0 ∧
      add64 (add64 header (s.hdrs header).size) sizeof_Header = next_header ∧
      add64 (add64 (s.hdrs next_header).size (s.hdrs header).size) sizeof_Header > size then
    let s1 := setNext s header (s.hdrs next_header).next
    let s2 := setSize s1 header
      (add64 (s1.hdrs header).size (add64 (s1.hdrs next_header).size sizeof_Header))
    Outcome.ok (ptr, setAsize s2 header size)
  else
    match mmalloc fuel mm1 mm2 size s with
    | Outcome.ok (new_ptr, s1) =>
      if new_ptr ≠ 0 then
        let s2 := memcpy new_ptr ptr (s1.hdrs header).asize s1
        match mfree fuel ptr s2 with
        | Outcome.ok s3 => Outcome.ok (new_ptr, s3)
        | Outcome.fault => Outcome.fault
        | Outcome.nofuel => Outcome.nofuel
      else Outcome.ok (0, s1)
    | Outcome.fault => Outcome.fault
    | Outcome.nofuel => Outcome.nofuel

/-! ## The linked structures, read off the heap -/

/-- Following `nx` from `a` walks through `l` and then arrives at `z`. -/
def Seg (nx : Nat → Nat) : Nat → List Nat → Nat → Prop
  | a, [], z => nx a = z
  | a, x :: l, z => nx a = x ∧ Seg nx x l z

/-- A list of headers is a ring when following `next` from its head walks
through the rest of the list and comes back to the head. -/
def Ring (s : Heap) : List Nat → Prop
  | [] => False
  | a :: t => Seg (fun x => (s.hdrs x).next) a t a

/-- The arena list that starts at `a`: `l` lists the arenas up to `NULL`. -/
def ArenaChain (s : Heap) : Nat → List Nat → Prop
  | a, [] => a = 0
  | a, x :: l => a = x ∧ x ≠ 0 ∧ ArenaChain s (s.arenas x).next l

/-- The address of the search anchor, `(Header *)(first_arena + 1)`. -/
def anchor (s : Heap) : Nat := s.first_arena + sizeof_Arena

/-- The list `bl` is the block list of `s`: empty before the first arena
exists, afterwards the ring of headers listed from the anchor on, each header
once. -/
def IsBlockList (s : Heap) (bl : List Nat) : Prop :=
  (s.first_arena = 0 ∧ bl = []) ∨
  (s.first_arena ≠ 0 ∧ Ring s bl ∧ bl.Nodup ∧ bl.head? = some (anchor s))

/-- The list `al` is the arena list of `s`. -/
def IsArenaList (s : Heap) (al : List Nat) : Prop := ArenaChain s s.first_arena al

/-- Sum over the blocks of `size + sizeof(Header)`. -/
def blockBytes (s : Heap) (bl : List Nat) : Nat :=
  (bl.map (fun b => (s.hdrs b).size + sizeof_Header)).sum

/-- Sum over the arenas of `Arena.size - sizeof(Arena)`. -/
def arenaBytes (s : Heap) (al : List Nat) : Nat :=
  (al.map (fun a => (s.arenas a).size - sizeof_Arena)).sum

/-- The arena part of the heap invariant. -/
structure AWF (s : Heap) (al : List Nat) : Prop where
  achain : ArenaChain s s.first_arena al
  aend : al ≠ [] → al.getLast? = some s.arena_end
  abound : ∀ a ∈ al, sizeof_Arena + sizeof_Header < (s.arenas a).size ∧
    a + (s.arenas a).size ≤ W
  adisj : al.Pairwise
    (fun a b => a + (s.arenas a).size ≤ b ∨ b + (s.arenas b).size ≤ a)

/-- The heap invariant: `al` is the arena list, `bl` the ring of blocks (in
some rotation), `L` the live references. -/
structure WF (s : Heap) (al bl L : List Nat) : Prop where
  ar : AWF s al
  ring : al ≠ [] → Ring s bl
  empty : al = [] → bl = [] ∧ s.ctor_temp = 0
  firsts : ∀ a ∈ al, a + sizeof_Arena ∈ bl
  ctemp : al ≠ [] → ∃ a ∈ al, s.ctor_temp = a + sizeof_Arena
  inar : ∀ b ∈ bl, ∃ a ∈ al, a + sizeof_Arena ≤ b ∧
    b + sizeof_Header + (s.hdrs b).size ≤ a + (s.arenas a).size
  bdisj : bl.Pairwise (fun b c =>
    b + sizeof_Header + (s.hdrs b).size ≤ c ∨ c + sizeof_Header + (s.hdrs c).size ≤ b)
  cons : blockBytes s bl = arenaBytes s al
  used : ∀ b ∈ bl, (s.hdrs b).asize ≤ (s.hdrs b).size
  live : ∀ p, p ∈ L ↔ ∃ b ∈ bl, (s.hdrs b).asize ≠ 0 ∧ p = b + sizeof_Header

/-! ## Valid call sequences -/

/-- The number of bytes `mmalloc(size)` asks of `mmap`. -/
def arena_request (size : Nat) : Nat :=
  allign_page (add64 (add64 size sizeof_Header) sizeof_Arena)

/-- What the page source may answer to a request of `req` bytes in state `s`:
failure, or a region that is not `NULL`, of positive length, inside the
address space and disjoint from every arena mapped so far. -/
def FreshPage (s : Heap) (mm req : Nat) : Prop :=
  mm = MAP_FAILED ∨
  (mm ≠ 0 ∧ 0 < req ∧ mm + req ≤ W ∧
    ∀ al, IsArenaList s al → ∀ a ∈ al, mm + req ≤ a ∨ a + (s.arenas a).size ≤ mm)

/-- The two answers the page source may give during one `mmalloc(size)`. -/
def Pages (s : Heap) (mm1 mm2 size : Nat) : Prop :=
  FreshPage s mm1 (arena_request size) ∧ FreshPage s mm2 (arena_request size) ∧
  (mm1 ≠ MAP_FAILED → mm2 ≠ MAP_FAILED →
    mm1 + arena_request size ≤ mm2 ∨ mm2 + arena_request size ≤ mm1)

/-- The largest request for which `size + sizeof(Header) + sizeof(Arena)`
is rounded up to a page multiple without wrapping in `size_t`. -/
def MAXREQ : Nat := W - (PAGE_SIZE + sizeof_Header + sizeof_Arena)

/-- The largest value of `size_t`. -/
def SIZE_MAX : Nat := W - 1

/-- Heap states and live references reachable by valid calls whose size
arguments are positive and at most `B`: `Reach B s L` says that `s` is
reachable and `L` lists the references returned and not yet released. -/
inductive Reach (B : Nat) : Heap → List Nat → Prop where
  | start (s : Heap) : s.first_arena = 0 → s.arena_end = 0 → s.ctor_temp = 0 →
      Reach B s []
  | malloc (s s' : Heap) (L : List Nat) (fuel mm1 mm2 size p : Nat) :
      Reach B s L → 0 < size → size ≤ B → Pages s mm1 mm2 size →
      mmalloc fuel mm1 mm2 size s = Outcome.ok (p, s') → Reach B s' (p :: L)
  | free (s s' : Heap) (L : List Nat) (fuel p : Nat) :
      Reach B s L → p ∈ L → mfree fuel p s = Outcome.ok s' →
      Reach B s' (L.filter (fun q => decide (q ≠ p)))
  | realloc (s s' : Heap) (L : List Nat) (fuel mm1 mm2 p size r : Nat) :
      Reach B s L → p ∈ L → 0 < size → size ≤ B → Pages s mm1 mm2 size →
      mrealloc fuel mm1 mm2 p size s = Outcome.ok (r, s') →
      Reach B s' (if r = 0 then L else r :: L.filter (fun q => decide (q ≠ p)))
  | write (s : Heap) (L : List Nat) (p i v : Nat) :
      Reach B s L → p ∈ L → i < (s.hdrs (p - sizeof_Header)).asize →
      Reach B { s with bytes := Function.update s.bytes (p + i) v } L

/-- The predicate of `first_fit`: the block is free and large enough. -/
def fits (s : Heap) (size : Nat) (h : Nat) : Bool :=
  decide ((s.hdrs h).asize = 0 ∧ (s.hdrs h).size ≥ size)

/-- Walks are decidable. -/
instance decSeg (nx : Nat → Nat) : (a : Nat) → (l : List Nat) → (z : Nat) →
    Decidable (Seg nx a l z)
  | a, [], z => inferInstanceAs (Decidable (nx a = z))
  | a, x :: l, z =>
    @instDecidableAnd _ _ (inferInstanceAs (Decidable (nx a = x))) (decSeg nx x l z)

/-- Rings are decidable. -/
instance decRing (s : Heap) : (l : List Nat) → Decidable (Ring s l)
  | [] => isFalse (fun h => h)
  | a :: t => decSeg (fun x => (s.hdrs x).next) a t a

/-- Arena chains are decidable. -/
instance decArenaChain (s : Heap) : (a : Nat) → (l : List Nat) →
    Decidable (ArenaChain s a l)
  | a, [] => inferInstanceAs (Decidable (a = 0))
  | a, x :: l =>
    @instDecidableAnd _ _ (inferInstanceAs (Decidable (a = x)))
      (@instDecidableAnd _ _ (inferInstanceAs (Decidable (x ≠ 0)))
        (decArenaChain s (s.arenas x).next l))

/-- Being the block list is decidable. -/
instance decIsBlockList (s : Heap) (bl : List Nat) : Decidable (IsBlockList s bl) :=
  inferInstanceAs (Decidable ((s.first_arena = 0 ∧ bl = []) ∨
    (s.first_arena ≠ 0 ∧ Ring s bl ∧ bl.Nodup ∧ bl.head? = some (anchor s))))

/-- Being the arena list is decidable. -/
instance decIsArenaList (s : Heap) (al : List Nat) : Decidable (IsArenaList s al) :=
  decArenaChain s s.first_arena al

/-! ## Statements about live references and concrete runs -/

/-- The requested size recorded for the reference `p`, read from the header
in front of it. -/
def liveAsize (s : Heap) (p : Nat) : Nat := (s.hdrs (p - sizeof_Header)).asize

/-- No overlap: the payload ranges `[p, p + asize)` of the live references are
pairwise disjoint, and none of them meets the header `[h, h + sizeof(Header))`
of a listed block. -/
def NoOverlap (s : Heap) (L : List Nat) : Prop :=
  (∀ p ∈ L, ∀ q ∈ L, p ≠ q → p + liveAsize s p ≤ q ∨ q + liveAsize s q ≤ p) ∧
  (∀ bl, IsBlockList s bl → ∀ h ∈ bl, ∀ p ∈ L,
    h + sizeof_Header ≤ p ∨ p + liveAsize s p ≤ h)

/-- Conservation: block bytes and arena bytes agree, for the block list and
the arena list of the state. -/
def Conserved (s : Heap) : Prop :=
  (∃ al bl, IsArenaList s al ∧ IsBlockList s bl) ∧
  ∀ al bl, IsArenaList s al → IsBlockList s bl → blockBytes s bl = arenaBytes s al

/-- Every listed block that is marked used has `asize <= size`. -/
def UsedWithinCapacity (s : Heap) : Prop :=
  ∀ bl, IsBlockList s bl → ∀ b ∈ bl, (s.hdrs b).asize ≠ 0 → (s.hdrs b).asize ≤ (s.hdrs b).size

/-- The heap of a successful call (the initial heap otherwise). -/
def outHeap : Outcome (Nat × Heap) → Heap
  | Outcome.ok (_, s) => s
  | _ => init

/-- The heap of a successful `mfree` (the initial heap otherwise). -/
def freeHeap : Outcome Heap → Heap
  | Outcome.ok s => s
  | _ => init

/-- The forward coalescing step of `mfree`, on the state `s1` in which the
block `b` has just been marked free. -/
def mfree_fwd (b : Nat) (s1 : Heap) : Heap :=
  if b < (s1.hdrs b).next ∧ hdr_can_merge b (s1.hdrs b).next s1 = true
  then hdr_merge b (s1.hdrs b).next s1 else s1

/-- The backward coalescing step of `mfree`, given the predecessor found. -/
def mfree_bwd (prev b : Nat) (s2 : Heap) : Heap :=
  if prev < b ∧ hdr_can_merge prev b s2 = true then hdr_merge prev b s2 else s2

/-- The heap `s2` holds the two blocks `A` and `B` of `s` coalesced: the
header at `A` is free, has the joint capacity and `B`'s old successor; `A` is
in the block list and `B` is not; `first_fit` succeeds for every request up to
the joint capacity. -/
def Coalesced (s s2 : Heap) (A B fuel : Nat) : Prop :=
  s2.hdrs A = ⟨(s.hdrs B).next,
    (s.hdrs A).size + (s.hdrs B).size + sizeof_Header, 0⟩ ∧
  (∃ bl2, IsBlockList s2 bl2) ∧
  (∀ bl2, IsBlockList s2 bl2 → A ∈ bl2 ∧ B ∉ bl2) ∧
  (∀ sz, 0 < sz → sz ≤ (s.hdrs A).size + (s.hdrs B).size + sizeof_Header →
    ∃ r, first_fit fuel sz s2 = some r ∧ r ≠ 0)

/-- Releasing `p` and then `q` returns both times and leaves `A` and `B`
coalesced. -/
def CoalescedAfter (s : Heap) (A B fuel p q : Nat) : Prop :=
  ∃ s1 s2, mfree fuel p s = Outcome.ok s1 ∧ mfree fuel q s1 = Outcome.ok s2 ∧
    Coalesced s s2 A B fuel

/-- Whether a call returned. -/
def isOk {α : Type} : Outcome α → Bool
  | Outcome.ok _ => true
  | _ => false

/-- The reference a successful call returned (`NULL` otherwise). -/
def outPtr : Outcome (Nat × Heap) → Nat
  | Outcome.ok (p, _) => p
  | _ => 0

/-- Address the page source hands out first in the sample runs. -/
def pageA : Nat := 2097152

/-- Address the page source hands out second in the sample runs. -/
def pageB : Nat := 1048576

/-- Sample run: `mmalloc(1)` on the initial heap, page at `pageA`. -/
def ovfA : Heap := outHeap (mmalloc 4 pageA MAP_FAILED 1 init)

/-- Sample run: then `mmalloc(2^64 - 39)`, page at `pageB`. -/
def ovfB : Heap := outHeap (mmalloc 4 MAP_FAILED pageB 18446744073709551577 ovfA)

/-- Sample run: `mmalloc(2^64 - 24)` after `ovfA`, page at `pageB`. -/
def ovfC : Heap := outHeap (mmalloc 4 MAP_FAILED pageB 18446744073709551592 ovfA)

/-- Sample run: `mmalloc(100)` on the initial heap, page at `pageA`. -/
def demo1 : Heap := outHeap (mmalloc 4 pageA MAP_FAILED 100 init)


/-- The three stores of the absorption branch of `mrealloc`, as a state
transformer (`b` is the block, `r` its list successor). -/
def absorb_stores (s : Heap) (b r size : Nat) : Heap :=
  setAsize (setSize (setNext s b (s.hdrs r).next) b
    (add64 ((setNext s b (s.hdrs r).next).hdrs b).size
      (add64 ((setNext s b (s.hdrs r).next).hdrs r).size sizeof_Header))) b size

/-- Function `hdr_split` of a free listed block that `hdr_should_split` accepts adds
the new header to the list and keeps the block bytes. -/
def SplitConserves (s : Heap) : Prop :=
  ∀ bl b req, IsBlockList s bl → b ∈ bl → (s.hdrs b).asize = 0 →
    sizeof_Header + req + 1 ≤ (s.hdrs b).size →
    blockBytes (hdr_split b req s).2 ((hdr_split b req s).1 :: bl) = blockBytes s bl

/-- Function `hdr_merge` of a listed block with its free, physically adjacent list
successor drops the successor from the list and keeps the block bytes. -/
def MergeConserves (s : Heap) : Prop :=
  ∀ bl l r, IsBlockList s bl → l ∈ bl → r ∈ bl → (s.hdrs l).next = r →
    l + sizeof_Header + (s.hdrs l).size = r → (s.hdrs r).asize = 0 →
    blockBytes (hdr_merge l r s) (bl.erase r) = blockBytes s bl

/-- The in-place absorption of `mrealloc` keeps the block bytes. -/
def AbsorbConserves (s : Heap) : Prop :=
  ∀ bl b r size, IsBlockList s bl → b ∈ bl → r ∈ bl → (s.hdrs b).next = r →
    b + sizeof_Header + (s.hdrs b).size = r → (s.hdrs r).asize = 0 →
    blockBytes (absorb_stores s b r size) (bl.erase r) = blockBytes s bl

/-- A new arena adds the same number of bytes to both sums. -/
def NewArenaConserves (s : Heap) : Prop :=
  ∀ al bl mm size, IsArenaList s al → IsBlockList s bl → size ≤ MAXREQ → mm ≠ MAP_FAILED →
    FreshPage s mm (arena_request size) →
    ∃ nh s', new_arena mm size s = Outcome.ok (nh, s') ∧ IsArenaList s' (al ++ [mm]) ∧
      blockBytes s' (nh :: bl) = blockBytes s bl + (arena_request size - sizeof_Arena) ∧
      arenaBytes s' (al ++ [mm]) = arenaBytes s al + (arena_request size - sizeof_Arena)

/-- Sample run: `mrealloc(p, 40)` on the block of `demo1`. -/
def demoS : Heap := outHeap (mrealloc 4 MAP_FAILED MAP_FAILED 2097192 40 demo1)

/-- Sample run: `mmalloc(10)` on the initial heap, page at `pageA`. -/
def demo4a : Heap := outHeap (mmalloc 4 pageA MAP_FAILED 10 init)

/-- Sample run: then `mmalloc(20)`. -/
def demo4b : Heap := outHeap (mmalloc 4 MAP_FAILED MAP_FAILED 20 demo4a)

/-- Sample run: then `mmalloc(30)`. -/
def demo4c : Heap := outHeap (mmalloc 4 MAP_FAILED MAP_FAILED 30 demo4b)

/-- Sample run: then `mfree` of the second reference; the list now has a free
block of 20 bytes followed, after a used block, by the large free rest. -/
def demo4 : Heap := freeHeap (mfree 4 2097226 demo4c)

/-- Sample run: `mmalloc(131032)` on the initial heap fills the arena at
`pageA` exactly. -/
def cex5a : Heap := outHeap (mmalloc 4 pageA MAP_FAILED 131032 init)

/-- Sample run: then `mmalloc(1)`, which needs a second arena, at `pageB`. -/
def cex5b : Heap := outHeap (mmalloc 4 MAP_FAILED pageB 1 cex5a)

/-- Sample run: then `mfree` of the first reference. -/
def cex5c : Heap := freeHeap (mfree 4 2097192 cex5b)

/-- Sample run: then `mfree` of the second reference: the anchor and its
list successor are both free blocks of 131032 bytes. -/
def cex5d : Heap := freeHeap (mfree 4 1048616 cex5c)

/-- Sample run: `mmalloc(0)` on the initial heap, page at `pageA`. -/
def zeroA : Heap := outHeap (mmalloc 4 pageA MAP_FAILED 0 init)

/-- Sample run: the arena that `mmalloc(131007)` creates on the initial heap
(`arena_alloc; arena_append; hdr_ctor`), before the search. -/
def tightA : Heap := outHeap (new_arena pageA 131007 init)

/-- Sample run: `mmalloc(131007)` on the initial heap, page at `pageA`. -/
def tightB : Heap := outHeap (mmalloc 4 pageA MAP_FAILED 131007 init)

/-- Sample run: `mfree` of the second reference of `ovfC`. -/
def brk1 : Heap := freeHeap (mfree 4 1048616 ovfC)

/-- Sample run: then `mmalloc(1048684)`, which is served from the block at
`pageB + 16` and puts the remainder header at 2097300, inside the arena at
`pageA`. -/
def brk2 : Heap := outHeap (mmalloc 4 MAP_FAILED MAP_FAILED 1048684 brk1)

/-- Sample run: `mmalloc(100)` after `brk1`. -/
def wrap1 : Heap := outHeap (mmalloc 4 MAP_FAILED MAP_FAILED 100 brk1)

/-- Sample run: then `mmalloc(1048428)`, whose remainder header lands on the
anchor. -/
def wrap2 : Heap := outHeap (mmalloc 4 MAP_FAILED MAP_FAILED 1048428 wrap1)

/-- Sample run: then `mfree` of the reference returned by `mmalloc(100)`. -/
def wrap3 : Heap := freeHeap (mfree 4 1048616 wrap2)

/-- The address `x` lies in the arena at `a`. -/
def InArena (s : Heap) (a x : Nat) : Prop := a ≤ x ∧ x < a + (s.arenas a).size

/-- The headers at `l` and `r` lie in one arena of the arena list. -/
def SameArena (s : Heap) (l r : Nat) : Prop :=
  ∃ al, IsArenaList s al ∧ ∃ a ∈ al, InArena s a l ∧ InArena s a r

/-- The header at `x` is the first block of an arena of the arena list. -/
def ArenaFirst (s : Heap) (x : Nat) : Prop :=
  ∃ al, IsArenaList s al ∧ ∃ a ∈ al, x = a + sizeof_Arena

/-- A merge of `left` with `right` that stays inside one arena: `left < right`,
both headers lie in the same arena, and `right` is not the first block of an
arena. -/
def MergeInArena (s : Heap) (left right : Nat) : Prop :=
  left < right ∧ SameArena s left right ∧ ¬ ArenaFirst s right

/-- Sample run: `mfree` of the reference returned in `brk2`. -/
def brk3 : Heap := freeHeap (mfree 4 1048616 brk2)

/-- No free block of the list `bl` has a free list successor that starts
where it ends. -/
def NoFreePair (s : Heap) (bl : List Nat) : Prop :=
  ∀ l ∈ bl, (s.hdrs l).asize = 0 → (s.hdrs (s.hdrs l).next).asize = 0 →
    l + sizeof_Header + (s.hdrs l).size ≠ (s.hdrs l).next

/-- Fully coalesced: the block list has no two blocks `l`, `r` with
`l->next == r`, `r` at the address `l + l->size + sizeof(Header)` (computed as
`hdr_can_merge` does) and both free. -/
def FullyCoalesced (s : Heap) : Prop :=
  ∀ bl, IsBlockList s bl → ∀ l ∈ bl, ∀ r ∈ bl, (s.hdrs l).next = r →
    add64 (add64 l (s.hdrs l).size) sizeof_Header = r →
    ¬ ((s.hdrs l).asize = 0 ∧ (s.hdrs r).asize = 0)

/-- Address the page source hands out third in the sample runs. -/
def pageC : Nat := 4194304

/-- Sample run: `mmalloc(1)` on the initial heap (fuel 8), page at `pageA`. -/
def tail1 : Heap := outHeap (mmalloc 8 pageA MAP_FAILED 1 init)

/-- Sample run: then `mmalloc(5)`. -/
def tail2 : Heap := outHeap (mmalloc 8 MAP_FAILED MAP_FAILED 5 tail1)

/-- Sample run: then `mmalloc(7)`. -/
def tail3 : Heap := outHeap (mmalloc 8 MAP_FAILED MAP_FAILED 7 tail2)

/-- Sample run: then `mmalloc(9)`. -/
def tail4 : Heap := outHeap (mmalloc 8 MAP_FAILED MAP_FAILED 9 tail3)

/-- Sample run: then `mmalloc(11)`. -/
def tail5 : Heap := outHeap (mmalloc 8 MAP_FAILED MAP_FAILED 11 tail4)

/-- Sample run: then `mmalloc(2^64 - 24)`, page at `pageB`: five used blocks
of 1, 5, 7, 9 and 11 bytes and the free rest in the arena at `pageA`, and the
self-linked header at `pageB + 16`. -/
def tail6 : Heap := outHeap (mmalloc 8 MAP_FAILED pageB 18446744073709551592 tail5)

/-- Sample run: `mmalloc(131008)` after `ovfA`, page at `pageB`. -/
def trip1 : Heap := outHeap (mmalloc 4 MAP_FAILED pageB 131008 ovfA)

/-- Sample run: then `mfree` of that reference. -/
def trip2 : Heap := freeHeap (mfree 4 1048616 trip1)

/-- Sample run: then `mmalloc(2^64 - 24)`, page at `pageC`: the anchor (used),
the free block at `pageB + 16`, and the self-linked header at `pageC + 16`. -/
def trip3 : Heap := outHeap (mmalloc 4 MAP_FAILED pageC 18446744073709551592 trip2)

/-- Sample run: then `mmalloc(100)`, served from the free block at
`pageB + 16`. -/
def trip4 : Heap := outHeap (mmalloc 4 MAP_FAILED MAP_FAILED 100 trip3)

/-! ## Segments and rings -/

theorem seg_append (nx : Nat → Nat) (l1 l2 : List Nat) (a x z : Nat) :
    Seg nx a (l1 ++ x :: l2) z ↔ Seg nx a l1 x ∧ Seg nx x l2 z := by
  induction l1 generalizing a with
  | nil => simp [Seg]
  | cons y l1 ih => simp [Seg, ih, and_assoc]

theorem seg_congr (nx nx' : Nat → Nat) (l : List Nat) (a z : Nat)
    (h : ∀ y ∈ a :: l, nx' y = nx y) : Seg nx' a l z ↔ Seg nx a l z := by
  induction l generalizing a with
  | nil => simp [Seg, h a (by simp)]
  | cons y l ih =>
    have h1 : ∀ w ∈ y :: l, nx' w = nx w := fun w hw => h w (List.mem_cons_of_mem _ hw)
    simp [Seg, h a (by simp), ih y h1]

theorem seg_next_mem (nx : Nat → Nat) (l : List Nat) (a z y : Nat)
    (h : Seg nx a l z) (hy : y ∈ a :: l) : nx y ∈ l ++ [z] := by
  induction l generalizing a with
  | nil =>
    simp only [List.mem_singleton] at hy
    subst hy
    simpa [Seg] using h
  | cons x l ih =>
    obtain ⟨h1, h2⟩ := h
    rcases List.mem_cons.1 hy with rfl | hy
    · simp [h1]
    · have := ih x h2 hy
      simp only [List.cons_append, List.mem_cons]
      exact Or.inr this

/-- Two walks from the same start to the same end that avoid the end
coincide. -/
theorem seg_unique (nx : Nat → Nat) (l l' : List Nat) (a z : Nat)
    (h : Seg nx a l z) (h' : Seg nx a l' z) (hz : z ∉ l) (hz' : z ∉ l') : l = l' := by
  induction l generalizing a l' with
  | nil =>
    cases l' with
    | nil => rfl
    | cons y l' =>
      exfalso
      have h1 : nx a = z := h
      have h2 : nx a = y := h'.1
      exact hz' (by simp [← h2, h1])
  | cons x l ih =>
    cases l' with
    | nil =>
      exfalso
      have h1 : nx a = x := h.1
      have h2 : nx a = z := h'
      exact hz (by simp [← h1, h2])
    | cons y l' =>
      have h1 : nx a = x := h.1
      have h2 : nx a = y := h'.1
      have hxy : x = y := by rw [← h1, h2]
      subst hxy
      have := ih l' x h.2 h'.2 (fun hm => hz (List.mem_cons_of_mem _ hm))
        (fun hm => hz' (List.mem_cons_of_mem _ hm))
      rw [this]

theorem ring_ne_nil (s : Heap) (l : List Nat) (h : Ring s l) : l ≠ [] := by
  cases l with
  | nil => exact absurd h (by simp [Ring])
  | cons a t => simp

/-- A ring can be read from any of its members. -/
theorem ring_rotate (s : Heap) (l1 l2 : List Nat) (b : Nat) (h : Ring s (l1 ++ b :: l2)) :
    Ring s (b :: (l2 ++ l1)) := by
  cases l1 with
  | nil => simpa using h
  | cons a l1 =>
    have h1 : Seg (fun x => (s.hdrs x).next) a (l1 ++ b :: l2) a := h
    rw [seg_append] at h1
    show Seg (fun x => (s.hdrs x).next) b (l2 ++ a :: l1) b
    rw [seg_append]
    exact ⟨h1.2, h1.1⟩

theorem ring_congr (s s' : Heap) (l : List Nat)
    (h : ∀ y ∈ l, (s'.hdrs y).next = (s.hdrs y).next) : Ring s' l ↔ Ring s l := by
  cases l with
  | nil => simp [Ring]
  | cons a t => exact seg_congr _ _ t a a h

/-- Splicing a new header `x` right after the head of a ring. -/
theorem ring_insert (s s' : Heap) (b x : Nat) (t : List Nat) (h : Ring s (b :: t))
    (hb : (s'.hdrs b).next = x) (hx : (s'.hdrs x).next = (s.hdrs b).next)
    (ht : ∀ y ∈ t, (s'.hdrs y).next = (s.hdrs y).next) : Ring s' (b :: x :: t) := by
  show Seg (fun y => (s'.hdrs y).next) b (x :: t) b
  refine ⟨hb, ?_⟩
  cases t with
  | nil =>
    have h1 : (s.hdrs b).next = b := h
    show (s'.hdrs x).next = b
    rw [hx, h1]
  | cons y t =>
    obtain ⟨h1, h2⟩ := h
    have h5 : (s'.hdrs x).next = y := by rw [hx]; exact h1
    exact ⟨h5, (seg_congr _ _ t y b ht).2 h2⟩

/-- Unlinking the second header of a ring. -/
theorem ring_remove (s s' : Heap) (l r : Nat) (t : List Nat) (h : Ring s (l :: r :: t))
    (hl : (s'.hdrs l).next = (s.hdrs r).next)
    (ht : ∀ y ∈ t, (s'.hdrs y).next = (s.hdrs y).next) : Ring s' (l :: t) := by
  obtain ⟨_, h2⟩ := h
  cases t with
  | nil =>
    have h3 : (s.hdrs r).next = l := h2
    show (s'.hdrs l).next = l
    rw [hl, h3]
  | cons y t =>
    obtain ⟨h3, h4⟩ := h2
    have h5 : (s'.hdrs l).next = y := by rw [hl]; exact h3
    exact ⟨h5, (seg_congr _ _ t y l ht).2 h4⟩

theorem ring_next_mem (s : Heap) (l : List Nat) (y : Nat) (h : Ring s l) (hy : y ∈ l) :
    (s.hdrs y).next ∈ l := by
  cases l with
  | nil => simp at hy
  | cons a t =>
    have := seg_next_mem _ t a a y h hy
    simp only [List.mem_append, List.mem_singleton] at this
    rcases this with h1 | h1
    · exact List.mem_cons_of_mem _ h1
    · rw [h1]; simp

theorem ring_of_mem (s : Heap) (l : List Nat) (b : Nat) (h : Ring s l) (hb : b ∈ l) :
    ∃ t, Ring s (b :: t) ∧ List.Perm (b :: t) l := by
  obtain ⟨l1, l2, rfl⟩ := List.append_of_mem hb
  refine ⟨l2 ++ l1, ring_rotate s l1 l2 b h, ?_⟩
  have : List.Perm (b :: (l2 ++ l1)) (b :: l2 ++ l1) := by simp
  exact this.trans List.perm_append_comm

/-! ## The two loops -/

/-- The value the `first_fit` loop computes on a walk `l` that ends at
`first`: the first fitting header of `l ++ [first]`, or `NULL`. -/
theorem first_fit_loop_spec (s : Heap) (size first : Nat) (l : List Nat) (x fuel : Nat)
    (h : Seg (fun a => (s.hdrs a).next) x l first) (hnot : first ∉ l) :
    (l.length < fuel → first_fit_loop size first s fuel x =
        some (((l ++ [first]).find? (fits s size)).getD 0)) ∧
    (first_fit_loop size first s fuel x = none ∨
      first_fit_loop size first s fuel x =
        some (((l ++ [first]).find? (fits s size)).getD 0)) := by
  induction l generalizing x fuel with
  | nil =>
    have h1 : (s.hdrs x).next = first := h
    cases fuel with
    | zero => simp [first_fit_loop]
    | succ n =>
      by_cases hf : (s.hdrs first).asize = 0 ∧ (s.hdrs first).size ≥ size
      · simp [first_fit_loop, h1, fits, hf, List.find?]
      · simp [first_fit_loop, h1, fits, hf, List.find?]
  | cons y l ih =>
    obtain ⟨h1, h2⟩ := h
    have h1 : (s.hdrs x).next = y := h1
    have hy : y ≠ first := fun e => hnot (by simp [e])
    have hnot' : first ∉ l := fun e => hnot (List.mem_cons_of_mem _ e)
    cases fuel with
    | zero => simp [first_fit_loop]
    | succ n =>
      by_cases hf : (s.hdrs y).asize = 0 ∧ (s.hdrs y).size ≥ size
      · simp [first_fit_loop, h1, fits, hf, List.find?]
      · have := ih y n h2 hnot'
        simp only [first_fit_loop, h1, hf, if_false, hy, ne_eq, not_false_eq_true, if_true,
          List.cons_append, List.length_cons, Nat.add_lt_add_iff_right]
        have hfy : fits s size y = false := by simp [fits, hf]
        simp only [List.find?, hfy]
        exact this

/-- The value the `hdr_get_prev` loop computes on a walk `l` that ends at
`hdr`: the last header of the walk. -/
theorem hdr_get_prev_loop_spec (s : Heap) (hdr : Nat) (l : List Nat) (x fuel : Nat)
    (h : Seg (fun a => (s.hdrs a).next) x l hdr) (hnot : hdr ∉ l) :
    (l.length < fuel → hdr_get_prev_loop hdr s fuel x = some (l.getLastD x)) ∧
    (hdr_get_prev_loop hdr s fuel x = none ∨
      hdr_get_prev_loop hdr s fuel x = some (l.getLastD x)) := by
  induction l generalizing x fuel with
  | nil =>
    have h1 : (s.hdrs x).next = hdr := h
    cases fuel with
    | zero => simp [hdr_get_prev_loop]
    | succ n => simp [hdr_get_prev_loop, h1]
  | cons y l ih =>
    obtain ⟨h1, h2⟩ := h
    have h1 : (s.hdrs x).next = y := h1
    have hy : y ≠ hdr := fun e => hnot (by simp [e])
    have hnot' : hdr ∉ l := fun e => hnot (List.mem_cons_of_mem _ e)
    cases fuel with
    | zero => simp [hdr_get_prev_loop]
    | succ n =>
      have := ih y n h2 hnot'
      simp only [hdr_get_prev_loop, h1, hy, ne_eq, not_false_eq_true, if_true,
        List.length_cons, Nat.add_lt_add_iff_right, List.getLastD_cons]
      exact this

/-- The predecessor found in a ring is its last header; when it is not the
head, the ring can be read from it. -/
theorem ring_prev (s : Heap) (b : Nat) (t : List Nat) (h : Ring s (b :: t))
    (hp : t.getLastD b ≠ b) :
    ∃ t', t = t' ++ [t.getLastD b] ∧ Ring s (t.getLastD b :: b :: t') := by
  rcases List.eq_nil_or_concat t with rfl | ⟨t', p, rfl⟩
  · simp at hp
  · refine ⟨t', by simp, ?_⟩
    have := ring_rotate s (b :: t') [] p (by simpa using h)
    simpa using this

/-! ## What the header operations store -/

theorem add64_eq (a b : Nat) (h : a + b < W) : add64 a b = a + b := by
  unfold add64; exact Nat.mod_eq_of_lt h

theorem sub64_eq (a b : Nat) (h : b ≤ a) (ha : a < W) : sub64 a b = a - b := by
  unfold sub64 W at *; omega

theorem setAsize_hdrs (s : Heap) (h v x : Nat) :
    (setAsize s h v).hdrs x = if x = h then { s.hdrs h with asize := v } else s.hdrs x := by
  simp [setAsize, Function.update_apply]

theorem setSize_hdrs (s : Heap) (h v x : Nat) :
    (setSize s h v).hdrs x = if x = h then { s.hdrs h with size := v } else s.hdrs x := by
  simp [setSize, Function.update_apply]

theorem setNext_hdrs (s : Heap) (h v x : Nat) :
    (setNext s h v).hdrs x = if x = h then { s.hdrs h with next := v } else s.hdrs x := by
  simp [setNext, Function.update_apply]

theorem setAsize_arenas (s : Heap) (h v : Nat) : (setAsize s h v).arenas = s.arenas := rfl

theorem setAsize_first_arena (s : Heap) (h v : Nat) :
    (setAsize s h v).first_arena = s.first_arena := rfl

theorem setAsize_bytes (s : Heap) (h v : Nat) : (setAsize s h v).bytes = s.bytes := rfl

theorem hdr_split_spec (s : Heap) (b req : Nat)
    (h1 : b + sizeof_Header + (s.hdrs b).size ≤ W)
    (h2 : sizeof_Header + req + 1 ≤ (s.hdrs b).size) :
    (hdr_split b req s).1 = b + sizeof_Header + req ∧
    (hdr_split b req s).2.hdrs b =
      ⟨b + sizeof_Header + req, req, (s.hdrs b).asize⟩ ∧
    (hdr_split b req s).2.hdrs (b + sizeof_Header + req) =
      ⟨(s.hdrs b).next, (s.hdrs b).size - req - sizeof_Header, 0⟩ ∧
    (∀ x, x ≠ b → x ≠ b + sizeof_Header + req →
      (hdr_split b req s).2.hdrs x = s.hdrs x) ∧
    (hdr_split b req s).2.arenas = s.arenas ∧
    (hdr_split b req s).2.first_arena = s.first_arena ∧
    (hdr_split b req s).2.arena_end = s.arena_end ∧
    (hdr_split b req s).2.ctor_temp = s.ctor_temp ∧
    (hdr_split b req s).2.bytes = s.bytes := by
  have e1 : add64 (add64 b sizeof_Header) req = b + sizeof_Header + req := by
    unfold add64 W sizeof_Header at *; omega
  have hne : b + sizeof_Header + req ≠ b := by unfold sizeof_Header; omega
  have e2 : sub64 (sub64 (s.hdrs b).size req) sizeof_Header
      = (s.hdrs b).size - req - sizeof_Header := by
    unfold sub64 W sizeof_Header at *; omega
  refine ⟨by simp [hdr_split, e1], ?_, ?_, ?_, rfl, rfl, rfl, rfl, rfl⟩
  · simp [hdr_split, e1, setSize_hdrs, setAsize_hdrs, setNext_hdrs, hne, hne.symm]
  · simp [hdr_split, e1, setSize_hdrs, setAsize_hdrs, setNext_hdrs, hne, hne.symm, e2]
  · intro x hx1 hx2
    simp [hdr_split, e1, setSize_hdrs, setAsize_hdrs, setNext_hdrs, hx1, hx2]

theorem hdr_merge_spec (s : Heap) (l r : Nat) (hne : l ≠ r)
    (h1 : (s.hdrs l).size + (s.hdrs r).size + sizeof_Header < W) :
    (hdr_merge l r s).hdrs l =
      ⟨(s.hdrs r).next, (s.hdrs l).size + (s.hdrs r).size + sizeof_Header, (s.hdrs l).asize⟩ ∧
    (∀ x, x ≠ l → (hdr_merge l r s).hdrs x = s.hdrs x) ∧
    (hdr_merge l r s).arenas = s.arenas ∧
    (hdr_merge l r s).first_arena = s.first_arena ∧
    (hdr_merge l r s).arena_end = s.arena_end ∧
    (hdr_merge l r s).ctor_temp = s.ctor_temp ∧
    (hdr_merge l r s).bytes = s.bytes := by
  have e1 : add64 (s.hdrs l).size (add64 (s.hdrs r).size sizeof_Header)
      = (s.hdrs l).size + (s.hdrs r).size + sizeof_Header := by
    unfold add64 W sizeof_Header at *; omega
  refine ⟨?_, ?_, rfl, rfl, rfl, rfl, rfl⟩
  · simp [hdr_merge, e1, setSize_hdrs, setNext_hdrs, hne, hne.symm]
  · intro x hx
    simp [hdr_merge, setSize_hdrs, setNext_hdrs, hx]

/-! ## Consequences of the invariant -/

theorem wf_al_ne (s : Heap) (al bl L : List Nat) (h : WF s al bl L) (b : Nat) (hb : b ∈ bl) :
    al ≠ [] := by
  obtain ⟨a, ha, _⟩ := h.inar b hb
  exact List.ne_nil_of_mem ha

theorem wf_block_bound (s : Heap) (al bl L : List Nat) (h : WF s al bl L) (b : Nat)
    (hb : b ∈ bl) : sizeof_Arena ≤ b ∧ b + sizeof_Header + (s.hdrs b).size ≤ W := by
  obtain ⟨a, ha, h1, h2⟩ := h.inar b hb
  have := (h.ar.abound a ha).2
  omega

theorem wf_nodup (s : Heap) (al bl L : List Nat) (h : WF s al bl L) : bl.Nodup := by
  refine List.Pairwise.imp ?_ h.bdisj
  intro x y hxy e
  subst e
  unfold sizeof_Header at hxy
  omega

theorem wf_perm (s : Heap) (al bl bl' L : List Nat) (h : WF s al bl L)
    (hp : List.Perm bl' bl) (hr : al ≠ [] → Ring s bl') : WF s al bl' L where
  ar := h.ar
  ring := hr
  empty := fun e => by
    have := (h.empty e).1
    subst this
    exact ⟨hp.eq_nil, (h.empty e).2⟩
  firsts := fun a ha => hp.mem_iff.2 (h.firsts a ha)
  ctemp := h.ctemp
  inar := fun b hb => h.inar b (hp.mem_iff.1 hb)
  bdisj := by
    refine (List.Perm.pairwise_iff ?_ hp).2 h.bdisj
    intro x y hxy
    exact hxy.symm
  cons := by
    rw [← h.cons]
    unfold blockBytes
    exact (hp.map _).sum_eq
  used := fun b hb => h.used b (hp.mem_iff.1 hb)
  live := fun p => by
    rw [h.live p]
    constructor
    · rintro ⟨b, hb, h1⟩
      exact ⟨b, hp.mem_iff.2 hb, h1⟩
    · rintro ⟨b, hb, h1⟩
      exact ⟨b, hp.mem_iff.1 hb, h1⟩

/-- The invariant can be read with any listed block at the head of the ring. -/
theorem wf_rotate (s : Heap) (al bl L : List Nat) (h : WF s al bl L) (b : Nat) (hb : b ∈ bl) :
    ∃ t, WF s al (b :: t) L ∧ List.Perm (b :: t) bl := by
  have hal := wf_al_ne s al bl L h b hb
  obtain ⟨t, ht, hp⟩ := ring_of_mem s bl b (h.ring hal) hb
  exact ⟨t, wf_perm s al bl (b :: t) L h hp (fun _ => ht), hp⟩

theorem awf_congr (s s' : Heap) (al : List Nat) (h : AWF s al)
    (h1 : s'.first_arena = s.first_arena) (h2 : s'.arena_end = s.arena_end)
    (h3 : s'.arenas = s.arenas) : AWF s' al := by
  have hc : ∀ (l : List Nat) (a : Nat), ArenaChain s a l → ArenaChain s' a l := by
    intro l
    induction l with
    | nil => intro a ha; exact ha
    | cons x l ih =>
      intro a ha
      obtain ⟨e1, e2, e3⟩ := ha
      refine ⟨e1, e2, ?_⟩
      rw [h3]
      exact ih _ e3
  refine ⟨?_, ?_, ?_, ?_⟩
  · rw [h1]; exact hc al _ h.achain
  · rw [h2]; exact h.aend
  · rw [h3]; exact h.abound
  · rw [h3]; exact h.adisj

/-- Rebuilding the invariant after stores that touch header records only. -/
theorem wf_hdrs (s s' : Heap) (al bl bl' L L' : List Nat) (h : WF s al bl L)
    (h1 : s'.first_arena = s.first_arena) (h2 : s'.arena_end = s.arena_end)
    (h3 : s'.arenas = s.arenas) (h4 : s'.ctor_temp = s.ctor_temp)
    (hr : al ≠ [] → Ring s' bl') (he : al = [] → bl' = [])
    (hf : ∀ a ∈ al, a + sizeof_Arena ∈ bl')
    (hi : ∀ b ∈ bl', ∃ a ∈ al, a + sizeof_Arena ≤ b ∧
      b + sizeof_Header + (s'.hdrs b).size ≤ a + (s.arenas a).size)
    (hd : bl'.Pairwise (fun b c =>
      b + sizeof_Header + (s'.hdrs b).size ≤ c ∨ c + sizeof_Header + (s'.hdrs c).size ≤ b))
    (hc : blockBytes s' bl' = blockBytes s bl)
    (hu : ∀ b ∈ bl', (s'.hdrs b).asize ≤ (s'.hdrs b).size)
    (hl : ∀ p, p ∈ L' ↔ ∃ b ∈ bl', (s'.hdrs b).asize ≠ 0 ∧ p = b + sizeof_Header) :
    WF s' al bl' L' where
  ar := awf_congr s s' al h.ar h1 h2 h3
  ring := hr
  empty := fun e => ⟨he e, by rw [h4]; exact (h.empty e).2⟩
  firsts := hf
  ctemp := by rw [h4]; exact h.ctemp
  inar := by rw [h3]; exact hi
  bdisj := hd
  cons := by
    rw [hc, h.cons]
    unfold arenaBytes
    rw [h3]
  used := hu
  live := hl

/-- Splitting the free block at the head of the ring keeps the invariant;
the new right-hand block is listed right after it. -/
theorem wf_split (s : Heap) (al t L : List Nat) (b req : Nat) (h : WF s al (b :: t) L)
    (hreq : sizeof_Header + req + 1 ≤ (s.hdrs b).size) (hfree : (s.hdrs b).asize = 0) :
    WF (hdr_split b req s).2 al (b :: (b + sizeof_Header + req) :: t) L := by
  have hbb := wf_block_bound s al _ L h b (by simp)
  obtain ⟨-, e_b, e_t, e_o, e3, e1, e2, e4, -⟩ := hdr_split_spec s b req hbb.2 hreq
  have hal := wf_al_ne s al _ L h b (by simp)
  have hdis := List.pairwise_cons.1 h.bdisj
  have hne_b : ∀ x ∈ t, x ≠ b := by
    intro x hx e
    have := hdis.1 x hx
    subst e
    unfold sizeof_Header at this; omega
  have hne_t : ∀ x ∈ t, x ≠ b + sizeof_Header + req := by
    intro x hx e
    have := hdis.1 x hx
    subst e
    unfold sizeof_Header at *; omega
  have hsame : ∀ x ∈ t, (hdr_split b req s).2.hdrs x = s.hdrs x :=
    fun x hx => e_o x (hne_b x hx) (hne_t x hx)
  have htb : b + sizeof_Header + req ≠ b := by unfold sizeof_Header; omega
  refine wf_hdrs s _ al (b :: t) _ L L h e1 e2 e3 e4 ?_ ?_ ?_ ?_ ?_ ?_ ?_ ?_
  · intro _
    refine ring_insert s _ b _ t (h.ring hal) ?_ ?_ ?_
    · rw [e_b]
    · rw [e_t]
    · intro y hy; rw [hsame y hy]
  · intro e; exact absurd e hal
  · intro a ha
    have := h.firsts a ha
    simp only [List.mem_cons] at this ⊢
    tauto
  · intro x hx
    simp only [List.mem_cons] at hx
    rcases hx with rfl | rfl | hx
    · obtain ⟨a, ha, h5, h6⟩ := h.inar x (by simp)
      refine ⟨a, ha, h5, ?_⟩
      rw [e_b]; simp only []; unfold sizeof_Header at *; omega
    · obtain ⟨a, ha, h5, h6⟩ := h.inar b (by simp)
      refine ⟨a, ha, by omega, ?_⟩
      rw [e_t]; simp only []; unfold sizeof_Header at *; omega
    · obtain ⟨a, ha, h5, h6⟩ := h.inar x (by simp [hx])
      exact ⟨a, ha, h5, by rw [hsame x hx]; exact h6⟩
  · refine List.pairwise_cons.2 ⟨?_, List.pairwise_cons.2 ⟨?_, ?_⟩⟩
    · intro x hx
      rw [e_b]; simp only []
      rcases List.mem_cons.1 hx with rfl | hx
      · left; omega
      · rw [hsame x hx]
        have := hdis.1 x hx
        unfold sizeof_Header at *; omega
    · intro x hx
      rw [e_t, hsame x hx]; simp only []
      have := hdis.1 x hx
      unfold sizeof_Header at *; omega
    · refine List.Pairwise.imp_of_mem ?_ hdis.2
      intro x y hx hy hxy
      rw [hsame x hx, hsame y hy]; exact hxy
  · unfold blockBytes
    simp only [List.map_cons, List.sum_cons]
    rw [e_b, e_t]; simp only []
    have : List.map (fun b_1 => ((hdr_split b req s).2.hdrs b_1).size + sizeof_Header) t
        = List.map (fun b => (s.hdrs b).size + sizeof_Header) t :=
      List.map_congr_left (fun x hx => by rw [hsame x hx])
    rw [this]
    unfold sizeof_Header at *; omega
  · intro x hx
    simp only [List.mem_cons] at hx
    rcases hx with rfl | rfl | hx
    · rw [e_b]; simp only []; omega
    · rw [e_t]; simp
    · rw [hsame x hx]; exact h.used x (by simp [hx])
  · intro p
    rw [h.live p]
    constructor
    · rintro ⟨x, hx, h5, h6⟩
      rcases List.mem_cons.1 hx with rfl | hx
      · exact absurd hfree h5
      · exact ⟨x, by simp [hx], by rw [hsame x hx]; exact h5, h6⟩
    · rintro ⟨x, hx, h5, h6⟩
      simp only [List.mem_cons] at hx
      rcases hx with rfl | rfl | hx
      · rw [e_b] at h5; exact absurd hfree h5
      · rw [e_t] at h5; simp at h5
      · exact ⟨x, by simp [hx], by rw [hsame x hx] at h5; exact h5, h6⟩

theorem arena_disj (s : Heap) (al : List Nat) (h : AWF s al) (a1 a2 : Nat) (h1 : a1 ∈ al)
    (h2 : a2 ∈ al) :
    a1 = a2 ∨ a1 + (s.arenas a1).size ≤ a2 ∨ a2 + (s.arenas a2).size ≤ a1 := by
  by_cases e : a1 = a2
  · exact Or.inl e
  · right
    have hs : Symmetric
        (fun a b => a + (s.arenas a).size ≤ b ∨ b + (s.arenas b).size ≤ a) := by
      intro x y hxy; exact hxy.symm
    exact List.Pairwise.forall hs h.adisj h1 h2 e

/-- Merging the second block of the ring into the first, when it lies right
behind the first in memory and is free, keeps the invariant. -/
theorem wf_merge (s : Heap) (al t L : List Nat) (l r : Nat) (h : WF s al (l :: r :: t) L)
    (hadj : l + sizeof_Header + (s.hdrs l).size = r) (hfree : (s.hdrs r).asize = 0) :
    WF (hdr_merge l r s) al (l :: t) L := by
  have hlb := wf_block_bound s al _ L h l (by simp)
  have hrb := wf_block_bound s al _ L h r (by simp)
  have hlr : l ≠ r := by unfold sizeof_Header at hadj; omega
  have hnw : (s.hdrs l).size + (s.hdrs r).size + sizeof_Header < W := by
    unfold sizeof_Header sizeof_Arena at *; omega
  obtain ⟨e_l, e_o, e3, e1, e2, e4, -⟩ := hdr_merge_spec s l r hlr hnw
  have hal := wf_al_ne s al _ L h l (by simp)
  have hdis := List.pairwise_cons.1 h.bdisj
  have hdis2 := List.pairwise_cons.1 hdis.2
  have hne_l : ∀ x ∈ t, x ≠ l := by
    intro x hx e
    have := hdis.1 x (List.mem_cons_of_mem _ hx)
    subst e
    unfold sizeof_Header at this; omega
  have hsame : ∀ x ∈ t, (hdr_merge l r s).hdrs x = s.hdrs x := fun x hx => e_o x (hne_l x hx)
  obtain ⟨a1, ha1, h11, h12⟩ := h.inar l (by simp)
  obtain ⟨a2, ha2, h21, h22⟩ := h.inar r (by simp)
  have hb1 := h.ar.abound a1 ha1
  have hb2 := h.ar.abound a2 ha2
  have ha12 : a1 = a2 := by
    rcases arena_disj s al h.ar a1 a2 ha1 ha2 with e | e | e
    · exact e
    · unfold sizeof_Header sizeof_Arena at *; omega
    · unfold sizeof_Header sizeof_Arena at *; omega
  subst ha12
  have hrfirst : ∀ a ∈ al, a + sizeof_Arena ≠ r := by
    intro a ha e
    have hb := h.ar.abound a ha
    rcases arena_disj s al h.ar a1 a ha1 ha with e' | e' | e'
    · subst e'; unfold sizeof_Header sizeof_Arena at *; omega
    · unfold sizeof_Header sizeof_Arena at *; omega
    · unfold sizeof_Header sizeof_Arena at *; omega
  refine wf_hdrs s _ al (l :: r :: t) _ L L h e1 e2 e3 e4 ?_ ?_ ?_ ?_ ?_ ?_ ?_ ?_
  · intro _
    refine ring_remove s _ l r t (h.ring hal) ?_ ?_
    · rw [e_l]
    · intro y hy; rw [hsame y hy]
  · intro e; exact absurd e hal
  · intro a ha
    have := h.firsts a ha
    have hr := hrfirst a ha
    simp only [List.mem_cons] at this ⊢
    rcases this with e | e | e
    · exact Or.inl e
    · exact absurd e hr
    · exact Or.inr e
  · intro x hx
    rcases List.mem_cons.1 hx with rfl | hx
    · refine ⟨a1, ha1, h11, ?_⟩
      rw [e_l]; simp only []; unfold sizeof_Header at *; omega
    · obtain ⟨a, ha, h5, h6⟩ := h.inar x (by simp [hx])
      exact ⟨a, ha, h5, by rw [hsame x hx]; exact h6⟩
  · refine List.pairwise_cons.2 ⟨?_, ?_⟩
    · intro x hx
      rw [e_l, hsame x hx]; simp only []
      have h5 := hdis.1 x (List.mem_cons_of_mem _ hx)
      have h6 := hdis2.1 x hx
      unfold sizeof_Header at *; omega
    · refine List.Pairwise.imp_of_mem ?_ hdis2.2
      intro x y hx hy hxy
      rw [hsame x hx, hsame y hy]; exact hxy
  · unfold blockBytes
    simp only [List.map_cons, List.sum_cons]
    rw [e_l]; simp only []
    have : List.map (fun b => ((hdr_merge l r s).hdrs b).size + sizeof_Header) t
        = List.map (fun b => (s.hdrs b).size + sizeof_Header) t :=
      List.map_congr_left (fun x hx => by rw [hsame x hx])
    rw [this]
    unfold sizeof_Header at *; omega
  · intro x hx
    rcases List.mem_cons.1 hx with rfl | hx
    · rw [e_l]; simp only []
      have := h.used x (by simp)
      omega
    · rw [hsame x hx]; exact h.used x (by simp [hx])
  · intro p
    rw [h.live p]
    constructor
    · rintro ⟨x, hx, h5, h6⟩
      simp only [List.mem_cons] at hx
      rcases hx with rfl | rfl | hx
      · exact ⟨x, by simp, by rw [e_l]; exact h5, h6⟩
      · exact absurd hfree h5
      · exact ⟨x, by simp [hx], by rw [hsame x hx]; exact h5, h6⟩
    · rintro ⟨x, hx, h5, h6⟩
      rcases List.mem_cons.1 hx with rfl | hx
      · rw [e_l] at h5; exact ⟨x, by simp, h5, h6⟩
      · exact ⟨x, by simp [hx], by rw [hsame x hx] at h5; exact h5, h6⟩

/-- Storing a new requested size in a listed block keeps the invariant, with
the live references adjusted. -/
theorem wf_setAsize (s : Heap) (al bl L L' : List Nat) (b n : Nat) (h : WF s al bl L)
    (hb : b ∈ bl) (hn : n ≤ (s.hdrs b).size)
    (hL : ∀ p, p ∈ L' ↔ (p ∈ L ∧ p ≠ b + sizeof_Header) ∨ (n ≠ 0 ∧ p = b + sizeof_Header)) :
    WF (setAsize s b n) al bl L' := by
  have hsz : ∀ x, ((setAsize s b n).hdrs x).size = (s.hdrs x).size := by
    intro x; rw [setAsize_hdrs]; split_ifs with e
    · subst e; rfl
    · rfl
  have hnx : ∀ x, ((setAsize s b n).hdrs x).next = (s.hdrs x).next := by
    intro x; rw [setAsize_hdrs]; split_ifs with e
    · subst e; rfl
    · rfl
  have hal := wf_al_ne s al _ L h b hb
  refine wf_hdrs s _ al bl bl L L' h rfl rfl rfl rfl ?_ ?_ h.firsts ?_ ?_ ?_ ?_ ?_
  · intro _
    exact (ring_congr s _ bl (fun y _ => hnx y)).2 (h.ring hal)
  · intro e; exact absurd e hal
  · intro x hx
    rw [hsz]; exact h.inar x hx
  · refine List.Pairwise.imp ?_ h.bdisj
    intro x y hxy
    rw [hsz, hsz]; exact hxy
  · unfold blockBytes
    exact congrArg List.sum (List.map_congr_left (fun x _ => by rw [hsz]))
  · intro x hx
    rw [hsz, setAsize_hdrs]; split_ifs with e
    · subst e; exact hn
    · exact h.used x hx
  · intro p
    rw [hL p, h.live p]
    constructor
    · rintro (⟨⟨x, hx, h5, h6⟩, h7⟩ | ⟨h5, h6⟩)
      · have hxb : x ≠ b := fun e => h7 (by rw [h6, e])
        exact ⟨x, hx, by rw [setAsize_hdrs, if_neg hxb]; exact h5, h6⟩
      · exact ⟨b, hb, by rw [setAsize_hdrs, if_pos rfl]; exact h5, h6⟩
    · rintro ⟨x, hx, h5, h6⟩
      by_cases hxb : x = b
      · subst hxb
        rw [setAsize_hdrs, if_pos rfl] at h5
        exact Or.inr ⟨h5, h6⟩
      · rw [setAsize_hdrs, if_neg hxb] at h5
        refine Or.inl ⟨⟨x, hx, h5, h6⟩, ?_⟩
        rw [h6]; intro e; exact hxb (by omega)

/-! ## A new arena -/

theorem arena_request_bound (size : Nat) (h : size ≤ MAXREQ) :
    size + sizeof_Header + sizeof_Arena ≤ arena_request size ∧
    PAGE_SIZE ≤ arena_request size ∧ arena_request size < W ∧
    arena_request size % PAGE_SIZE = 0 := by
  unfold arena_request allign_page add64 sub64 MAXREQ W PAGE_SIZE sizeof_Header
    sizeof_Arena at *
  omega

theorem arenaChain_append (s s' : Heap) (al : List Nat) (f e mm : Nat)
    (h : ArenaChain s f al) (hne : al ≠ []) (hlast : al.getLast? = some e) (hnd : al.Nodup)
    (hmm0 : mm ≠ 0) (h1 : ∀ x ∈ al, x ≠ e → s'.arenas x = s.arenas x)
    (h2 : (s'.arenas e).next = mm) (h3 : (s'.arenas mm).next = 0) :
    ArenaChain s' f (al ++ [mm]) := by
  induction al generalizing f with
  | nil => exact absurd rfl hne
  | cons x l ih =>
    obtain ⟨e1, e2, e3⟩ := h
    cases l with
    | nil =>
      have hx : x = e := by simpa using hlast
      subst hx
      exact ⟨e1, e2, h2, hmm0, h3⟩
    | cons y l =>
      have hlast' : (y :: l).getLast? = some e := by
        simpa [List.getLast?_cons_cons] using hlast
      have hmem : e ∈ y :: l := List.mem_of_getLast?_eq_some hlast'
      have hnd' := List.nodup_cons.1 hnd
      have hxe : x ≠ e := fun e' => hnd'.1 (e' ▸ hmem)
      refine ⟨e1, e2, ?_⟩
      rw [h1 x (by simp) hxe]
      exact ih _ e3 (by simp) hlast' hnd'.2
        (fun z hz hze => h1 z (List.mem_cons_of_mem _ hz) hze)

theorem awf_nodup (s : Heap) (al : List Nat) (h : AWF s al) : al.Nodup := by
  have hb := h.abound
  refine List.Pairwise.imp_of_mem ?_ h.adisj
  intro x y hx _ hxy e
  subst e
  have := hb x hx
  unfold sizeof_Header sizeof_Arena at this
  omega

theorem arenaChain_first (s : Heap) (al : List Nat) (f : Nat) (h : ArenaChain s f al) :
    f = 0 ↔ al = [] := by
  cases al with
  | nil => simpa [ArenaChain] using h
  | cons x l =>
    obtain ⟨e1, e2, _⟩ := h
    simp [e1, e2]

theorem arenaChain_unique (s : Heap) (al al' : List Nat) (f : Nat) (h : ArenaChain s f al)
    (h' : ArenaChain s f al') : al = al' := by
  induction al generalizing f al' with
  | nil =>
    have := (arenaChain_first s [] f h).2 rfl
    exact ((arenaChain_first s al' f h').1 this).symm
  | cons x l ih =>
    obtain ⟨e1, e2, e3⟩ := h
    cases al' with
    | nil =>
      have h0 : f = 0 := h'
      exact absurd (e1 ▸ h0) e2
    | cons y l' =>
      obtain ⟨e1', _, e3'⟩ := h'
      have hxy : x = y := by rw [← e1, e1']
      subst hxy
      rw [ih l' _ e3 e3']

/-- The state after `arena_alloc` and `arena_append` with a fresh page. -/
theorem awf_append (s : Heap) (al : List Nat) (mm req : Nat) (h : AWF s al)
    (hmm : mm ≠ MAP_FAILED) (hmm0 : mm ≠ 0) (hreq : sizeof_Arena + sizeof_Header < req)
    (hW : mm + req ≤ W)
    (hfresh : ∀ a ∈ al, mm + req ≤ a ∨ a + (s.arenas a).size ≤ mm) :
    (arena_alloc mm req s).1 = mm ∧
    AWF (arena_append mm (arena_alloc mm req s).2) (al ++ [mm]) ∧
    (∀ a ∈ al, ((arena_append mm (arena_alloc mm req s).2).arenas a).size
      = (s.arenas a).size) ∧
    ((arena_append mm (arena_alloc mm req s).2).arenas mm).size = req ∧
    (arena_append mm (arena_alloc mm req s).2).hdrs = s.hdrs ∧
    (arena_append mm (arena_alloc mm req s).2).ctor_temp = s.ctor_temp ∧
    (arena_append mm (arena_alloc mm req s).2).bytes = s.bytes := by
  have hne : ∀ a ∈ al, a ≠ mm := by
    intro a ha e
    have h1 := hfresh a ha
    have h2 := h.abound a ha
    subst e
    unfold sizeof_Header sizeof_Arena at *; omega
  have e1 : arena_alloc mm req s
      = (mm, { s with arenas := Function.update s.arenas mm ⟨0, req⟩ }) := by
    simp [arena_alloc, hmm]
  rw [e1]
  by_cases hal : al = []
  · subst hal
    have hf : s.first_arena = 0 := (arenaChain_first s [] _ h.achain).2 rfl
    have e2 : arena_append mm { s with arenas := Function.update s.arenas mm ⟨0, req⟩ }
        = { s with arenas := Function.update s.arenas mm ⟨0, req⟩, first_arena := mm,
                   arena_end := mm } := by
      simp [arena_append, hf]
    rw [e2]
    refine ⟨rfl, ⟨?_, ?_, ?_, ?_⟩, ?_, ?_, rfl, rfl, rfl⟩
    · exact ⟨rfl, hmm0, by simp [ArenaChain]⟩
    · intro _; simp
    · intro a ha
      simp only [List.nil_append, List.mem_singleton] at ha
      subst ha
      simp only [Function.update_same]
      exact ⟨hreq, hW⟩
    · simp
    · intro a ha; simp at ha
    · simp
  · have hf : s.first_arena ≠ 0 := fun e => hal ((arenaChain_first s al _ h.achain).1 e)
    have hend := h.aend hal
    have hemem : s.arena_end ∈ al := List.mem_of_getLast?_eq_some hend
    have hene := hne _ hemem
    have e2 : arena_append mm { s with arenas := Function.update s.arenas mm ⟨0, req⟩ }
        = { s with
            arenas := (Function.update (Function.update s.arenas mm ⟨0, req⟩)
              s.arena_end ({ s.arenas s.arena_end with next := mm } : Arena)),
            arena_end := mm } := by
      simp [arena_append, hf, Function.update_noteq hene]
    rw [e2]
    have hsz : ∀ a ∈ al, ((Function.update (Function.update s.arenas mm ⟨0, req⟩)
        s.arena_end { s.arenas s.arena_end with next := mm }) a).size = (s.arenas a).size := by
      intro a ha
      by_cases e : a = s.arena_end
      · subst e; simp
      · simp [Function.update_noteq e, Function.update_noteq (hne a ha)]
    have hmmv : (Function.update (Function.update s.arenas mm ⟨0, req⟩)
        s.arena_end { s.arenas s.arena_end with next := mm }) mm = ⟨0, req⟩ := by
      simp [Function.update_noteq hene.symm]
    refine ⟨rfl, ⟨?_, ?_, ?_, ?_⟩, hsz, congrArg Arena.size hmmv, rfl, rfl, rfl⟩
    · refine arenaChain_append s _ al _ s.arena_end mm h.achain hal hend
        (awf_nodup s al h) hmm0 ?_ ?_ ?_
      · intro x hx hxe
        simp [Function.update_noteq hxe, Function.update_noteq (hne x hx)]
      · simp
      · simp only []; rw [hmmv]
    · intro _; simp
    · intro a ha
      simp only []
      rcases List.mem_append.1 ha with ha | ha
      · rw [hsz a ha]; exact h.abound a ha
      · simp only [List.mem_singleton] at ha
        subst ha
        rw [hmmv]; exact ⟨hreq, hW⟩
    · simp only []
      refine List.pairwise_append.2 ⟨?_, by simp, ?_⟩
      · refine List.Pairwise.imp_of_mem ?_ h.adisj
        intro x y hx hy hxy
        rw [hsz x hx, hsz y hy]; exact hxy
      · intro a ha b hb
        simp only [List.mem_singleton] at hb
        subst hb
        rw [hsz a ha, hmmv]
        have := hfresh a ha
        simp only []
        omega

theorem hdr_ctor_spec (s : Heap) (nh sz : Nat) :
    ((hdr_ctor nh sz s).hdrs nh).size = sz ∧ ((hdr_ctor nh sz s).hdrs nh).asize = 0 ∧
    (∀ x, x ≠ nh → ((hdr_ctor nh sz s).hdrs x).size = (s.hdrs x).size ∧
      ((hdr_ctor nh sz s).hdrs x).asize = (s.hdrs x).asize) ∧
    (∀ x, x ≠ nh → x ≠ s.ctor_temp → (hdr_ctor nh sz s).hdrs x = s.hdrs x) ∧
    (s.ctor_temp = 0 → ((hdr_ctor nh sz s).hdrs nh).next = nh) ∧
    (s.ctor_temp ≠ 0 → s.ctor_temp ≠ nh →
      ((hdr_ctor nh sz s).hdrs nh).next = (s.hdrs s.ctor_temp).next ∧
      ((hdr_ctor nh sz s).hdrs s.ctor_temp).next = nh) ∧
    (hdr_ctor nh sz s).ctor_temp = nh ∧ (hdr_ctor nh sz s).arenas = s.arenas ∧
    (hdr_ctor nh sz s).first_arena = s.first_arena ∧
    (hdr_ctor nh sz s).arena_end = s.arena_end ∧ (hdr_ctor nh sz s).bytes = s.bytes := by
  have hct1 : (setAsize (setSize s nh sz) nh 0).ctor_temp = s.ctor_temp := rfl
  by_cases hc : s.ctor_temp = 0
  · have e : hdr_ctor nh sz s
        = { setNext (setAsize (setSize s nh sz) nh 0) nh nh with ctor_temp := nh } := by
      simp [hdr_ctor, hct1, hc]
    rw [e]
    refine ⟨?_, ?_, ?_, ?_, ?_, ?_, rfl, rfl, rfl, rfl, rfl⟩
    · simp [setNext_hdrs, setAsize_hdrs, setSize_hdrs]
    · simp [setNext_hdrs, setAsize_hdrs, setSize_hdrs]
    · intro x hx; simp [setNext_hdrs, setAsize_hdrs, setSize_hdrs, hx]
    · intro x hx _; simp [setNext_hdrs, setAsize_hdrs, setSize_hdrs, hx]
    · intro _; simp [setNext_hdrs, setAsize_hdrs, setSize_hdrs]
    · intro h; exact absurd hc h
  · have e : hdr_ctor nh sz s
        = { setNext (setNext (setAsize (setSize s nh sz) nh 0) nh
              ((setAsize (setSize s nh sz) nh 0).hdrs s.ctor_temp).next) s.ctor_temp nh
            with ctor_temp := nh } := by
      simp only [hdr_ctor, hct1, ne_eq, hc, not_false_eq_true, if_true]
      rfl
    rw [e]
    refine ⟨?_, ?_, ?_, ?_, ?_, ?_, rfl, rfl, rfl, rfl, rfl⟩
    · by_cases h : nh = s.ctor_temp
      · simp [setNext_hdrs, setAsize_hdrs, setSize_hdrs, h]
      · simp [setNext_hdrs, setAsize_hdrs, setSize_hdrs, h]
    · by_cases h : nh = s.ctor_temp
      · simp [setNext_hdrs, setAsize_hdrs, setSize_hdrs, h]
      · simp [setNext_hdrs, setAsize_hdrs, setSize_hdrs, h]
    · intro x hx
      by_cases h : x = s.ctor_temp
      · simp [setNext_hdrs, setAsize_hdrs, setSize_hdrs, hx, h]
        subst h
        simp [hx]
      · simp [setNext_hdrs, setAsize_hdrs, setSize_hdrs, hx, h]
    · intro x hx h; simp [setNext_hdrs, setAsize_hdrs, setSize_hdrs, hx, h]
    · intro h; exact absurd h hc
    · intro _ h
      have h' : nh ≠ s.ctor_temp := fun e => h e.symm
      simp [setNext_hdrs, setAsize_hdrs, setSize_hdrs, h, h']

/-- A fresh page becomes a new arena whose only block is free and is listed
in the ring; all older blocks keep their size and state. -/
theorem wf_new_arena (s : Heap) (al bl L : List Nat) (mm size : Nat) (h : WF s al bl L)
    (hsize : size ≤ MAXREQ) (hmm : mm ≠ MAP_FAILED)
    (hfresh : FreshPage s mm (arena_request size)) :
    ∃ s' t, new_arena mm size s = Outcome.ok (mm + sizeof_Arena, s') ∧
      WF s' (al ++ [mm]) ((mm + sizeof_Arena) :: t) L ∧ List.Perm t bl ∧
      ((s'.hdrs (mm + sizeof_Arena)).size
        = arena_request size - sizeof_Header - sizeof_Arena) ∧
      (s'.hdrs (mm + sizeof_Arena)).asize = 0 ∧
      (∀ x ∈ bl, (s'.hdrs x).size = (s.hdrs x).size ∧
        (s'.hdrs x).asize = (s.hdrs x).asize) ∧
      s'.bytes = s.bytes ∧
      s'.first_arena = (if s.first_arena = 0 then mm else s.first_arena) ∧
      (s'.arenas mm).size = arena_request size ∧
      (∀ a ∈ al, (s'.arenas a).size = (s.arenas a).size) := by
  obtain ⟨hr1, hr2, hr3, hr4⟩ := arena_request_bound size hsize
  rcases hfresh with hfresh | ⟨hmm0, -, hW, hfr⟩
  · exact absurd hfresh hmm
  have hfr' := hfr al h.ar.achain
  have hreq : sizeof_Arena + sizeof_Header < arena_request size := by
    unfold PAGE_SIZE sizeof_Header sizeof_Arena at *; omega
  obtain ⟨a1, a2, a3, a4, a5, a6, a7⟩ :=
    awf_append s al mm (arena_request size) h.ar hmm hmm0 hreq hW hfr'
  obtain ⟨c1, c2, c3, c4, c5, c6, c7, c8, c9, c10, c11⟩ :=
    hdr_ctor_spec (arena_append mm (arena_alloc mm (arena_request size) s).2)
      (mm + sizeof_Arena) (arena_request size - sizeof_Header - sizeof_Arena)
  have hsub : sub64 (sub64 ((arena_append mm
      (arena_alloc mm (arena_request size) s).2).arenas mm).size sizeof_Header) sizeof_Arena
      = arena_request size - sizeof_Header - sizeof_Arena := by
    rw [a4]; unfold sub64 W sizeof_Header sizeof_Arena at *; omega
  have hrun : new_arena mm size s = Outcome.ok (mm + sizeof_Arena,
      hdr_ctor (mm + sizeof_Arena) (arena_request size - sizeof_Header - sizeof_Arena)
        (arena_append mm (arena_alloc mm (arena_request size) s).2)) := by
    unfold new_arena
    simp only []
    rw [show allign_page (add64 (add64 size sizeof_Header) sizeof_Arena)
      = arena_request size from rfl, a1, hsub]
    simp [hmm0]
  have hfa : (hdr_ctor (mm + sizeof_Arena)
      (arena_request size - sizeof_Header - sizeof_Arena)
      (arena_append mm (arena_alloc mm (arena_request size) s).2)).first_arena
      = (if s.first_arena = 0 then mm else s.first_arena) := by
    rw [c9]
    have e1 : arena_alloc mm (arena_request size) s
        = (mm, { s with arenas := Function.update s.arenas mm ⟨0, arena_request size⟩ }) := by
      simp [arena_alloc, hmm]
    rw [e1]
    by_cases hf : s.first_arena = 0
    · simp [arena_append, hf]
    · simp [arena_append, hf]
  generalize hs2 : arena_append mm (arena_alloc mm (arena_request size) s).2 = s2 at *
  generalize hs' : hdr_ctor (mm + sizeof_Arena)
    (arena_request size - sizeof_Header - sizeof_Arena) s2 = s' at *
  -- the new header is not an old block
  have hnew : ∀ x ∈ bl, x ≠ mm + sizeof_Arena ∧
      (mm + arena_request size ≤ x ∨
        x + sizeof_Header + (s.hdrs x).size ≤ mm) := by
    intro x hx
    obtain ⟨a, ha, h5, h6⟩ := h.inar x hx
    have := hfr' a ha
    have := h.ar.abound a ha
    unfold sizeof_Header sizeof_Arena at *
    omega
  have hsa : ∀ x ∈ bl, (s'.hdrs x).size = (s.hdrs x).size ∧
      (s'.hdrs x).asize = (s.hdrs x).asize := by
    intro x hx
    have := c3 x (hnew x hx).1
    rw [a5] at this
    exact this
  have hAWF : AWF s' (al ++ [mm]) := awf_congr s2 s' _ a2 c9 c10 c8
  have hasz : ∀ a ∈ al, (s'.arenas a).size = (s.arenas a).size := by
    intro a ha; rw [c8]; exact a3 a ha
  have haszm : (s'.arenas mm).size = arena_request size := by rw [c8]; exact a4
  -- a version of the invariant with the ring in some rotation
  have key : ∃ bl', WF s' (al ++ [mm]) bl' L ∧ List.Perm bl' ((mm + sizeof_Arena) :: bl) := by
    by_cases hal : al = []
    · subst hal
      have hbl := (h.empty rfl).1
      have hct := (h.empty rfl).2
      subst hbl
      refine ⟨[mm + sizeof_Arena], ?_, List.Perm.refl _⟩
      have hL : ∀ p, p ∉ L := by
        intro p hp
        obtain ⟨b, hb, _⟩ := (h.live p).1 hp
        simp at hb
      refine ⟨hAWF, ?_, ?_, ?_, ?_, ?_, ?_, ?_, ?_, ?_⟩
      · intro _
        show (s'.hdrs (mm + sizeof_Arena)).next = mm + sizeof_Arena
        exact c5 (by rw [a6]; exact hct)
      · intro e; simp at e
      · intro a ha; simp at ha; subst ha; simp
      · intro _; exact ⟨mm, by simp, c7⟩
      · intro b hb
        simp only [List.mem_singleton] at hb
        subst hb
        refine ⟨mm, by simp, le_refl _, ?_⟩
        rw [c1, haszm]; unfold sizeof_Header sizeof_Arena at *; omega
      · simp
      · unfold blockBytes arenaBytes
        simp only [List.map_cons, List.map_nil, List.sum_cons, List.sum_nil, List.nil_append]
        rw [c1, haszm]; unfold sizeof_Header sizeof_Arena at *; omega
      · intro b hb
        simp only [List.mem_singleton] at hb
        subst hb
        rw [c2]; exact Nat.zero_le _
      · intro p
        constructor
        · intro hp; exact absurd hp (hL p)
        · rintro ⟨b, hb, h5, _⟩
          simp only [List.mem_singleton] at hb
          subst hb
          exact absurd c2 h5
    · obtain ⟨a0, ha0, hc0⟩ := h.ctemp hal
      have hcmem : s.ctor_temp ∈ bl := by rw [hc0]; exact h.firsts a0 ha0
      obtain ⟨t0, hwf0, hperm0⟩ := wf_rotate s al bl L h _ hcmem
      have hcne : s2.ctor_temp ≠ mm + sizeof_Arena := by
        rw [a6]; exact (hnew _ hcmem).1
      have hc0' : s2.ctor_temp ≠ 0 := by
        rw [a6, hc0]; unfold sizeof_Arena; omega
      obtain ⟨c6a, c6b⟩ := c6 hc0' hcne
      rw [a6] at c6a c6b
      rw [a5] at c6a
      have hnd := wf_nodup s al _ L hwf0
      have hct0 : ∀ y ∈ t0, y ≠ s.ctor_temp :=
        fun y hy e => (List.nodup_cons.1 hnd).1 (e ▸ hy)
      have hmem0 : ∀ y ∈ t0, y ∈ bl := fun y hy => hperm0.mem_iff.1 (List.mem_cons_of_mem _ hy)
      have hsame : ∀ y ∈ t0, s'.hdrs y = s.hdrs y := by
        intro y hy
        have := c4 y (hnew y (hmem0 y hy)).1 (by rw [a6]; exact hct0 y hy)
        rw [a5] at this
        exact this
      refine ⟨s.ctor_temp :: (mm + sizeof_Arena) :: t0, ?_, ?_⟩
      swap
      · exact (List.Perm.swap _ _ _).trans (List.Perm.cons _ hperm0)
      have hmemb : ∀ x, x ∈ s.ctor_temp :: t0 ↔ x ∈ bl := fun x => hperm0.mem_iff
      have hcases : ∀ b, b ∈ s.ctor_temp :: (mm + sizeof_Arena) :: t0 →
          b = mm + sizeof_Arena ∨ b ∈ bl := by
        intro b hb
        simp only [List.mem_cons] at hb
        rcases hb with e | e | e
        · exact Or.inr ((hmemb b).1 (by simp [e]))
        · exact Or.inl e
        · exact Or.inr (hmem0 b e)
      have hcap : arena_request size - sizeof_Header - sizeof_Arena + sizeof_Header
          + sizeof_Arena = arena_request size := by
        clear c3 c4 c5 c6 hsa hnew hfr hfr' hcases hmemb hsame
        unfold sizeof_Header sizeof_Arena at *; omega
      refine ⟨hAWF, ?_, ?_, ?_, ?_, ?_, ?_, ?_, ?_, ?_⟩
      · intro _
        exact ring_insert s s' s.ctor_temp (mm + sizeof_Arena) t0 (hwf0.ring hal) c6b c6a
          (fun y hy => by rw [hsame y hy])
      · intro e; simp at e
      · intro a ha
        rcases List.mem_append.1 ha with ha | ha
        · have h5 := (hmemb _).2 (h.firsts a ha)
          rcases List.mem_cons.1 h5 with e | e
          · rw [e]; exact List.mem_cons_self _ _
          · exact List.mem_cons_of_mem _ (List.mem_cons_of_mem _ e)
        · simp only [List.mem_singleton] at ha
          subst ha
          exact List.mem_cons_of_mem _ (List.mem_cons_self _ _)
      · intro _; exact ⟨mm, by simp, c7⟩
      · intro b hb
        rcases hcases b hb with e | e
        · subst e
          refine ⟨mm, by simp, le_refl _, ?_⟩
          rw [c1, haszm]; omega
        · obtain ⟨a, ha, h5, h6⟩ := h.inar b e
          refine ⟨a, by simp [ha], h5, ?_⟩
          rw [(hsa b e).1, hasz a ha]; exact h6
      · have hd0 := List.pairwise_cons.1 hwf0.bdisj
        have hsz : ∀ x, x ∈ s.ctor_temp :: t0 → (s'.hdrs x).size = (s.hdrs x).size :=
          fun x hx => (hsa x ((hmemb x).1 hx)).1
        refine List.pairwise_cons.2 ⟨?_, List.pairwise_cons.2 ⟨?_, ?_⟩⟩
        · intro x hx
          rcases List.mem_cons.1 hx with e | e
          · subst e
            rw [hsz s.ctor_temp (List.mem_cons_self _ _), c1]
            have h5 := (hnew _ hcmem).2
            rcases h5 with h5 | h5
            · right; omega
            · left; omega
          · rw [hsz s.ctor_temp (List.mem_cons_self _ _), hsz x (List.mem_cons_of_mem _ e)]
            exact hd0.1 x e
        · intro x hx
          rw [hsz x (List.mem_cons_of_mem _ hx), c1]
          have h5 := (hnew _ (hmem0 x hx)).2
          rcases h5 with h5 | h5
          · left; omega
          · right; omega
        · refine List.Pairwise.imp_of_mem ?_ hd0.2
          intro x y hx hy hxy
          rw [hsz x (List.mem_cons_of_mem _ hx), hsz y (List.mem_cons_of_mem _ hy)]
          exact hxy
      · have e1 : blockBytes s' (s.ctor_temp :: (mm + sizeof_Arena) :: t0)
            = blockBytes s (s.ctor_temp :: t0)
              + (arena_request size - sizeof_Header - sizeof_Arena + sizeof_Header) := by
          unfold blockBytes
          rw [List.map_cons, List.map_cons, List.map_cons, List.sum_cons, List.sum_cons,
            List.sum_cons, c1, (hsa _ hcmem).1]
          have : List.map (fun b => (s'.hdrs b).size + sizeof_Header) t0
              = List.map (fun b => (s.hdrs b).size + sizeof_Header) t0 :=
            List.map_congr_left (fun x hx => by rw [hsame x hx])
          rw [this]; omega
        have e2 : arenaBytes s' (al ++ [mm])
            = arenaBytes s al + (arena_request size - sizeof_Arena) := by
          unfold arenaBytes
          rw [List.map_append, List.sum_append, List.map_cons, List.map_nil, List.sum_cons,
            List.sum_nil, haszm, Nat.add_zero]
          have : List.map (fun a => (s'.arenas a).size - sizeof_Arena) al
              = List.map (fun a => (s.arenas a).size - sizeof_Arena) al :=
            List.map_congr_left (fun x hx => by rw [hasz x hx])
          rw [this]
        rw [e1, e2, hwf0.cons]
        omega
      · intro b hb
        rcases hcases b hb with e | e
        · subst e; rw [c2]; exact Nat.zero_le _
        · rw [(hsa b e).1, (hsa b e).2]; exact h.used b e
      · intro p
        rw [h.live p]
        constructor
        · rintro ⟨x, hx, h5, h6⟩
          have hx' := (hmemb x).2 hx
          refine ⟨x, ?_, by rw [(hsa x hx).2]; exact h5, h6⟩
          rcases List.mem_cons.1 hx' with e | e
          · rw [e]; exact List.mem_cons_self _ _
          · exact List.mem_cons_of_mem _ (List.mem_cons_of_mem _ e)
        · rintro ⟨x, hx, h5, h6⟩
          rcases hcases x hx with e | e
          · subst e; exact absurd c2 h5
          · exact ⟨x, e, by rw [(hsa x e).2] at h5; exact h5, h6⟩
  obtain ⟨bl', hwf', hperm'⟩ := key
  obtain ⟨t, hwft, hpt⟩ := wf_rotate s' _ bl' L hwf' (mm + sizeof_Arena)
    (hperm'.mem_iff.2 (by simp))
  refine ⟨s', t, hrun, hwft, ?_, c1, c2, hsa, ?_, hfa, haszm, hasz⟩
  · exact List.Perm.cons_inv (hpt.trans hperm')
  · rw [c11, a7]

/-! ## The invariant along `mmalloc` -/

theorem wf_bytes (s : Heap) (al bl L : List Nat) (f : Nat → Nat) (h : WF s al bl L) :
    WF { s with bytes := f } al bl L :=
  wf_hdrs s _ al bl bl L L h rfl rfl rfl rfl h.ring (fun e => (h.empty e).1) h.firsts
    h.inar h.bdisj rfl h.used h.live

theorem wf_live_congr (s : Heap) (al bl L L' : List Nat) (h : WF s al bl L)
    (hL : ∀ q, q ∈ L' ↔ q ∈ L) : WF s al bl L' :=
  { h with live := fun p => by rw [hL p]; exact h.live p }

theorem wf_anchor (s : Heap) (al bl L : List Nat) (h : WF s al bl L) (hal : al ≠ []) :
    s.first_arena ≠ 0 ∧ s.first_arena ∈ al ∧ anchor s ∈ bl := by
  cases al with
  | nil => exact absurd rfl hal
  | cons a l =>
    obtain ⟨e1, e2, _⟩ := h.ar.achain
    refine ⟨by rw [e1]; exact e2, by rw [e1]; simp, ?_⟩
    unfold anchor
    rw [e1]
    exact h.firsts a (by simp)

/-- What `first_fit` returns in a well-formed heap: the first fitting block
in the order that starts right after the anchor and ends with the anchor. -/
theorem wf_first_fit (s : Heap) (al bl L : List Nat) (size : Nat) (h : WF s al bl L)
    (hal : al ≠ []) :
    ∃ t, List.Perm (anchor s :: t) bl ∧ Ring s (anchor s :: t) ∧ (anchor s :: t).Nodup ∧
      (∀ fuel, t.length < fuel → first_fit fuel size s
        = some (((t ++ [anchor s]).find? (fits s size)).getD 0)) ∧
      (∀ fuel, first_fit fuel size s = none ∨ first_fit fuel size s
        = some (((t ++ [anchor s]).find? (fits s size)).getD 0)) := by
  obtain ⟨_, _, hanc⟩ := wf_anchor s al bl L h hal
  obtain ⟨t, hwf, hperm⟩ := wf_rotate s al bl L h _ hanc
  have hnd := wf_nodup s al _ L hwf
  have hring : Ring s (anchor s :: t) := hwf.ring hal
  have hnot : anchor s ∉ t := (List.nodup_cons.1 hnd).1
  refine ⟨t, hperm, hring, hnd, ?_, ?_⟩
  · intro fuel hf
    exact (first_fit_loop_spec s size (anchor s) t (anchor s) fuel hring hnot).1 hf
  · intro fuel
    exact (first_fit_loop_spec s size (anchor s) t (anchor s) fuel hring hnot).2

/-- Taking the free block at the head of the ring for a request: split when
`hdr_should_split` says so, then store the requested size. -/
theorem wf_take (s : Heap) (al t L : List Nat) (b size : Nat) (h : WF s al (b :: t) L)
    (hfree : (s.hdrs b).asize = 0) (hfit : size ≤ (s.hdrs b).size) (hpos : 0 < size) :
    ∃ bl', WF (setAsize (if hdr_should_split b size s = true then (hdr_split b size s).2
        else s) b size) al bl' ((b + sizeof_Header) :: L) ∧
      (∀ x ∈ b :: t, x ∈ bl') ∧
      ((setAsize (if hdr_should_split b size s = true then (hdr_split b size s).2
        else s) b size).hdrs b).asize = size ∧
      size ≤ ((setAsize (if hdr_should_split b size s = true then (hdr_split b size s).2
        else s) b size).hdrs b).size ∧
      (setAsize (if hdr_should_split b size s = true then (hdr_split b size s).2
        else s) b size).arenas = s.arenas ∧
      (setAsize (if hdr_should_split b size s = true then (hdr_split b size s).2
        else s) b size).first_arena = s.first_arena ∧
      (setAsize (if hdr_should_split b size s = true then (hdr_split b size s).2
        else s) b size).bytes = s.bytes := by
  have hbb := wf_block_bound s al _ L h b (by simp)
  have hadd : add64 (add64 sizeof_Header size) 1 = sizeof_Header + size + 1 := by
    unfold add64 W sizeof_Header sizeof_Arena at *; omega
  have hL : ∀ p, p ∈ (b + sizeof_Header) :: L ↔
      (p ∈ L ∧ p ≠ b + sizeof_Header) ∨ (size ≠ 0 ∧ p = b + sizeof_Header) := by
    intro p
    simp only [List.mem_cons]
    constructor
    · rintro (e | e)
      · exact Or.inr ⟨by omega, e⟩
      · by_cases e' : p = b + sizeof_Header
        · exact Or.inr ⟨by omega, e'⟩
        · exact Or.inl ⟨e, e'⟩
    · rintro (⟨e, _⟩ | ⟨_, e⟩)
      · exact Or.inr e
      · exact Or.inl e
  by_cases hs : sizeof_Header + size + 1 ≤ (s.hdrs b).size
  · have hss : hdr_should_split b size s = true := by
      simp [hdr_should_split, hadd, hs]
    rw [if_pos hss]
    obtain ⟨-, e_b, -, -, e3, e1, -, -, e5⟩ := hdr_split_spec s b size hbb.2 hs
    have hwf1 := wf_split s al t L b size h hs hfree
    generalize (hdr_split b size s).2 = X at *
    have hn : size ≤ (X.hdrs b).size := by rw [e_b]
    have hmem : b ∈ b :: (b + sizeof_Header + size) :: t := List.mem_cons_self _ _
    have hwf2 := wf_setAsize X al _ L _ b size hwf1 hmem hn hL
    have hYb : (setAsize X b size).hdrs b = { X.hdrs b with asize := size } := by
      rw [setAsize_hdrs, if_pos rfl]
    have hYa := setAsize_arenas X b size
    have hYf := setAsize_first_arena X b size
    have hYy := setAsize_bytes X b size
    generalize setAsize X b size = Y at *
    refine ⟨_, hwf2, ?_, ?_, ?_, hYa.trans e3, hYf.trans e1, hYy.trans e5⟩
    · intro x hx
      rcases List.mem_cons.1 hx with e | e
      · rw [e]; exact List.mem_cons_self _ _
      · exact List.mem_cons_of_mem _ (List.mem_cons_of_mem _ e)
    · rw [hYb]
    · rw [hYb, e_b]
  · have hss : ¬ hdr_should_split b size s = true := by
      simp [hdr_should_split, hadd]; omega
    rw [if_neg hss]
    refine ⟨_, wf_setAsize s al _ L _ b size h (by simp) hfit hL, fun x hx => hx, ?_, ?_,
      rfl, rfl, rfl⟩
    · rw [setAsize_hdrs, if_pos rfl]
    · rw [setAsize_hdrs, if_pos rfl]; exact hfit

/-- The tail of `mmalloc` keeps the invariant; the reference it returns is
new, and its block records the request and is large enough. -/
theorem wf_mmalloc_search (s : Heap) (al bl L : List Nat) (fuel mm2 size p : Nat) (s' : Heap)
    (h : WF s al bl L) (hal : al ≠ []) (hpos : 0 < size) (hB : size ≤ MAXREQ)
    (hpg : FreshPage s mm2 (arena_request size))
    (hrun : mmalloc_search fuel mm2 size s = Outcome.ok (p, s')) :
    ∃ al' bl', WF s' al' bl' (p :: L) ∧ p ∉ L ∧ sizeof_Header ≤ p ∧
      (s'.hdrs (p - sizeof_Header)).asize = size ∧
      size ≤ (s'.hdrs (p - sizeof_Header)).size ∧ s'.bytes = s.bytes := by
  obtain ⟨t, hperm, hring, hnd, -, hff⟩ := wf_first_fit s al bl L size h hal
  have hsub : ∀ b : Nat, b + sizeof_Header - sizeof_Header = b := fun b => by omega
  unfold mmalloc_search at hrun
  rcases hff fuel with e | e
  · rw [e] at hrun; cases hrun
  rw [e] at hrun
  cases hfind : (t ++ [anchor s]).find? (fits s size) with
  | some b =>
    rw [hfind] at hrun
    simp only [Option.getD_some] at hrun
    have hbmem : b ∈ bl := by
      have := List.mem_of_find?_eq_some hfind
      apply hperm.mem_iff.1
      simp only [List.mem_append, List.mem_singleton, List.mem_cons] at this ⊢
      tauto
    have hfits := List.find?_some hfind
    simp only [fits, decide_eq_true_eq] at hfits
    have hb0 : b ≠ 0 := by
      have := (wf_block_bound s al bl L h b hbmem).1
      unfold sizeof_Arena at this; omega
    rw [if_pos hb0] at hrun
    obtain ⟨t', hwf', hperm'⟩ := wf_rotate s al bl L h b hbmem
    obtain ⟨bl', k1, -, k3, k4, -, -, k7⟩ := wf_take s al t' L b size hwf' hfits.1 hfits.2 hpos
    have hp : p = b + sizeof_Header := by cases hrun; rfl
    have hs' : s' = setAsize (if hdr_should_split b size s = true
        then (hdr_split b size s).2 else s) b size := by cases hrun; rfl
    subst hp
    subst hs'
    refine ⟨al, bl', k1, ?_, by omega, by rw [hsub]; exact k3, by rw [hsub]; exact k4, k7⟩
    intro hm
    obtain ⟨x, _, hx1, hx2⟩ := (h.live _).1 hm
    have : x = b := by omega
    subst this
    exact hx1 hfits.1
  | none =>
    rw [hfind] at hrun
    simp only [Option.getD_none, ne_eq, not_true_eq_false, if_false] at hrun
    have hmm : mm2 ≠ MAP_FAILED := by
      intro e'
      have : new_arena mm2 size s = Outcome.fault := by
        simp [new_arena, arena_alloc, e']
      rw [this] at hrun
      cases hrun
    obtain ⟨s1, t1, n1, n2, n3, n4, n5, -, n7, -⟩ := wf_new_arena s al bl L mm2 size h hB hmm hpg
    rw [n1] at hrun
    simp only [] at hrun
    obtain ⟨hr1, -, -, -⟩ := arena_request_bound size hB
    have hfit : size ≤ (s1.hdrs (mm2 + sizeof_Arena)).size := by
      rw [n4]; omega
    obtain ⟨bl', k1, -, k3, k4, -, -, k7⟩ :=
      wf_take s1 (al ++ [mm2]) t1 L (mm2 + sizeof_Arena) size n2 n5 hfit hpos
    have hp : p = mm2 + sizeof_Arena + sizeof_Header := by cases hrun; rfl
    have hs' : s' = setAsize (if hdr_should_split (mm2 + sizeof_Arena) size s1 = true
        then (hdr_split (mm2 + sizeof_Arena) size s1).2 else s1)
        (mm2 + sizeof_Arena) size := by cases hrun; rfl
    subst hp
    subst hs'
    refine ⟨al ++ [mm2], bl', k1, ?_, by omega, by rw [hsub]; exact k3,
      by rw [hsub]; exact k4, by rw [k7, n7]⟩
    intro hm
    obtain ⟨x, hx0, hx1, hx2⟩ := (h.live _).1 hm
    have hx : x = mm2 + sizeof_Arena := by omega
    have hnd1 := wf_nodup s1 _ _ L n2
    have hxt : x ∈ t1 := by
      have hperm1 : List.Perm t1 bl := by
        exact n3
      exact hperm1.mem_iff.2 hx0
    exact (List.nodup_cons.1 hnd1).1 (hx ▸ hxt)

theorem new_arena_fault (mm size : Nat) (s : Heap) (h : mm = MAP_FAILED) :
    new_arena mm size s = Outcome.fault := by
  simp [new_arena, arena_alloc, h]

/-- Function `mmalloc` keeps the invariant. -/
theorem wf_mmalloc (s : Heap) (al bl L : List Nat) (fuel mm1 mm2 size p : Nat) (s' : Heap)
    (h : WF s al bl L) (hpos : 0 < size) (hB : size ≤ MAXREQ) (hpg : Pages s mm1 mm2 size)
    (hrun : mmalloc fuel mm1 mm2 size s = Outcome.ok (p, s')) :
    ∃ al' bl', WF s' al' bl' (p :: L) ∧ p ∉ L ∧ sizeof_Header ≤ p ∧
      (s'.hdrs (p - sizeof_Header)).asize = size ∧
      size ≤ (s'.hdrs (p - sizeof_Header)).size ∧ s'.bytes = s.bytes := by
  unfold mmalloc at hrun
  by_cases hf : s.first_arena = 0
  · rw [if_pos hf] at hrun
    have hal : al = [] := (arenaChain_first s al _ h.ar.achain).1 hf
    subst hal
    by_cases hmm : mm1 = MAP_FAILED
    · rw [new_arena_fault mm1 size s hmm] at hrun
      cases hrun
    obtain ⟨s1, t1, n1, n2, -, -, -, -, n7, -, n9, -⟩ :=
      wf_new_arena s [] bl L mm1 size h hB hmm hpg.1
    rw [n1] at hrun
    simp only [] at hrun
    have hpg2 : FreshPage s1 mm2 (arena_request size) := by
      rcases hpg.2.1 with e | ⟨e1, e2, e3, -⟩
      · exact Or.inl e
      · refine Or.inr ⟨e1, e2, e3, ?_⟩
        intro al' hal' a ha
        have : al' = [] ++ [mm1] := arenaChain_unique s1 _ _ _ hal' n2.ar.achain
        subst this
        simp only [List.nil_append, List.mem_singleton] at ha
        subst ha
        rw [n9]
        have hne2 : mm2 ≠ MAP_FAILED := by
          obtain ⟨-, hr2, -, -⟩ := arena_request_bound size hB
          clear n1 n2 hrun hpg h
          unfold MAP_FAILED W PAGE_SIZE at *; omega
        rcases hpg.2.2 hmm hne2 with e | e
        · exact Or.inr e
        · exact Or.inl e
    obtain ⟨al', bl', k1, k2, k3, k4, k5, k6⟩ :=
      wf_mmalloc_search s1 _ _ L fuel mm2 size p s' n2 (by simp) hpos hB hpg2 hrun
    exact ⟨al', bl', k1, k2, k3, k4, k5, k6.trans n7⟩
  · rw [if_neg hf] at hrun
    have hal : al ≠ [] := fun e => hf ((arenaChain_first s al _ h.ar.achain).2 e)
    exact wf_mmalloc_search s al bl L fuel mm2 size p s' h hal hpos hB hpg.2.1 hrun

/-! ## The invariant along `mfree` -/

theorem hdr_can_merge_iff (l r : Nat) (s : Heap) :
    hdr_can_merge l r s = true ↔
      add64 (add64 l (s.hdrs l).size) sizeof_Header = r ∧ (s.hdrs l).asize = 0 ∧
        (s.hdrs r).asize = 0 := by
  simp [hdr_can_merge, and_assoc]

theorem adj_of_add64 (l r sz : Nat) (h1 : l + sizeof_Header + sz ≤ W) (h2 : r ≠ 0)
    (h : add64 (add64 l sz) sizeof_Header = r) : l + sizeof_Header + sz = r := by
  unfold add64 W sizeof_Header at *; omega

theorem hdr_merge_bytes (l r : Nat) (s : Heap) : (hdr_merge l r s).bytes = s.bytes := rfl

/-- The forward coalescing step of `mfree`. -/
theorem wf_forward (s : Heap) (al t L : List Nat) (b : Nat) (h : WF s al (b :: t) L) :
    ∃ t2, WF (if b < (s.hdrs b).next ∧ hdr_can_merge b (s.hdrs b).next s = true
        then hdr_merge b (s.hdrs b).next s else s) al (b :: t2) L ∧
      t2.length ≤ t.length ∧
      (if b < (s.hdrs b).next ∧ hdr_can_merge b (s.hdrs b).next s = true
        then hdr_merge b (s.hdrs b).next s else s).bytes = s.bytes := by
  have hal := wf_al_ne s al _ L h b (by simp)
  by_cases hc : b < (s.hdrs b).next ∧ hdr_can_merge b (s.hdrs b).next s = true
  · rw [if_pos hc]
    have hring := h.ring hal
    cases t with
    | nil =>
      have e : (s.hdrs b).next = b := hring
      rw [e] at hc
      exact absurd hc.1 (lt_irrefl _)
    | cons r t' =>
      have e : (s.hdrs b).next = r := hring.1
      rw [e] at hc ⊢
      obtain ⟨c1, -, c3⟩ := (hdr_can_merge_iff b r s).1 hc.2
      have hbb := wf_block_bound s al _ L h b (by simp)
      have hrb := wf_block_bound s al _ L h r (by simp)
      have hr0 : r ≠ 0 := by unfold sizeof_Arena at hrb; omega
      have hadj := adj_of_add64 b r _ hbb.2 hr0 c1
      exact ⟨t', wf_merge s al t' L b r h hadj c3, by simp, hdr_merge_bytes b r s⟩
  · rw [if_neg hc]
    exact ⟨t, h, le_refl _, rfl⟩

/-- The backward coalescing step of `mfree`, with the predecessor search. -/
theorem wf_backward (s : Heap) (al t L : List Nat) (b fuel : Nat) (h : WF s al (b :: t) L) :
    hdr_get_prev fuel b s = some (t.getLastD b) ∨
      (hdr_get_prev fuel b s = none ∧ fuel ≤ t.length) := by
  have hal := wf_al_ne s al _ L h b (by simp)
  have hring : Ring s (b :: t) := h.ring hal
  have hnd := wf_nodup s al _ L h
  have hnot : b ∉ t := (List.nodup_cons.1 hnd).1
  have := hdr_get_prev_loop_spec s b t b fuel hring hnot
  unfold hdr_get_prev
  by_cases hf : t.length < fuel
  · exact Or.inl (this.1 hf)
  · rcases this.2 with e | e
    · exact Or.inr ⟨e, by omega⟩
    · exact Or.inl e

theorem wf_backward_merge (s : Heap) (al t L : List Nat) (b : Nat) (h : WF s al (b :: t) L) :
    ∃ bl', WF (if t.getLastD b < b ∧ hdr_can_merge (t.getLastD b) b s = true
        then hdr_merge (t.getLastD b) b s else s) al bl' L ∧
      bl'.length ≤ t.length + 1 ∧
      (if t.getLastD b < b ∧ hdr_can_merge (t.getLastD b) b s = true
        then hdr_merge (t.getLastD b) b s else s).bytes = s.bytes := by
  have hal := wf_al_ne s al _ L h b (by simp)
  by_cases hc : t.getLastD b < b ∧ hdr_can_merge (t.getLastD b) b s = true
  · rw [if_pos hc]
    have hne : t.getLastD b ≠ b := by omega
    obtain ⟨t', ht', hring'⟩ := ring_prev s b t (h.ring hal) hne
    generalize t.getLastD b = prev at *
    have hperm : List.Perm (prev :: b :: t') (b :: t) := by
      rw [ht']
      have : List.Perm (prev :: (b :: t')) ((b :: t') ++ [prev]) := by
        simpa using (List.perm_append_comm : List.Perm ([prev] ++ (b :: t')) ((b :: t') ++ [prev]))
      simpa using this
    have hwf' := wf_perm s al _ _ L h hperm (fun _ => hring')
    obtain ⟨c1, -, c3⟩ := (hdr_can_merge_iff prev b s).1 hc.2
    have hpb := wf_block_bound s al _ L hwf' prev (by simp)
    have hbb := wf_block_bound s al _ L hwf' b (by simp)
    have hb0 : b ≠ 0 := by unfold sizeof_Arena at hbb; omega
    have hadj := adj_of_add64 prev b _ hpb.2 hb0 c1
    refine ⟨_, wf_merge s al t' L prev b hwf' hadj c3, ?_, hdr_merge_bytes prev b s⟩
    rw [ht']; simp
  · rw [if_neg hc]
    exact ⟨_, h, by simp, rfl⟩

/-- Function `mfree` of a live reference returns when the fuel covers the list, and
it keeps the invariant; the reference is no longer live. -/
theorem wf_mfree (s : Heap) (al bl L : List Nat) (fuel p : Nat) (h : WF s al bl L)
    (hp : p ∈ L) :
    (bl.length ≤ fuel → ∃ s', mfree fuel p s = Outcome.ok s') ∧
    (∀ s', mfree fuel p s = Outcome.ok s' →
      ∃ bl', WF s' al bl' (L.filter (fun q => decide (q ≠ p))) ∧ s'.bytes = s.bytes ∧
        bl'.length ≤ bl.length) := by
  obtain ⟨b, hb, hbu, hpb⟩ := (h.live p).1 hp
  have hsub : p - sizeof_Header = b := by omega
  have hL : ∀ q, q ∈ L.filter (fun q => decide (q ≠ p)) ↔
      (q ∈ L ∧ q ≠ b + sizeof_Header) ∨ ((0 : Nat) ≠ 0 ∧ q = b + sizeof_Header) := by
    intro q
    simp [List.mem_filter, hpb]
  have hwf1 := wf_setAsize s al bl L _ b 0 h hb (Nat.zero_le _) hL
  have hby1 := setAsize_bytes s b 0
  have hnx1 : ((setAsize s b 0).hdrs b).next = (s.hdrs b).next := by
    rw [setAsize_hdrs, if_pos rfl]
  unfold mfree
  simp only []
  rw [hsub]
  generalize setAsize s b 0 = s1 at *
  obtain ⟨t, hwfr, hperm⟩ := wf_rotate s1 al bl _ hwf1 b hb
  obtain ⟨t2, hwf2, hlen2, hby2⟩ := wf_forward s1 al t _ b hwfr
  generalize (if b < (s1.hdrs b).next ∧ hdr_can_merge b (s1.hdrs b).next s1 = true
    then hdr_merge b (s1.hdrs b).next s1 else s1) = s2 at *
  have hlen : t.length + 1 = bl.length := by
    have := hperm.length_eq
    simpa using this
  obtain ⟨bl', hwf3, hlen3, hby3⟩ := wf_backward_merge s2 al t2 _ b hwf2
  rcases wf_backward s2 al t2 _ b fuel hwf2 with e | ⟨e, hfu⟩
  · rw [e]
    simp only []
    refine ⟨fun _ => ⟨_, rfl⟩, ?_⟩
    intro s' hs'
    have : s' = (if t2.getLastD b < b ∧ hdr_can_merge (t2.getLastD b) b s2 = true
        then hdr_merge (t2.getLastD b) b s2 else s2) := by
      cases hs'; rfl
    subst this
    exact ⟨bl', hwf3, by rw [hby3, hby2, hby1], by omega⟩
  · rw [e]
    simp only []
    refine ⟨fun hfl => by omega, ?_⟩
    intro s' hs'
    cases hs'

/-! ## The invariant along `mrealloc` -/

theorem heap_ext (s t : Heap) (h1 : s.first_arena = t.first_arena)
    (h2 : s.arena_end = t.arena_end) (h3 : s.ctor_temp = t.ctor_temp)
    (h4 : s.arenas = t.arenas) (h5 : ∀ x, s.hdrs x = t.hdrs x) (h6 : s.bytes = t.bytes) :
    s = t := by
  cases s; cases t
  simp only [Heap.mk.injEq]
  exact ⟨h1, h2, h3, h4, funext h5, h6⟩

/-- The three stores of the absorption branch of `mrealloc` amount to
`hdr_merge` followed by the store of the requested size. -/
theorem absorb_eq (s : Heap) (b r size : Nat) (hne : b ≠ r) :
    setAsize (setSize (setNext s b (s.hdrs r).next) b
      (add64 ((setNext s b (s.hdrs r).next).hdrs b).size
        (add64 ((setNext s b (s.hdrs r).next).hdrs r).size sizeof_Header))) b size
    = setAsize (hdr_merge b r s) b size := by
  apply heap_ext
  · rfl
  · rfl
  · rfl
  · rfl
  · intro x
    by_cases hx : x = b
    · subst hx
      simp [hdr_merge, setAsize_hdrs, setSize_hdrs, setNext_hdrs, hne, hne.symm]
    · simp [hdr_merge, setAsize_hdrs, setSize_hdrs, setNext_hdrs, hx]
  · rfl

theorem live_replace (L : List Nat) (p : Nat) (hp : p ∈ L) (q : Nat) :
    q ∈ p :: L.filter (fun q => decide (q ≠ p)) ↔ q ∈ L := by
  simp only [List.mem_cons, List.mem_filter, decide_eq_true_eq]
  constructor
  · rintro (e | ⟨e, _⟩)
    · rw [e]; exact hp
    · exact e
  · intro hq
    by_cases e : q = p
    · exact Or.inl e
    · exact Or.inr ⟨hq, e⟩

theorem memcpy_eq (dst src n : Nat) (s : Heap) :
    memcpy dst src n s = { s with bytes := fun a =>
      if dst ≤ a ∧ a < dst + n then s.bytes (src + (a - dst)) else s.bytes a } := rfl

/-- The absorption branch of `mrealloc` keeps the invariant. -/
theorem wf_absorb (s : Heap) (al t L : List Nat) (b r size : Nat)
    (h : WF s al (b :: r :: t) L) (hu : (s.hdrs b).asize ≠ 0)
    (hfree : (s.hdrs r).asize = 0)
    (hadj : b + sizeof_Header + (s.hdrs b).size = r)
    (hsz : add64 (add64 (s.hdrs r).size (s.hdrs b).size) sizeof_Header > size)
    (hpos : 0 < size) :
    WF (setAsize (hdr_merge b r s) b size) al (b :: t) L ∧
      ((setAsize (hdr_merge b r s) b size).hdrs b)
        = ⟨(s.hdrs r).next, (s.hdrs b).size + (s.hdrs r).size + sizeof_Header, size⟩ := by
  have hbb := wf_block_bound s al _ L h b (by simp)
  have hrb := wf_block_bound s al _ L h r (by simp)
  have hne : b ≠ r := by unfold sizeof_Header at hadj; omega
  have hnw : (s.hdrs b).size + (s.hdrs r).size + sizeof_Header < W := by
    unfold sizeof_Header sizeof_Arena at *; omega
  obtain ⟨e_l, -, -, -, -, -, -⟩ := hdr_merge_spec s b r hne hnw
  have hwf1 := wf_merge s al t L b r h hadj hfree
  have hL : ∀ p, p ∈ L ↔
      (p ∈ L ∧ p ≠ b + sizeof_Header) ∨ (size ≠ 0 ∧ p = b + sizeof_Header) := by
    intro p
    constructor
    · intro hp
      by_cases e : p = b + sizeof_Header
      · exact Or.inr ⟨by omega, e⟩
      · exact Or.inl ⟨hp, e⟩
    · rintro (⟨e, _⟩ | ⟨_, e⟩)
      · exact e
      · rw [e]; exact (h.live _).2 ⟨b, by simp, hu, rfl⟩
  have hn : size ≤ ((hdr_merge b r s).hdrs b).size := by
    rw [e_l]; simp only []
    unfold add64 W sizeof_Header at *; omega
  have hb2 : ((setAsize (hdr_merge b r s) b size).hdrs b)
      = { (hdr_merge b r s).hdrs b with asize := size } := by
    rw [setAsize_hdrs, if_pos rfl]
  rw [hb2, e_l]
  exact ⟨wf_setAsize _ al _ L L b size hwf1 (by simp) hn hL, rfl⟩

/-- Function `mrealloc` of a live reference keeps the invariant; the reference it
returns replaces the old one. -/
theorem wf_mrealloc (s : Heap) (al bl L : List Nat) (fuel mm1 mm2 p size r : Nat) (s' : Heap)
    (h : WF s al bl L) (hp : p ∈ L) (hpos : 0 < size) (hB : size ≤ MAXREQ)
    (hpg : Pages s mm1 mm2 size)
    (hrun : mrealloc fuel mm1 mm2 p size s = Outcome.ok (r, s')) :
    ∃ al' bl', WF s' al' bl'
      (if r = 0 then L else r :: L.filter (fun q => decide (q ≠ p))) ∧ r ≠ 0 := by
  obtain ⟨b, hb, hbu, hpb⟩ := (h.live p).1 hp
  have hsub : p - sizeof_Header = b := by omega
  have hp0 : p ≠ 0 := by unfold sizeof_Header at hpb; omega
  unfold mrealloc at hrun
  simp only [] at hrun
  rw [hsub] at hrun
  by_cases c1 : (s.hdrs b).size = size
  · rw [if_pos c1] at hrun
    simp only [Outcome.ok.injEq, Prod.mk.injEq] at hrun
    obtain ⟨rfl, rfl⟩ := hrun
    rw [if_neg hp0]
    exact ⟨al, bl, wf_live_congr s al bl L _ h (live_replace L p hp), hp0⟩
  rw [if_neg c1] at hrun
  by_cases c2 : (s.hdrs b).size > size
  · rw [if_pos c2] at hrun
    simp only [Outcome.ok.injEq, Prod.mk.injEq] at hrun
    obtain ⟨rfl, rfl⟩ := hrun
    rw [if_neg hp0]
    refine ⟨al, bl, wf_setAsize s al bl L _ b size h hb (le_of_lt c2) ?_, hp0⟩
    intro q
    rw [live_replace L p hp q]
    constructor
    · intro hq
      by_cases e : q = b + sizeof_Header
      · exact Or.inr ⟨by omega, e⟩
      · exact Or.inl ⟨hq, e⟩
    · rintro (⟨e, _⟩ | ⟨_, e⟩)
      · exact e
      · rw [e, ← hpb]; exact hp
  rw [if_neg c2] at hrun
  obtain ⟨t, hwfr, hperm⟩ := wf_rotate s al bl L h b hb
  have hal := wf_al_ne s al bl L h b hb
  by_cases c3 : (s.hdrs (s.hdrs b).next).asize = 0 ∧
      add64 (add64 b (s.hdrs b).size) sizeof_Header = (s.hdrs b).next ∧
      add64 (add64 (s.hdrs (s.hdrs b).next).size (s.hdrs b).size) sizeof_Header > size
  · rw [if_pos c3] at hrun
    have hbb := wf_block_bound s al _ L hwfr b (by simp)
    have hb0 : b ≠ 0 := by unfold sizeof_Arena at hbb; omega
    have hring : Ring s (b :: t) := hwfr.ring hal
    cases t with
    | nil =>
      exfalso
      have e : (s.hdrs b).next = b := hring
      rw [e] at c3
      have := adj_of_add64 b b _ hbb.2 hb0 c3.2.1
      unfold sizeof_Header at this; omega
    | cons rr t' =>
      have e : (s.hdrs b).next = rr := hring.1
      rw [e] at c3 hrun
      have hrb := wf_block_bound s al _ L hwfr rr (by simp)
      have hr0 : rr ≠ 0 := by unfold sizeof_Arena at hrb; omega
      have hadj := adj_of_add64 b rr _ hbb.2 hr0 c3.2.1
      have hne : b ≠ rr := by unfold sizeof_Header at hadj; omega
      rw [absorb_eq s b rr size hne] at hrun
      simp only [Outcome.ok.injEq, Prod.mk.injEq] at hrun
      obtain ⟨rfl, rfl⟩ := hrun
      rw [if_neg hp0]
      have hw := (wf_absorb s al t' L b rr size hwfr hbu c3.1 hadj c3.2.2 hpos).1
      exact ⟨al, _, wf_live_congr _ al _ L _ hw (live_replace L p hp), hp0⟩
  · rw [if_neg c3] at hrun
    cases hm : mmalloc fuel mm1 mm2 size s with
    | fault => rw [hm] at hrun; cases hrun
    | nofuel => rw [hm] at hrun; cases hrun
    | ok v =>
      obtain ⟨np, s1⟩ := v
      rw [hm] at hrun
      simp only [] at hrun
      obtain ⟨al1, bl1, k1, k2, k3, -, -, -⟩ :=
        wf_mmalloc s al bl L fuel mm1 mm2 size np s1 h hpos hB hpg hm
      have hnp0 : np ≠ 0 := by unfold sizeof_Header at k3; omega
      rw [if_pos hnp0] at hrun
      have hw2 : WF (memcpy np p (s1.hdrs b).asize s1) al1 bl1 (np :: L) := by
        rw [memcpy_eq]; exact wf_bytes s1 al1 bl1 _ _ k1
      generalize memcpy np p (s1.hdrs b).asize s1 = s2 at *
      have hpm : p ∈ np :: L := List.mem_cons_of_mem _ hp
      cases hf : mfree fuel p s2 with
      | fault => rw [hf] at hrun; cases hrun
      | nofuel => rw [hf] at hrun; cases hrun
      | ok s3 =>
        rw [hf] at hrun
        simp only [Outcome.ok.injEq, Prod.mk.injEq] at hrun
        obtain ⟨rfl, rfl⟩ := hrun
        obtain ⟨bl', k5, -, -⟩ := (wf_mfree s2 al1 bl1 _ fuel p hw2 hpm).2 _ hf
        rw [if_neg hnp0]
        have hnpp : np ≠ p := fun e => k2 (e ▸ hp)
        have hfl : (np :: L).filter (fun q => decide (q ≠ p))
            = np :: L.filter (fun q => decide (q ≠ p)) := by
          simp [List.filter_cons, hnpp]
        rw [hfl] at k5
        exact ⟨al1, bl', k5, hnp0⟩

/-! ## Reachable states are well formed -/

theorem wf_start (s : Heap) (h1 : s.first_arena = 0) (h3 : s.ctor_temp = 0) :
    WF s [] [] [] where
  ar := ⟨h1, fun e => absurd rfl e, fun a ha => by simp at ha, List.Pairwise.nil⟩
  ring := fun e => absurd rfl e
  empty := fun _ => ⟨rfl, h3⟩
  firsts := fun a ha => by simp at ha
  ctemp := fun e => absurd rfl e
  inar := fun b hb => by simp at hb
  bdisj := List.Pairwise.nil
  cons := rfl
  used := fun b hb => by simp at hb
  live := fun p => by simp

/-- Every state reachable by valid calls with requests up to `MAXREQ`
satisfies the heap invariant. -/
theorem reach_wf (s : Heap) (L : List Nat) (h : Reach MAXREQ s L) :
    ∃ al bl, WF s al bl L := by
  induction h with
  | start s h1 _ h3 => exact ⟨[], [], wf_start s h1 h3⟩
  | malloc s s' L fuel mm1 mm2 size p _ hpos hB hpg hrun ih =>
    obtain ⟨al, bl, hw⟩ := ih
    obtain ⟨al', bl', k1, -⟩ := wf_mmalloc s al bl L fuel mm1 mm2 size p s' hw hpos hB hpg hrun
    exact ⟨al', bl', k1⟩
  | free s s' L fuel p _ hp hrun ih =>
    obtain ⟨al, bl, hw⟩ := ih
    obtain ⟨bl', k1, -⟩ := (wf_mfree s al bl L fuel p hw hp).2 s' hrun
    exact ⟨al, bl', k1⟩
  | realloc s s' L fuel mm1 mm2 p size r _ hp hpos hB hpg hrun ih =>
    obtain ⟨al, bl, hw⟩ := ih
    obtain ⟨al', bl', k1, -⟩ :=
      wf_mrealloc s al bl L fuel mm1 mm2 p size r s' hw hp hpos hB hpg hrun
    exact ⟨al', bl', k1⟩
  | write s L p i v _ _ _ ih =>
    obtain ⟨al, bl, hw⟩ := ih
    exact ⟨al, bl, wf_bytes s al bl L _ hw⟩

/-! ## The block list of a well-formed heap -/

theorem blockBytes_perm (s : Heap) (l l' : List Nat) (h : List.Perm l l') :
    blockBytes s l = blockBytes s l' := by
  unfold blockBytes
  exact (h.map _).sum_eq

theorem isBlockList_perm (s : Heap) (al bl L bl' : List Nat) (h : WF s al bl L)
    (hb : IsBlockList s bl') : List.Perm bl' bl := by
  rcases hb with ⟨h0, rfl⟩ | ⟨hne, hring, hnd, hhead⟩
  · have hal : al = [] := (arenaChain_first s al _ h.ar.achain).1 h0
    rw [(h.empty hal).1]
  · have hal : al ≠ [] := fun e => hne ((arenaChain_first s al _ h.ar.achain).2 e)
    obtain ⟨t, hperm, hring2, hnd2, -, -⟩ := wf_first_fit s al bl L 0 h hal
    cases bl' with
    | nil => exact absurd hring (by simp [Ring])
    | cons a t' =>
      have ha : a = anchor s := by simpa using hhead
      subst ha
      have := seg_unique _ t' t _ _ hring hring2 (List.nodup_cons.1 hnd).1
        (List.nodup_cons.1 hnd2).1
      rw [this]; exact hperm

theorem wf_isBlockList (s : Heap) (al bl L : List Nat) (h : WF s al bl L) :
    ∃ bl', IsBlockList s bl' ∧ List.Perm bl' bl := by
  by_cases hal : al = []
  · refine ⟨[], Or.inl ⟨(arenaChain_first s al _ h.ar.achain).2 hal, rfl⟩, ?_⟩
    rw [(h.empty hal).1]
  · obtain ⟨t, hperm, hring2, hnd2, -, -⟩ := wf_first_fit s al bl L 0 h hal
    exact ⟨_, Or.inr ⟨(wf_anchor s al bl L h hal).1, hring2, hnd2, rfl⟩, hperm⟩

theorem wf_disjoint (s : Heap) (al bl L : List Nat) (h : WF s al bl L) (b c : Nat)
    (hb : b ∈ bl) (hc : c ∈ bl) (hne : b ≠ c) :
    b + sizeof_Header + (s.hdrs b).size ≤ c ∨ c + sizeof_Header + (s.hdrs c).size ≤ b := by
  have hs : Symmetric (fun b c =>
      b + sizeof_Header + (s.hdrs b).size ≤ c ∨ c + sizeof_Header + (s.hdrs c).size ≤ b) := by
    intro x y hxy; exact hxy.symm
  exact List.Pairwise.forall hs h.bdisj hb hc hne

theorem wf_no_overlap (s : Heap) (al bl L : List Nat) (h : WF s al bl L) : NoOverlap s L := by
  constructor
  · intro p hp q hq hpq
    obtain ⟨bp, hbp, -, ep⟩ := (h.live p).1 hp
    obtain ⟨bq, hbq, -, eq⟩ := (h.live q).1 hq
    have hne : bp ≠ bq := fun e => hpq (by rw [ep, eq, e])
    have hd := wf_disjoint s al bl L h bp bq hbp hbq hne
    have up := h.used bp hbp
    have uq := h.used bq hbq
    have e1 : p - sizeof_Header = bp := by omega
    have e2 : q - sizeof_Header = bq := by omega
    unfold liveAsize
    rw [e1, e2]
    unfold sizeof_Header at *
    omega
  · intro bl' hbl' x hx p hp
    have hxm : x ∈ bl := (isBlockList_perm s al bl L bl' h hbl').mem_iff.1 hx
    obtain ⟨bp, hbp, -, ep⟩ := (h.live p).1 hp
    have up := h.used bp hbp
    have e1 : p - sizeof_Header = bp := by omega
    unfold liveAsize
    rw [e1]
    by_cases e : x = bp
    · left; rw [e, ep]
    · have hd := wf_disjoint s al bl L h x bp hxm hbp e
      unfold sizeof_Header at *
      omega

/-! ## Sample runs -/

theorem init_no_arena (al : List Nat) (h : IsArenaList init al) : al = [] :=
  (arenaChain_first init al _ h).1 rfl

theorem fresh_init (mm req : Nat) (h1 : mm ≠ 0) (h2 : 0 < req) (h3 : mm + req ≤ W) :
    FreshPage init mm req :=
  Or.inr ⟨h1, h2, h3, fun al hal a ha => by
    rw [init_no_arena al hal] at ha
    simp at ha⟩

theorem fresh_single (s : Heap) (a mm req : Nat) (hc : IsArenaList s [a]) (hm : mm ≠ 0)
    (hr : 0 < req) (hW : mm + req ≤ W) (hd : mm + req ≤ a ∨ a + (s.arenas a).size ≤ mm) :
    FreshPage s mm req :=
  Or.inr ⟨hm, hr, hW, fun al hal x hx => by
    have := arenaChain_unique s al [a] _ hal hc
    subst this
    simp only [List.mem_singleton] at hx
    subst hx
    exact hd⟩

theorem pages_first (s : Heap) (mm size : Nat) (h : FreshPage s mm (arena_request size)) :
    Pages s mm MAP_FAILED size :=
  ⟨h, Or.inl rfl, fun _ h2 => absurd rfl h2⟩

theorem pages_second (s : Heap) (mm size : Nat) (h : FreshPage s mm (arena_request size)) :
    Pages s MAP_FAILED mm size :=
  ⟨Or.inl rfl, h, fun h1 _ => absurd rfl h1⟩

theorem run_ok (o : Outcome (Nat × Heap)) (p : Nat) (h : isOk o = true) (hp : outPtr o = p) :
    o = Outcome.ok (p, outHeap o) := by
  cases o with
  | ok v =>
    obtain ⟨q, s⟩ := v
    have : q = p := hp
    subst this
    rfl
  | fault => cases h
  | nofuel => cases h

theorem free_ok (o : Outcome Heap) (h : isOk o = true) : o = Outcome.ok (freeHeap o) := by
  cases o with
  | ok v => rfl
  | fault => cases h
  | nofuel => cases h

theorem ovfA_run : mmalloc 4 pageA MAP_FAILED 1 init = Outcome.ok (2097192, ovfA) := rfl

theorem ovfB_run :
    mmalloc 4 MAP_FAILED pageB 18446744073709551577 ovfA = Outcome.ok (1048616, ovfB) := rfl

theorem ovfC_run :
    mmalloc 4 MAP_FAILED pageB 18446744073709551592 ovfA = Outcome.ok (1048616, ovfC) := rfl

theorem demo1_run : mmalloc 4 pageA MAP_FAILED 100 init = Outcome.ok (2097192, demo1) := rfl

theorem ovfA_reach (B : Nat) (hB : 1 ≤ B) : Reach B ovfA [2097192] :=
  Reach.malloc init ovfA [] 4 pageA MAP_FAILED 1 2097192 (Reach.start init rfl rfl rfl)
    (by decide) hB
    (pages_first init pageA 1 (fresh_init pageA _ (by decide) (by decide) (by decide)))
    ovfA_run

theorem ovfA_fresh (size : Nat) (h : arena_request size = 131072) :
    FreshPage ovfA pageB (arena_request size) := by
  rw [h]
  exact fresh_single ovfA pageA pageB 131072 (by decide) (by decide) (by decide) (by decide)
    (by decide)

theorem ovfB_reach : Reach SIZE_MAX ovfB [1048616, 2097192] :=
  Reach.malloc ovfA ovfB [2097192] 4 MAP_FAILED pageB 18446744073709551577 1048616
    (ovfA_reach SIZE_MAX (by decide)) (by decide) (by decide)
    (pages_second ovfA pageB _ (ovfA_fresh _ (by decide))) ovfB_run

theorem ovfC_reach : Reach SIZE_MAX ovfC [1048616, 2097192] :=
  Reach.malloc ovfA ovfC [2097192] 4 MAP_FAILED pageB 18446744073709551592 1048616
    (ovfA_reach SIZE_MAX (by decide)) (by decide) (by decide)
    (pages_second ovfA pageB _ (ovfA_fresh _ (by decide))) ovfC_run

theorem demo1_reach : Reach MAXREQ demo1 [2097192] :=
  Reach.malloc init demo1 [] 4 pageA MAP_FAILED 100 2097192 (Reach.start init rfl rfl rfl)
    (by decide) (by decide)
    (pages_first init pageA 100 (fresh_init pageA _ (by decide) (by decide) (by decide)))
    demo1_run

/-! ## C1: no overlap -/

/-- C1, the code at the failing input: `mmalloc(1)` followed by
`mmalloc(2^64 - 39)`.  In the second call `size + sizeof(Header) + sizeof(Arena)`
wraps to 1, one page is mapped, and the block of capacity 131032 records
`asize = 2^64 - 39`: the two live references have overlapping payload
ranges. -/
theorem C1_overlap_after_wrapped_request :
    Reach SIZE_MAX ovfB [1048616, 2097192] ∧ liveAsize ovfB 1048616 = 18446744073709551577 ∧
      liveAsize ovfB 2097192 = 1 ∧ ¬ NoOverlap ovfB [1048616, 2097192] := by
  refine ⟨ovfB_reach, by decide, by decide, ?_⟩
  intro h
  have := h.1 1048616 (by simp) 2097192 (by simp) (by decide)
  revert this
  decide

/-- Where the size arithmetic does not wrap: along every sequence of valid
calls whose sizes are positive and at most `MAXREQ`, the payload ranges of the live references are pairwise
disjoint and none contains the header of a listed block. -/
theorem reach_no_overlap (s : Heap) (L : List Nat) (h : Reach MAXREQ s L) : NoOverlap s L := by
  obtain ⟨al, bl, hw⟩ := reach_wf s L h
  exact wf_no_overlap s al bl L hw

/-- Example for `reach_no_overlap`: the heap after `mmalloc(100)` on the
initial heap. -/
theorem reach_no_overlap_demo :
    Reach MAXREQ demo1 [2097192] ∧ NoOverlap demo1 [2097192] :=
  ⟨demo1_reach, reach_no_overlap demo1 [2097192] demo1_reach⟩

/-! ## C2: conservation -/

theorem blockBytes_setAsize (s : Heap) (b n : Nat) (l : List Nat) :
    blockBytes (setAsize s b n) l = blockBytes s l := by
  unfold blockBytes
  refine congrArg List.sum (List.map_congr_left (fun x _ => ?_))
  rw [setAsize_hdrs]
  split_ifs with e
  · subst e; rfl
  · rfl

theorem arenaBytes_congr (s s' : Heap) (al : List Nat) (h : s'.arenas = s.arenas) :
    arenaBytes s' al = arenaBytes s al := by
  unfold arenaBytes
  rw [h]

theorem wf_conserved (s : Heap) (al bl L : List Nat) (h : WF s al bl L) : Conserved s := by
  obtain ⟨bl0, hbl0, _⟩ := wf_isBlockList s al bl L h
  refine ⟨⟨al, bl0, h.ar.achain, hbl0⟩, ?_⟩
  intro al' bl' hal' hbl'
  have e1 : al' = al := arenaChain_unique s al' al _ hal' h.ar.achain
  rw [e1, blockBytes_perm s bl' bl (isBlockList_perm s al bl L bl' h hbl')]
  exact h.cons

theorem wf_split_conserves (s : Heap) (al bl L : List Nat) (h : WF s al bl L) :
    SplitConserves s := by
  intro bl' b req hbl' hb hfree hreq
  have hperm := isBlockList_perm s al bl L bl' h hbl'
  obtain ⟨t, hwr, hp2⟩ := wf_rotate s al bl L h b (hperm.mem_iff.1 hb)
  have hbb := wf_block_bound s al _ L hwr b (by simp)
  obtain ⟨e0, -, -, -, e3, -⟩ := hdr_split_spec s b req hbb.2 hreq
  have hw' := wf_split s al t L b req hwr hreq hfree
  rw [e0]
  generalize (hdr_split b req s).2 = X at *
  have p1 : List.Perm ((b + sizeof_Header + req) :: bl') (b :: (b + sizeof_Header + req) :: t) :=
    (List.Perm.cons _ (hperm.trans hp2.symm)).trans (List.Perm.swap _ _ _)
  rw [blockBytes_perm X _ _ p1, hw'.cons, arenaBytes_congr s X al e3, ← h.cons]
  exact (blockBytes_perm s bl' bl hperm).symm

theorem wf_merge_conserves (s : Heap) (al bl L : List Nat) (h : WF s al bl L) :
    MergeConserves s := by
  intro bl' l r hbl' hl _ hnext hadj hfree
  have hperm := isBlockList_perm s al bl L bl' h hbl'
  obtain ⟨t, hwr, hp2⟩ := wf_rotate s al bl L h l (hperm.mem_iff.1 hl)
  have hal := wf_al_ne s al _ L hwr l (by simp)
  have hring : Ring s (l :: t) := hwr.ring hal
  have hlr : l ≠ r := by unfold sizeof_Header at hadj; omega
  cases t with
  | nil =>
    have e : (s.hdrs l).next = l := hring
    exact absurd (e.symm.trans hnext) hlr
  | cons r' t' =>
    have e : (s.hdrs l).next = r' := hring.1
    have er : r' = r := e.symm.trans hnext
    subst er
    have hw' := wf_merge s al t' L l r' hwr hadj hfree
    have p1 : List.Perm (bl'.erase r') (l :: t') := by
      have := (hperm.trans hp2.symm).erase r'
      rw [List.erase_cons_tail (by simpa using hlr), List.erase_cons_head] at this
      exact this
    have e3 : (hdr_merge l r' s).arenas = s.arenas := rfl
    rw [blockBytes_perm _ _ _ p1, hw'.cons, arenaBytes_congr s _ al e3, ← h.cons]
    exact (blockBytes_perm s bl' bl hperm).symm

theorem wf_absorb_conserves (s : Heap) (al bl L : List Nat) (h : WF s al bl L) :
    AbsorbConserves s := by
  intro bl' b r size hbl' hb hr hnext hadj hfree
  have hlr : b ≠ r := by unfold sizeof_Header at hadj; omega
  have e : absorb_stores s b r size = setAsize (hdr_merge b r s) b size :=
    absorb_eq s b r size hlr
  rw [e, blockBytes_setAsize]
  exact wf_merge_conserves s al bl L h bl' b r hbl' hb hr hnext hadj hfree

theorem wf_new_arena_conserves (s : Heap) (al bl L : List Nat) (h : WF s al bl L) :
    NewArenaConserves s := by
  intro al' bl' mm size hal' hbl' hB hmm hfresh
  have hperm := isBlockList_perm s al bl L bl' h hbl'
  have e1 : al' = al := arenaChain_unique s al' al _ hal' h.ar.achain
  subst e1
  obtain ⟨s', t, hrun, hwf', hpt, -, -, -, -, -, haszm, hasz⟩ :=
    wf_new_arena s al' bl L mm size h hB hmm hfresh
  have e2 : arenaBytes s' (al' ++ [mm])
      = arenaBytes s al' + (arena_request size - sizeof_Arena) := by
    unfold arenaBytes
    rw [List.map_append, List.sum_append, List.map_cons, List.map_nil, List.sum_cons,
      List.sum_nil, haszm, Nat.add_zero]
    have : List.map (fun a => (s'.arenas a).size - sizeof_Arena) al'
        = List.map (fun a => (s.arenas a).size - sizeof_Arena) al' :=
      List.map_congr_left (fun x hx => by rw [hasz x hx])
    rw [this]
  refine ⟨mm + sizeof_Arena, s', hrun, hwf'.ar.achain, ?_, e2⟩
  have p1 : List.Perm ((mm + sizeof_Arena) :: bl') ((mm + sizeof_Arena) :: t) :=
    List.Perm.cons _ (hperm.trans hpt.symm)
  rw [blockBytes_perm s' _ _ p1, hwf'.cons, e2, ← h.cons, blockBytes_perm s bl' bl hperm]

theorem ovfC_no_ring (bl : List Nat) : ¬ IsBlockList ovfC bl := by
  rintro (⟨h0, -⟩ | ⟨-, hring, hnd, hhead⟩)
  · revert h0; decide
  · cases bl with
    | nil => exact hring
    | cons a t =>
      have ha : a = 2097168 := by
        have : a = anchor ovfC := by simpa using hhead
        rw [this]; decide
      subst ha
      cases t with
      | nil =>
        have e : (ovfC.hdrs 2097168).next = 2097168 := hring
        revert e; decide
      | cons x t' =>
        have e : (ovfC.hdrs 2097168).next = x := hring.1
        have hx : x = 1048592 := by rw [← e]; decide
        subst hx
        cases t' with
        | nil =>
          have e2 : (ovfC.hdrs 1048592).next = 2097168 := hring.2
          revert e2; decide
        | cons y t'' =>
          have e2 : (ovfC.hdrs 1048592).next = y := hring.2.1
          have hy : y = 1048592 := by rw [← e2]; decide
          subst hy
          simp at hnd

/-- C2, the code at the failing input: after `mmalloc(1)` and
`mmalloc(2^64 - 24)` (the sum in `hdr_should_split` wraps to 1 and the
address `hdr + sizeof(Header) + req_size` in `hdr_split` wraps to `hdr`) the
header of the new arena points to
itself with `size = 2^64 - 24`; the headers no longer form a ring, and the
headers reached from the anchor do not add up to the arena bytes, not even
modulo `2^64`. -/
theorem C2_self_linked_header :
    Reach SIZE_MAX ovfC [1048616, 2097192] ∧ IsArenaList ovfC [pageA, pageB] ∧
      (ovfC.hdrs 2097168).next = 1048592 ∧ (ovfC.hdrs 1048592).next = 1048592 ∧
      blockBytes ovfC [2097168, 1048592] % W ≠ arenaBytes ovfC [pageA, pageB] % W ∧
      ¬ Conserved ovfC := by
  refine ⟨ovfC_reach, by decide, by decide, by decide, by decide, ?_⟩
  rintro ⟨⟨al, bl, -, hbl⟩, -⟩
  exact ovfC_no_ring bl hbl

/-- Where the size arithmetic does not wrap: in every heap state reachable by
valid calls whose sizes are positive and at most `MAXREQ`, the sum over the block list of
`size + sizeof(Header)` equals the sum over the arena list of
`Arena.size - sizeof(Arena)`; `hdr_split`, `hdr_merge`, the in-place absorption
of `mrealloc` and the creation of a new arena each preserve the equality. -/
theorem reach_conservation (s : Heap) (L : List Nat) (h : Reach MAXREQ s L) :
    Conserved s ∧ SplitConserves s ∧ MergeConserves s ∧ AbsorbConserves s ∧
      NewArenaConserves s := by
  obtain ⟨al, bl, hw⟩ := reach_wf s L h
  exact ⟨wf_conserved s al bl L hw, wf_split_conserves s al bl L hw,
    wf_merge_conserves s al bl L hw, wf_absorb_conserves s al bl L hw,
    wf_new_arena_conserves s al bl L hw⟩

/-- Example for `reach_conservation`: the heap after `mmalloc(100)` on the
initial heap. -/
theorem reach_conservation_demo :
    Reach MAXREQ demo1 [2097192] ∧ Conserved demo1 ∧ SplitConserves demo1 ∧
      MergeConserves demo1 ∧ AbsorbConserves demo1 ∧ NewArenaConserves demo1 :=
  ⟨demo1_reach, reach_conservation demo1 [2097192] demo1_reach⟩

/-! ## C3: requested size within capacity -/

/-- C3, the code at the failing input: `mmalloc(2^64 - 39)` after `mmalloc(1)`
returns a block of capacity 131032 whose header records
`asize = 2^64 - 39`. -/
theorem C3_requested_exceeds_capacity :
    Reach SIZE_MAX ovfB [1048616, 2097192] ∧
      mmalloc 4 MAP_FAILED pageB 18446744073709551577 ovfA = Outcome.ok (1048616, ovfB) ∧
      IsBlockList ovfB [2097168, 1048592, 2097193] ∧
      (ovfB.hdrs 1048592).asize = 18446744073709551577 ∧
      (ovfB.hdrs 1048592).size = 131032 ∧ ¬ UsedWithinCapacity ovfB := by
  refine ⟨ovfB_reach, ovfB_run, by decide, by decide, by decide, ?_⟩
  intro h
  have := h [2097168, 1048592, 2097193] (by decide) 1048592 (by simp) (by decide)
  revert this
  decide

/-- Where the size arithmetic does not wrap: for every sequence of valid calls
whose size arguments are positive and at most `MAXREQ`, every listed block that is marked used has
`asize <= size`, and the block whose payload `mmalloc(size)` returns records
`asize = size` and has capacity at least `size`. -/
theorem reach_requested_le_capacity (s : Heap) (L : List Nat) (h : Reach MAXREQ s L) :
    UsedWithinCapacity s ∧
    ∀ fuel mm1 mm2 size p s', 0 < size → size ≤ MAXREQ → Pages s mm1 mm2 size →
      mmalloc fuel mm1 mm2 size s = Outcome.ok (p, s') →
      (s'.hdrs (p - sizeof_Header)).asize = size ∧
        size ≤ (s'.hdrs (p - sizeof_Header)).size ∧ UsedWithinCapacity s' := by
  obtain ⟨al, bl, hw⟩ := reach_wf s L h
  have key : ∀ (s : Heap) (al bl L : List Nat), WF s al bl L → UsedWithinCapacity s := by
    intro s al bl L hw bl' hbl' b hb _
    exact hw.used b ((isBlockList_perm s al bl L bl' hw hbl').mem_iff.1 hb)
  refine ⟨key s al bl L hw, ?_⟩
  intro fuel mm1 mm2 size p s' hpos hB hpg hrun
  obtain ⟨al', bl', k1, -, -, k4, k5, -⟩ :=
    wf_mmalloc s al bl L fuel mm1 mm2 size p s' hw hpos hB hpg hrun
  exact ⟨k4, k5, key s' al' bl' _ k1⟩

/-- Example for `reach_requested_le_capacity`: the heap after `mmalloc(100)`
on the initial heap. -/
theorem reach_requested_le_capacity_demo :
    Reach MAXREQ demo1 [2097192] ∧ UsedWithinCapacity demo1 :=
  ⟨demo1_reach, (reach_requested_le_capacity demo1 [2097192] demo1_reach).1⟩

/-! ## C4 and C5: what `first_fit` finds -/

theorem isBlockList_first_fit (s : Heap) (a : Nat) (t : List Nat) (fuel size : Nat)
    (hbl : IsBlockList s (a :: t)) (hfuel : (a :: t).length ≤ fuel) :
    a = anchor s ∧
      first_fit fuel size s = some (((t ++ [a]).find? (fits s size)).getD 0) := by
  rcases hbl with ⟨-, h⟩ | ⟨-, hring, hnd, hhead⟩
  · cases h
  · have ha : a = anchor s := by simpa using hhead
    have hnot : a ∉ t := (List.nodup_cons.1 hnd).1
    refine ⟨ha, ?_⟩
    have hlen : t.length < fuel := by simpa using hfuel
    have := (first_fit_loop_spec s size a t a fuel hring hnot).1 hlen
    unfold first_fit
    rw [show s.first_arena + sizeof_Arena = a from ha.symm]
    exact this

theorem mmalloc_found (s : Heap) (fuel mm1 mm2 size b : Nat) (hne : s.first_arena ≠ 0)
    (hff : first_fit fuel size s = some b) (hb : b ≠ 0) :
    ∃ s', mmalloc fuel mm1 mm2 size s = Outcome.ok (b + sizeof_Header, s') ∧
      s'.arenas = s.arenas ∧ s'.first_arena = s.first_arena ∧
      s'.arena_end = s.arena_end := by
  unfold mmalloc
  rw [if_neg hne]
  unfold mmalloc_search
  rw [hff]
  simp only []
  rw [if_pos hb]
  by_cases hs : hdr_should_split b size s = true
  · rw [if_pos hs]
    exact ⟨_, rfl, rfl, rfl, rfl⟩
  · rw [if_neg hs]
    exact ⟨_, rfl, rfl, rfl, rfl⟩

/-- Where the headers form a ring: in a heap with at least one arena whose
headers form the circular block list `bl` (no header at `NULL`), `first_fit(size)` returns, and it
returns `NULL` if and only if no listed block is free with `size` bytes of
capacity; when such a block exists, wherever it sits in the list, `mmalloc`
returns the payload of a listed block and leaves the arena list untouched. -/
theorem ring_first_fit_never_fails_spuriously (s : Heap) (bl : List Nat)
    (fuel size mm1 mm2 : Nat) (hne : s.first_arena ≠ 0) (hbl : IsBlockList s bl)
    (h0 : 0 ∉ bl) (hfuel : bl.length ≤ fuel) :
    ∃ r, first_fit fuel size s = some r ∧
      (r = 0 ↔ ¬ ∃ b ∈ bl, (s.hdrs b).asize = 0 ∧ size ≤ (s.hdrs b).size) ∧
      ((∃ b ∈ bl, (s.hdrs b).asize = 0 ∧ size ≤ (s.hdrs b).size) →
        r ∈ bl ∧ (s.hdrs r).asize = 0 ∧ size ≤ (s.hdrs r).size ∧
        ∃ s', mmalloc fuel mm1 mm2 size s = Outcome.ok (r + sizeof_Header, s') ∧
          s'.arenas = s.arenas ∧ s'.first_arena = s.first_arena ∧
          s'.arena_end = s.arena_end) := by
  cases bl with
  | nil =>
    rcases hbl with ⟨h, -⟩ | ⟨-, hring, -⟩
    · exact absurd h hne
    · exact absurd hring (by simp [Ring])
  | cons a t =>
    obtain ⟨-, hff⟩ := isBlockList_first_fit s a t fuel size hbl hfuel
    have hmem : ∀ x, x ∈ t ++ [a] ↔ x ∈ a :: t := by
      intro x
      simp only [List.mem_append, List.mem_singleton, List.mem_cons]
      tauto
    cases hfind : (t ++ [a]).find? (fits s size) with
    | none =>
      rw [hfind] at hff
      have hall := List.find?_eq_none.1 hfind
      have hno : ¬ ∃ b ∈ a :: t, (s.hdrs b).asize = 0 ∧ size ≤ (s.hdrs b).size := by
        rintro ⟨b, hb, h1, h2⟩
        exact hall b ((hmem b).2 hb) (by simp [fits, h1, h2])
      refine ⟨0, hff, ⟨fun _ => hno, fun _ => rfl⟩, fun hex => absurd hex hno⟩
    | some b =>
      rw [hfind] at hff
      have hb : b ∈ a :: t := (hmem b).1 (List.mem_of_find?_eq_some hfind)
      have hfits := List.find?_some hfind
      simp only [fits, decide_eq_true_eq] at hfits
      have hb0 : b ≠ 0 := fun e => h0 (e ▸ hb)
      refine ⟨b, hff, ⟨fun e => absurd e hb0, fun hno => ?_⟩, fun _ => ?_⟩
      · exact absurd ⟨b, hb, hfits.1, hfits.2⟩ hno
      · exact ⟨hb, hfits.1, hfits.2, mmalloc_found s fuel mm1 mm2 size b hne hff hb0⟩

theorem demo4a_run : mmalloc 4 pageA MAP_FAILED 10 init = Outcome.ok (2097192, demo4a) :=
  run_ok _ _ (by decide!) (by decide!)

theorem demo4b_run :
    mmalloc 4 MAP_FAILED MAP_FAILED 20 demo4a = Outcome.ok (2097226, demo4b) :=
  run_ok _ _ (by decide!) (by decide!)

theorem demo4c_run :
    mmalloc 4 MAP_FAILED MAP_FAILED 30 demo4b = Outcome.ok (2097270, demo4c) :=
  run_ok _ _ (by decide!) (by decide!)

theorem demo4_run : mfree 4 2097226 demo4c = Outcome.ok demo4 := free_ok _ (by decide!)

/-- Example for `ring_first_fit_never_fails_spuriously`: the list of `demo4` is a used block, a free block of 20
bytes, a used block and the large free rest; a request of 25 bytes skips the
small free block and takes the large one behind it. -/
theorem ring_first_fit_never_fails_spuriously_demo :
    IsBlockList demo4 [2097168, 2097202, 2097246, 2097300] ∧
      (demo4.hdrs 2097202).asize = 0 ∧ (demo4.hdrs 2097202).size = 20 ∧
      first_fit 4 25 demo4 = some 2097300 ∧
      ∃ r, first_fit 4 25 demo4 = some r ∧
        (r = 0 ↔ ¬ ∃ b ∈ [2097168, 2097202, 2097246, 2097300],
          (demo4.hdrs b).asize = 0 ∧ 25 ≤ (demo4.hdrs b).size) ∧
        ((∃ b ∈ [2097168, 2097202, 2097246, 2097300],
          (demo4.hdrs b).asize = 0 ∧ 25 ≤ (demo4.hdrs b).size) →
          r ∈ [2097168, 2097202, 2097246, 2097300] ∧ (demo4.hdrs r).asize = 0 ∧
          25 ≤ (demo4.hdrs r).size ∧
          ∃ s', mmalloc 4 MAP_FAILED MAP_FAILED 25 demo4
              = Outcome.ok (r + sizeof_Header, s') ∧
            s'.arenas = demo4.arenas ∧ s'.first_arena = demo4.first_arena ∧
            s'.arena_end = demo4.arena_end) :=
  ⟨by decide!, by decide!, by decide!, by decide!,
    ring_first_fit_never_fails_spuriously demo4 [2097168, 2097202, 2097246, 2097300] 4 25
      MAP_FAILED MAP_FAILED (by decide!) (by decide!) (by decide!) (by decide!)⟩

theorem cex5a_run :
    mmalloc 4 pageA MAP_FAILED 131032 init = Outcome.ok (2097192, cex5a) :=
  run_ok _ _ (by decide!) (by decide!)

theorem cex5b_run : mmalloc 4 MAP_FAILED pageB 1 cex5a = Outcome.ok (1048616, cex5b) :=
  run_ok _ _ (by decide!) (by decide!)

theorem cex5c_run : mfree 4 2097192 cex5b = Outcome.ok cex5c := free_ok _ (by decide!)

theorem cex5d_run : mfree 4 1048616 cex5c = Outcome.ok cex5d := free_ok _ (by decide!)

theorem cex5d_reach : Reach MAXREQ cex5d [] :=
  Reach.free cex5c cex5d [1048616] 4 1048616
    (Reach.free cex5b cex5c [1048616, 2097192] 4 2097192
      (Reach.malloc cex5a cex5b [2097192] 4 MAP_FAILED pageB 1 1048616
        (Reach.malloc init cex5a [] 4 pageA MAP_FAILED 131032 2097192
          (Reach.start init rfl rfl rfl) (by decide!) (by decide!)
          (pages_first init pageA _ (fresh_init pageA _ (by decide!) (by decide!) (by decide!)))
          cex5a_run)
        (by decide!) (by decide!)
        (pages_second cex5a pageB _
          (fresh_single cex5a pageA pageB _ (by decide!) (by decide!) (by decide!) (by decide!)
            (by decide!)))
        cex5b_run)
      (by decide!) cex5c_run)
    (by decide!) cex5d_run

/-- C5 as stated fails: in the reachable heap `cex5d` the anchor and its list
successor are both free and large enough for 100 bytes, and `first_fit`
returns the successor, so `mmalloc(100)` takes the successor, not the
anchor. -/
theorem C5_counterexample :
    Reach MAXREQ cex5d [] ∧ IsBlockList cex5d [2097168, 1048592] ∧
      anchor cex5d = 2097168 ∧ fits cex5d 100 2097168 = true ∧
      fits cex5d 100 1048592 = true ∧ first_fit 4 100 cex5d = some 1048592 ∧
      mmalloc 4 MAP_FAILED MAP_FAILED 100 cex5d
        = Outcome.ok (1048592 + sizeof_Header,
            outHeap (mmalloc 4 MAP_FAILED MAP_FAILED 100 cex5d)) :=
  ⟨cex5d_reach, by decide!, by decide!, by decide!, by decide!, by decide!,
    run_ok _ _ (by decide!) (by decide!)⟩

/-- C5 (amended): `first_fit(size)` traverses the block list in circular order
starting from the list successor of the anchor and examines the anchor last;
it returns the first block in that order that is free with capacity at least
`size` (`NULL` if none), and `mmalloc` takes that block.  So a fitting
successor of the anchor is chosen even when the anchor fits too, and the
anchor is chosen only when no other block fits. -/
theorem C5_search_order (s : Heap) (a : Nat) (t : List Nat) (fuel size mm1 mm2 : Nat)
    (hbl : IsBlockList s (a :: t)) (h0 : 0 ∉ a :: t) (hfuel : (a :: t).length ≤ fuel) :
    a = anchor s ∧
      first_fit fuel size s = some (((t ++ [a]).find? (fits s size)).getD 0) ∧
      (∀ b, (t ++ [a]).find? (fits s size) = some b →
        ∃ s', mmalloc fuel mm1 mm2 size s = Outcome.ok (b + sizeof_Header, s')) ∧
      (∀ b, t.head? = some b → fits s size b = true → first_fit fuel size s = some b) ∧
      (fits s size a = true → (∀ x ∈ t, fits s size x = false) →
        first_fit fuel size s = some a) := by
  obtain ⟨ha, hff⟩ := isBlockList_first_fit s a t fuel size hbl hfuel
  have hne : s.first_arena ≠ 0 := by
    rcases hbl with ⟨-, h⟩ | ⟨h, -⟩
    · cases h
    · exact h
  refine ⟨ha, hff, ?_, ?_, ?_⟩
  · intro b hfind
    have hb : b ∈ a :: t := by
      have := List.mem_of_find?_eq_some hfind
      simp only [List.mem_append, List.mem_singleton, List.mem_cons] at this ⊢
      tauto
    have hb0 : b ≠ 0 := fun e => h0 (e ▸ hb)
    rw [hfind] at hff
    obtain ⟨s', h1, -⟩ := mmalloc_found s fuel mm1 mm2 size b hne hff hb0
    exact ⟨s', h1⟩
  · intro b hb hfit
    cases t with
    | nil => simp at hb
    | cons x t' =>
      have : x = b := by simpa using hb
      subst this
      rw [hff]
      simp [List.find?, hfit]
  · intro hfit hall
    rw [hff]
    have : (t ++ [a]).find? (fits s size) = some a := by
      rw [List.find?_append]
      have hnone : t.find? (fits s size) = none := by
        rw [List.find?_eq_none]
        intro x hx
        simp [hall x hx]
      rw [hnone]
      simp [List.find?, hfit]
    rw [this]
    rfl

/-- C5 witness: in `cex5d` the search order is the successor, then the
anchor. -/
theorem C5_search_order_witness :
    IsBlockList cex5d [2097168, 1048592] ∧
      first_fit 4 100 cex5d
        = some ((([1048592] ++ [2097168]).find? (fits cex5d 100)).getD 0) :=
  ⟨by decide!,
    (C5_search_order cex5d 2097168 [1048592] 4 100 MAP_FAILED MAP_FAILED (by decide!)
      (by decide!) (by decide!)).2.1⟩

/-! ## C6: the page source fails -/

theorem mmalloc_fault_first (s : Heap) (fuel mm2 size : Nat) (h : s.first_arena = 0) :
    mmalloc fuel MAP_FAILED mm2 size s = Outcome.fault := by
  unfold mmalloc
  rw [if_pos h, new_arena_fault MAP_FAILED size s rfl]

theorem mmalloc_fault_no_fit (s : Heap) (fuel mm1 size : Nat) (h : s.first_arena ≠ 0)
    (hff : first_fit fuel size s = some 0) :
    mmalloc fuel mm1 MAP_FAILED size s = Outcome.fault := by
  unfold mmalloc
  rw [if_neg h]
  unfold mmalloc_search
  rw [hff]
  simp only [ne_eq, not_true_eq_false, if_false]
  rw [new_arena_fault MAP_FAILED size s rfl]

/-- C6, the code at the failing inputs: when `mmap` fails, `mmalloc` does not
return `NULL`; it passes the `NULL` arena to `arena_append` and dereferences
it.  First on the very first allocation (`init`), then on a later allocation
for which no free block fits (`cex5a`, whose only block is used). -/
theorem C6_out_of_memory_faults :
    mmalloc 4 MAP_FAILED MAP_FAILED 1 init = Outcome.fault ∧
      cex5a.first_arena ≠ 0 ∧ first_fit 4 1 cex5a = some 0 ∧
      mmalloc 4 MAP_FAILED MAP_FAILED 1 cex5a = Outcome.fault ∧
      (arena_append 0 (arena_alloc MAP_FAILED (arena_request 1) cex5a).2).arena_end = 0 :=
  ⟨mmalloc_fault_first init 4 MAP_FAILED 1 rfl, by decide!, by decide!,
    mmalloc_fault_no_fit cex5a 4 MAP_FAILED 1 (by decide!) (by decide!), by decide!⟩

/-! ## C8, C9, C10: `mrealloc` in place -/

theorem setAsize_self (s : Heap) (h : Nat) : setAsize s h (s.hdrs h).asize = s := by
  apply heap_ext
  · rfl
  · rfl
  · rfl
  · rfl
  · intro x
    rw [setAsize_hdrs]
    split_ifs with e
    · subst e; rfl
    · rfl
  · rfl

/-- C8: resizing a reference to the requested size its block already records
(with `asize <= size`) returns the same reference and leaves the whole heap
state unchanged. -/
theorem C8_resize_same_size (s : Heap) (fuel mm1 mm2 ptr n : Nat)
    (hn : (s.hdrs (ptr - sizeof_Header)).asize = n)
    (hcap : n ≤ (s.hdrs (ptr - sizeof_Header)).size) :
    mrealloc fuel mm1 mm2 ptr n s = Outcome.ok (ptr, s) := by
  unfold mrealloc
  simp only []
  by_cases c1 : (s.hdrs (ptr - sizeof_Header)).size = n
  · rw [if_pos c1]
  · rw [if_neg c1]
    have c2 : (s.hdrs (ptr - sizeof_Header)).size > n := by omega
    rw [if_pos c2, ← hn, setAsize_self]

theorem demoS_run :
    mrealloc 4 MAP_FAILED MAP_FAILED 2097192 40 demo1 = Outcome.ok (2097192, demoS) :=
  run_ok _ _ (by decide!) (by decide!)

/-- C8 witness: the block of `demoS` has capacity 100 and records 40. -/
theorem C8_resize_same_size_witness :
    (demoS.hdrs (2097192 - sizeof_Header)).asize = 40 ∧
      40 ≤ (demoS.hdrs (2097192 - sizeof_Header)).size ∧
      mrealloc 4 MAP_FAILED MAP_FAILED 2097192 40 demoS = Outcome.ok (2097192, demoS) :=
  ⟨by decide!, by decide!,
    C8_resize_same_size demoS 4 MAP_FAILED MAP_FAILED 2097192 40 (by decide!) (by decide!)⟩

/-- C10, the code at the failing input: after `p = mmalloc(100)` and
`mrealloc(p, 40)`, the call `mrealloc(p, 100)` takes the branch
`header->size == size`, returns `p` and leaves `asize` at 40. -/
theorem C10_stale_requested_size :
    mmalloc 4 pageA MAP_FAILED 100 init = Outcome.ok (2097192, demo1) ∧
      mrealloc 4 MAP_FAILED MAP_FAILED 2097192 40 demo1 = Outcome.ok (2097192, demoS) ∧
      (demoS.hdrs (2097192 - sizeof_Header)).size = 100 ∧
      mrealloc 4 MAP_FAILED MAP_FAILED 2097192 100 demoS = Outcome.ok (2097192, demoS) ∧
      (demoS.hdrs (2097192 - sizeof_Header)).asize = 40 :=
  ⟨demo1_run, demoS_run, by decide!, by
    unfold mrealloc
    simp only []
    rw [if_pos (by decide!)], by decide!⟩

/-! ## C7: coalescing two adjacent blocks -/

theorem mfree_unfold (s : Heap) (fuel b : Nat) :
    mfree fuel (b + sizeof_Header) s =
      match hdr_get_prev fuel b (mfree_fwd b (setAsize s b 0)) with
      | none => Outcome.nofuel
      | some prev => Outcome.ok (mfree_bwd prev b (mfree_fwd b (setAsize s b 0))) := by
  unfold mfree mfree_fwd mfree_bwd
  simp only [Nat.add_sub_cancel]

theorem prev_eq (s : Heap) (al t L : List Nat) (b fuel : Nat) (h : WF s al (b :: t) L)
    (hfuel : t.length < fuel) : hdr_get_prev fuel b s = some (t.getLastD b) := by
  rcases wf_backward s al t L b fuel h with e | ⟨-, e⟩
  · exact e
  · omega

theorem ring_pred (s : Heap) (b x : Nat) (t : List Nat) (hr : Ring s (b :: t))
    (hnd : (b :: t).Nodup) (hx : x ∈ b :: t) (hn : (s.hdrs x).next = b) :
    t.getLastD b = x := by
  have hbt : b ∉ t := (List.nodup_cons.1 hnd).1
  rcases List.mem_cons.1 hx with e | e
  · subst e
    cases t with
    | nil => rfl
    | cons y t' =>
      have e1 : (s.hdrs x).next = y := hr.1
      exact absurd (by rw [← e1, hn]; simp) hbt
  · obtain ⟨l1, l2, rfl⟩ := List.append_of_mem e
    have hs : Seg (fun a => (s.hdrs a).next) b (l1 ++ x :: l2) b := hr
    rw [seg_append] at hs
    cases l2 with
    | nil => simp
    | cons y l2' =>
      have e1 : (s.hdrs x).next = y := hs.2.1
      exact absurd (by rw [← e1, hn]; simp) hbt

theorem add64_adj (l r sz : Nat) (h : l + sizeof_Header + sz = r) (hr : r < W) :
    add64 (add64 l sz) sizeof_Header = r := by
  unfold add64 W sizeof_Header at *; omega

theorem no_fwd (s1 : Heap) (al t L : List Nat) (b : Nat) (hw : WF s1 al (b :: t) L)
    (hc : (s1.hdrs (s1.hdrs b).next).asize ≠ 0 ∨
      b + sizeof_Header + (s1.hdrs b).size ≠ (s1.hdrs b).next) :
    mfree_fwd b s1 = s1 := by
  unfold mfree_fwd
  rw [if_neg]
  rintro ⟨-, hcm⟩
  obtain ⟨c1, -, c3⟩ := (hdr_can_merge_iff _ _ _).1 hcm
  have hal := wf_al_ne s1 al _ L hw b (by simp)
  have hmem := ring_next_mem s1 _ b (hw.ring hal) (by simp)
  have hbb := wf_block_bound s1 al _ L hw b (by simp)
  have hnb := wf_block_bound s1 al _ L hw _ hmem
  have hn0 : (s1.hdrs b).next ≠ 0 := by unfold sizeof_Arena at hnb; omega
  have hadj := adj_of_add64 b _ _ hbb.2 hn0 c1
  rcases hc with e | e
  · exact e c3
  · exact e hadj

theorem no_bwd (s1 : Heap) (al t L : List Nat) (b : Nat) (hw : WF s1 al (b :: t) L)
    (hc : ∀ P ∈ b :: t, P ≠ b → (s1.hdrs P).next = b →
      (s1.hdrs P).asize ≠ 0 ∨ P + sizeof_Header + (s1.hdrs P).size ≠ b) :
    mfree_bwd (t.getLastD b) b s1 = s1 := by
  unfold mfree_bwd
  rw [if_neg]
  rintro ⟨hlt, hcm⟩
  have hne : t.getLastD b ≠ b := by omega
  have hal := wf_al_ne s1 al _ L hw b (by simp)
  obtain ⟨t', -, hring'⟩ := ring_prev s1 b t (hw.ring hal) hne
  have hmem : t.getLastD b ∈ b :: t := List.getLastD_mem_cons t b
  generalize t.getLastD b = P at *
  have hnx : (s1.hdrs P).next = b := hring'.1
  obtain ⟨c1, c2, -⟩ := (hdr_can_merge_iff _ _ _).1 hcm
  have hpb := wf_block_bound s1 al _ L hw P hmem
  have hbb := wf_block_bound s1 al _ L hw b (by simp)
  have hb0 : b ≠ 0 := by unfold sizeof_Arena at hbb; omega
  have hadj := adj_of_add64 P b _ hpb.2 hb0 c1
  rcases hc P hmem hne hnx with e | e
  · exact e c2
  · exact e hadj

theorem setAsize_other (s : Heap) (b n x : Nat) (h : x ≠ b) :
    (setAsize s b n).hdrs x = s.hdrs x := by
  rw [setAsize_hdrs, if_neg h]

theorem setAsize_at (s : Heap) (b n : Nat) :
    (setAsize s b n).hdrs b = { s.hdrs b with asize := n } := by
  rw [setAsize_hdrs, if_pos rfl]

theorem live_filter_iff (L : List Nat) (b : Nat) (q : Nat) :
    q ∈ L.filter (fun q => decide (q ≠ b + sizeof_Header)) ↔
      (q ∈ L ∧ q ≠ b + sizeof_Header) ∨ ((0 : Nat) ≠ 0 ∧ q = b + sizeof_Header) := by
  simp [List.mem_filter]

/-- The heap after merging the free, adjacent pair at the head of the ring. -/
theorem merged_pair (s0 : Heap) (al t' L0 : List Nat) (A B fuel : Nat)
    (hw : WF s0 al (A :: B :: t') L0) (hBf : (s0.hdrs B).asize = 0)
    (hAf : (s0.hdrs A).asize = 0)
    (hadj : A + sizeof_Header + (s0.hdrs A).size = B)
    (hfuel : (A :: B :: t').length ≤ fuel) :
    WF (hdr_merge A B s0) al (A :: t') L0 ∧
    (hdr_merge A B s0).hdrs A = ⟨(s0.hdrs B).next,
      (s0.hdrs A).size + (s0.hdrs B).size + sizeof_Header, 0⟩ ∧
    (∃ bl2, IsBlockList (hdr_merge A B s0) bl2) ∧
    (∀ bl2, IsBlockList (hdr_merge A B s0) bl2 → A ∈ bl2 ∧ B ∉ bl2) ∧
    (∀ sz, sz ≤ (s0.hdrs A).size + (s0.hdrs B).size + sizeof_Header →
      ∃ r, first_fit fuel sz (hdr_merge A B s0) = some r ∧ r ≠ 0) := by
  have hbb := wf_block_bound s0 al _ L0 hw A (by simp)
  have hrb := wf_block_bound s0 al _ L0 hw B (by simp)
  have hne : A ≠ B := by unfold sizeof_Header at hadj; omega
  have hnw : (s0.hdrs A).size + (s0.hdrs B).size + sizeof_Header < W := by
    unfold sizeof_Header sizeof_Arena at *; omega
  obtain ⟨e_l, -⟩ := hdr_merge_spec s0 A B hne hnw
  rw [hAf] at e_l
  have hw2 := wf_merge s0 al t' L0 A B hw hadj hBf
  have hnd := wf_nodup s0 al _ L0 hw
  have hBn : B ∉ A :: t' := by
    intro hm
    rcases List.mem_cons.1 hm with e | e
    · exact hne e.symm
    · exact (List.nodup_cons.1 (List.nodup_cons.1 hnd).2).1 e
  have hal := wf_al_ne s0 al _ L0 hw A (by simp)
  generalize hdr_merge A B s0 = s2 at *
  refine ⟨hw2, e_l, ?_, ?_, ?_⟩
  · obtain ⟨bl2, h1, -⟩ := wf_isBlockList s2 al _ L0 hw2
    exact ⟨bl2, h1⟩
  · intro bl2 hbl2
    have hperm := isBlockList_perm s2 al _ L0 bl2 hw2 hbl2
    exact ⟨hperm.mem_iff.2 (by simp), fun hm => hBn (hperm.mem_iff.1 hm)⟩
  · intro sz hsz
    obtain ⟨t, hperm, -, -, hff, -⟩ := wf_first_fit s2 al _ L0 sz hw2 hal
    have hlen : t.length < fuel := by
      have := hperm.length_eq
      simp only [List.length_cons] at this hfuel
      omega
    refine ⟨_, hff fuel hlen, ?_⟩
    have hAm : A ∈ t ++ [anchor s2] := by
      have : A ∈ anchor s2 :: t := hperm.mem_iff.2 (by simp)
      simp only [List.mem_append, List.mem_singleton, List.mem_cons] at this ⊢
      tauto
    have hfA : fits s2 sz A = true := by
      simp only [fits, decide_eq_true_eq, e_l]
      exact ⟨trivial, hsz⟩
    cases hfind : (t ++ [anchor s2]).find? (fits s2 sz) with
    | none =>
      have := List.find?_eq_none.1 hfind A hAm
      exact absurd hfA this
    | some r =>
      have hr : r ∈ anchor s2 :: t := by
        have := List.mem_of_find?_eq_some hfind
        simp only [List.mem_append, List.mem_singleton, List.mem_cons] at this ⊢
        tauto
      have := wf_block_bound s2 al _ L0 hw2 r (hperm.mem_iff.1 hr)
      simp only [Option.getD_some]
      unfold sizeof_Arena at this; omega

/-- Both blocks marked free, everything else as in `s`: merging them gives the
coalesced heap. -/
theorem coalesced_of_twin (s s0 : Heap) (al bl L0 : List Nat) (A B fuel : Nat)
    (hw0 : WF s0 al bl L0) (hA : A ∈ bl)
    (tA : s0.hdrs A = { s.hdrs A with asize := 0 })
    (tB : s0.hdrs B = { s.hdrs B with asize := 0 })
    (hnext : (s.hdrs A).next = B)
    (hadj : A + sizeof_Header + (s.hdrs A).size = B) (hfuel : bl.length ≤ fuel) :
    Coalesced s (hdr_merge A B s0) A B fuel ∧
      ∃ t', WF s0 al (A :: B :: t') L0 ∧ List.Perm (A :: B :: t') bl ∧
        WF (hdr_merge A B s0) al (A :: t') L0 := by
  have hne : A ≠ B := by unfold sizeof_Header at hadj; omega
  obtain ⟨t, hwr, hperm⟩ := wf_rotate s0 al bl L0 hw0 A hA
  have hal := wf_al_ne s0 al bl L0 hw0 A hA
  have hring : Ring s0 (A :: t) := hwr.ring hal
  have hnx0 : (s0.hdrs A).next = B := by rw [tA]; exact hnext
  have hsA : (s0.hdrs A).size = (s.hdrs A).size := by rw [tA]
  have hsB : (s0.hdrs B).size = (s.hdrs B).size := by rw [tB]
  have hnB : (s0.hdrs B).next = (s.hdrs B).next := by rw [tB]
  cases t with
  | nil =>
    have e : (s0.hdrs A).next = A := hring
    exact absurd (e.symm.trans hnx0) hne
  | cons x t' =>
    have e : (s0.hdrs A).next = x := hring.1
    have hx : x = B := e.symm.trans hnx0
    subst hx
    have hfl : (A :: x :: t').length ≤ fuel := by
      have := hperm.length_eq
      omega
    obtain ⟨m1, m2, m3, m4, m5⟩ := merged_pair s0 al t' L0 A x fuel hwr (by rw [tB])
      (by rw [tA]) (by rw [hsA]; exact hadj) hfl
    rw [hsA, hsB, hnB] at m2
    rw [hsA, hsB] at m5
    exact ⟨⟨m2, m3, m4, fun sz _ hsz => m5 sz hsz⟩, t', hwr, hperm, m1⟩

/-- Coalescing in a well-formed heap: let `A` and `B` be used blocks with
`A.next == B` and `B == A + sizeof(Header) + A.size`, whose outer neighbours
cannot be merged with them (the list predecessor of `A` is used or does not end
at `A`; the list successor of `B` is used or does not start where `B` ends).
Then `mfree` of both payloads, in either order, returns and leaves one free
block at `A` with `size == A.size + B.size + sizeof(Header)` and
`next == B`'s old `next`; `B` is no longer in the block list, and `first_fit(s)`
returns a block for every `0 < s <=` that size. -/
theorem wf_coalescing (s : Heap) (al bl L : List Nat) (A B fuel : Nat) (h : WF s al bl L)
    (hA : A ∈ bl) (hB : B ∈ bl) (hAu : (s.hdrs A).asize ≠ 0) (hBu : (s.hdrs B).asize ≠ 0)
    (hnext : (s.hdrs A).next = B)
    (hadj : A + sizeof_Header + (s.hdrs A).size = B)
    (hP : ∀ P ∈ bl, (s.hdrs P).next = A →
      (s.hdrs P).asize ≠ 0 ∨ P + sizeof_Header + (s.hdrs P).size ≠ A)
    (hC : (s.hdrs (s.hdrs B).next).asize ≠ 0 ∨
      B + sizeof_Header + (s.hdrs B).size ≠ (s.hdrs B).next)
    (hfuel : bl.length ≤ fuel) :
    CoalescedAfter s A B fuel (A + sizeof_Header) (B + sizeof_Header) ∧
      CoalescedAfter s A B fuel (B + sizeof_Header) (A + sizeof_Header) := by
  have hne : A ≠ B := by unfold sizeof_Header at hadj; omega
  have hlt : A < B := by unfold sizeof_Header at hadj; omega
  have hal := wf_al_ne s al bl L h A hA
  have hBb := wf_block_bound s al bl L h B hB
  have hBW : B < W := by unfold sizeof_Header at hBb; omega
  -- the successor of `B` cannot be merged into `B`, whatever has been freed
  have succ_cond : ∀ s1 : Heap, (s1.hdrs B).next = (s.hdrs B).next →
      (s1.hdrs B).size = (s.hdrs B).size →
      (∀ x, x ≠ A → x ≠ B → s1.hdrs x = s.hdrs x) →
      (s1.hdrs (s1.hdrs B).next).asize ≠ 0 ∨
        B + sizeof_Header + (s1.hdrs B).size ≠ (s1.hdrs B).next := by
    intro s1 h1 h2 h3
    rw [h1, h2]
    by_cases e1 : (s.hdrs B).next = A
    · right; rw [e1]; unfold sizeof_Header; omega
    · by_cases e2 : (s.hdrs B).next = B
      · right; rw [e2]; unfold sizeof_Header; omega
      · rw [h3 _ e1 e2]; exact hC
  constructor
  · -- release `A`, then `B`
    have hwA := wf_setAsize s al bl L _ A 0 h hA (Nat.zero_le _) (live_filter_iff L A)
    have fA : (setAsize s A 0).hdrs A = { s.hdrs A with asize := 0 } := setAsize_at s A 0
    have oA : ∀ x, x ≠ A → (setAsize s A 0).hdrs x = s.hdrs x :=
      fun x hx => setAsize_other s A 0 x hx
    have hrun1 := mfree_unfold s fuel A
    generalize setAsize s A 0 = sA at *
    obtain ⟨tA, hwA', hpA⟩ := wf_rotate sA al bl _ hwA A hA
    have hlenA : tA.length < fuel := by
      have := hpA.length_eq
      simp only [List.length_cons] at this
      omega
    have e1 : mfree fuel (A + sizeof_Header) s = Outcome.ok sA := by
      rw [hrun1]
      have f1 : mfree_fwd A sA = sA := by
        refine no_fwd sA al tA _ A hwA' (Or.inl ?_)
        rw [fA]; simp only []
        rw [hnext, oA B (Ne.symm hne)]; exact hBu
      rw [f1, prev_eq sA al tA _ A fuel hwA' hlenA]
      simp only []
      rw [no_bwd sA al tA _ A hwA' ?_]
      intro P hPm hPA hnx
      by_cases hPB : P = B
      · left; rw [hPB, oA B (Ne.symm hne)]; exact hBu
      · rw [oA P hPA] at hnx ⊢
        exact hP P (hpA.mem_iff.1 hPm) hnx
    have hwAB := wf_setAsize sA al bl _ _ B 0 hwA hB (Nat.zero_le _) (live_filter_iff _ B)
    have fB : (setAsize sA B 0).hdrs B = { s.hdrs B with asize := 0 } := by
      rw [setAsize_at, oA B (Ne.symm hne)]
    have fA2 : (setAsize sA B 0).hdrs A = { s.hdrs A with asize := 0 } := by
      rw [setAsize_other sA B 0 A hne, fA]
    have oAB : ∀ x, x ≠ A → x ≠ B → (setAsize sA B 0).hdrs x = s.hdrs x :=
      fun x hx1 hx2 => by rw [setAsize_other sA B 0 x hx2, oA x hx1]
    have hrun2 : mfree fuel (B + sizeof_Header) sA
        = match hdr_get_prev fuel B (mfree_fwd B (setAsize sA B 0)) with
          | none => Outcome.nofuel
          | some prev => Outcome.ok (mfree_bwd prev B (mfree_fwd B (setAsize sA B 0))) :=
      mfree_unfold sA fuel B
    generalize setAsize sA B 0 = sAB at *
    obtain ⟨tB, hwB', hpB⟩ := wf_rotate sAB al bl _ hwAB B hB
    have hlenB : tB.length < fuel := by
      have := hpB.length_eq
      simp only [List.length_cons] at this
      omega
    obtain ⟨hco, t', -, -, -⟩ :=
      coalesced_of_twin s sAB al bl _ A B fuel hwAB hA fA2 fB hnext hadj hfuel
    have e2 : mfree fuel (B + sizeof_Header) sA = Outcome.ok (hdr_merge A B sAB) := by
      rw [hrun2]
      have f2 : mfree_fwd B sAB = sAB :=
        no_fwd sAB al tB _ B hwB'
          (succ_cond sAB (by rw [fB]) (by rw [fB]) oAB)
      rw [f2, prev_eq sAB al tB _ B fuel hwB' hlenB]
      simp only []
      have hpred : tB.getLastD B = A :=
        ring_pred sAB B A tB (hwB'.ring hal) (wf_nodup sAB al _ _ hwB')
          (hpB.mem_iff.2 hA) (by rw [fA2]; exact hnext)
      rw [hpred]
      unfold mfree_bwd
      rw [if_pos]
      refine ⟨hlt, (hdr_can_merge_iff _ _ _).2 ⟨?_, ?_, ?_⟩⟩
      · rw [fA2]; exact add64_adj A B _ hadj hBW
      · rw [fA2]
      · rw [fB]
    exact ⟨sA, _, e1, e2, hco⟩
  · -- release `B`, then `A`
    have hwB := wf_setAsize s al bl L _ B 0 h hB (Nat.zero_le _) (live_filter_iff L B)
    have fB : (setAsize s B 0).hdrs B = { s.hdrs B with asize := 0 } := setAsize_at s B 0
    have oB : ∀ x, x ≠ B → (setAsize s B 0).hdrs x = s.hdrs x :=
      fun x hx => setAsize_other s B 0 x hx
    have hrun1 := mfree_unfold s fuel B
    generalize setAsize s B 0 = sB at *
    obtain ⟨tB, hwB', hpB⟩ := wf_rotate sB al bl _ hwB B hB
    have hlenB : tB.length < fuel := by
      have := hpB.length_eq
      simp only [List.length_cons] at this
      omega
    have e1 : mfree fuel (B + sizeof_Header) s = Outcome.ok sB := by
      rw [hrun1]
      have f1 : mfree_fwd B sB = sB :=
        no_fwd sB al tB _ B hwB'
          (succ_cond sB (by rw [fB]) (by rw [fB]) (fun x _ hx => oB x hx))
      rw [f1, prev_eq sB al tB _ B fuel hwB' hlenB]
      simp only []
      have hpred : tB.getLastD B = A :=
        ring_pred sB B A tB (hwB'.ring hal) (wf_nodup sB al _ _ hwB')
          (hpB.mem_iff.2 hA) (by rw [oB A hne]; exact hnext)
      rw [hpred]
      unfold mfree_bwd
      rw [if_neg]
      rintro ⟨-, hcm⟩
      obtain ⟨-, c2, -⟩ := (hdr_can_merge_iff _ _ _).1 hcm
      rw [oB A hne] at c2
      exact hAu c2
    have hwBA := wf_setAsize sB al bl _ _ A 0 hwB hA (Nat.zero_le _) (live_filter_iff _ A)
    have fA : (setAsize sB A 0).hdrs A = { s.hdrs A with asize := 0 } := by
      rw [setAsize_at, oB A hne]
    have fB2 : (setAsize sB A 0).hdrs B = { s.hdrs B with asize := 0 } := by
      rw [setAsize_other sB A 0 B (Ne.symm hne), fB]
    have oBA : ∀ x, x ≠ A → x ≠ B → (setAsize sB A 0).hdrs x = s.hdrs x :=
      fun x hx1 hx2 => by rw [setAsize_other sB A 0 x hx1, oB x hx2]
    have hrun2 : mfree fuel (A + sizeof_Header) sB
        = match hdr_get_prev fuel A (mfree_fwd A (setAsize sB A 0)) with
          | none => Outcome.nofuel
          | some prev => Outcome.ok (mfree_bwd prev A (mfree_fwd A (setAsize sB A 0))) :=
      mfree_unfold sB fuel A
    generalize setAsize sB A 0 = sBA at *
    obtain ⟨hco, t', hw2, hp2, hwm⟩ :=
      coalesced_of_twin s sBA al bl _ A B fuel hwBA hA fA fB2 hnext hadj hfuel
    have hnd2 := wf_nodup sBA al _ _ hw2
    have hnw : (sBA.hdrs A).size + (sBA.hdrs B).size + sizeof_Header < W := by
      rw [fA, fB2]; simp only []
      unfold sizeof_Header at *; omega
    obtain ⟨-, mo, -⟩ := hdr_merge_spec sBA A B hne hnw
    have e2 : mfree fuel (A + sizeof_Header) sB = Outcome.ok (hdr_merge A B sBA) := by
      rw [hrun2]
      have f2 : mfree_fwd A sBA = hdr_merge A B sBA := by
        unfold mfree_fwd
        have hn : (sBA.hdrs A).next = B := by rw [fA]; exact hnext
        rw [hn, if_pos]
        refine ⟨hlt, (hdr_can_merge_iff _ _ _).2 ⟨?_, ?_, ?_⟩⟩
        · rw [fA]; exact add64_adj A B _ hadj hBW
        · rw [fA]
        · rw [fB2]
      rw [f2]
      have hlen2 : t'.length < fuel := by
        have := hp2.length_eq
        simp only [List.length_cons] at this
        omega
      generalize hdr_merge A B sBA = s2 at *
      rw [prev_eq s2 al t' _ A fuel hwm hlen2]
      simp only []
      rw [no_bwd s2 al t' _ A hwm ?_]
      intro P hPm hPA hnx
      have hPt : P ∈ t' := by
        rcases List.mem_cons.1 hPm with e | e
        · exact absurd e hPA
        · exact e
      have hPB : P ≠ B := by
        intro e
        exact (List.nodup_cons.1 (List.nodup_cons.1 hnd2).2).1 (e ▸ hPt)
      have hPbl : P ∈ bl :=
        hp2.mem_iff.1 (List.mem_cons_of_mem _ (List.mem_cons_of_mem _ hPt))
      rw [mo P hPA, oBA P hPA hPB] at hnx ⊢
      exact hP P hPbl hnx
    exact ⟨sB, _, e1, e2, hco⟩

theorem pages_none (s : Heap) (size : Nat) : Pages s MAP_FAILED MAP_FAILED size :=
  ⟨Or.inl rfl, Or.inl rfl, fun h _ => absurd rfl h⟩

theorem demo4c_reach : Reach MAXREQ demo4c [2097270, 2097226, 2097192] :=
  Reach.malloc demo4b demo4c [2097226, 2097192] 4 MAP_FAILED MAP_FAILED 30 2097270
    (Reach.malloc demo4a demo4b [2097192] 4 MAP_FAILED MAP_FAILED 20 2097226
      (Reach.malloc init demo4a [] 4 pageA MAP_FAILED 10 2097192
        (Reach.start init rfl rfl rfl) (by decide) (by decide)
        (pages_first init pageA _ (fresh_init pageA _ (by decide) (by decide) (by decide)))
        demo4a_run)
      (by decide) (by decide) (pages_none demo4a 20) demo4b_run)
    (by decide) (by decide) (pages_none demo4b 30) demo4c_run

/-- Example for `wf_coalescing`: in the reachable heap `demo4c` (three used blocks of 10, 20
and 30 bytes and the free rest) the first two blocks are released in both
orders. -/
theorem wf_coalescing_demo :
    Reach MAXREQ demo4c [2097270, 2097226, 2097192] ∧
      IsBlockList demo4c [2097168, 2097202, 2097246, 2097300] ∧
      CoalescedAfter demo4c 2097168 2097202 4 (2097168 + sizeof_Header)
        (2097202 + sizeof_Header) ∧
      CoalescedAfter demo4c 2097168 2097202 4 (2097202 + sizeof_Header)
        (2097168 + sizeof_Header) := by
  have hbl : IsBlockList demo4c [2097168, 2097202, 2097246, 2097300] := by decide!
  refine ⟨demo4c_reach, hbl, ?_⟩
  obtain ⟨al, bl, hw⟩ := reach_wf _ _ demo4c_reach
  have hperm := isBlockList_perm demo4c al bl _ _ hw hbl
  have hP : ∀ P ∈ [2097168, 2097202, 2097246, 2097300],
      (demo4c.hdrs P).next = 2097168 → (demo4c.hdrs P).asize ≠ 0 ∨
        P + sizeof_Header + (demo4c.hdrs P).size ≠ 2097168 := by decide!
  exact wf_coalescing demo4c al bl _ 2097168 2097202 4 hw
    (hperm.mem_iff.1 (by simp)) (hperm.mem_iff.1 (by simp)) (by decide!) (by decide!)
    (by decide!) (by decide!) (fun P hPm => hP P (hperm.mem_iff.2 hPm)) (by decide!)
    (by rw [← hperm.length_eq]; decide)

/-! ## Links between the hypotheses used above and reachability -/

/-- Every state reached by valid calls has a block list, and `NULL` is not
one of its headers. -/
theorem reach_blocklist (s : Heap) (L : List Nat) (h : Reach MAXREQ s L) :
    ∃ bl, IsBlockList s bl ∧ 0 ∉ bl := by
  obtain ⟨al, bl, hw⟩ := reach_wf s L h
  obtain ⟨bl', hbl', hperm⟩ := wf_isBlockList s al bl L hw
  refine ⟨bl', hbl', fun h0 => ?_⟩
  have := (wf_block_bound s al bl L hw 0 (hperm.mem_iff.1 h0)).1
  unfold sizeof_Arena at this
  omega

/-- The absorption branch of `mrealloc` returns the same reference and the
state after the three stores `absorb_stores`. -/
theorem mrealloc_absorb (s : Heap) (fuel mm1 mm2 ptr size : Nat)
    (c1 : (s.hdrs (ptr - sizeof_Header)).size ≠ size)
    (c2 : ¬ (s.hdrs (ptr - sizeof_Header)).size > size)
    (c3 : (s.hdrs (s.hdrs (ptr - sizeof_Header)).next).asize = 0 ∧
      add64 (add64 (ptr - sizeof_Header) (s.hdrs (ptr - sizeof_Header)).size) sizeof_Header
        = (s.hdrs (ptr - sizeof_Header)).next ∧
      add64 (add64 (s.hdrs (s.hdrs (ptr - sizeof_Header)).next).size
        (s.hdrs (ptr - sizeof_Header)).size) sizeof_Header > size) :
    mrealloc fuel mm1 mm2 ptr size s = Outcome.ok (ptr,
      absorb_stores s (ptr - sizeof_Header) (s.hdrs (ptr - sizeof_Header)).next size) := by
  unfold mrealloc
  simp only []
  rw [if_neg c1, if_neg c2, if_pos c3]
  rfl

/-! ## C13, C14, C17: zero sizes, the split threshold, the page rounding -/

/-- C13, the code at the failing inputs: neither `mmalloc` nor `mrealloc`
tests `size == 0`.  On the initial heap `mmalloc(0)` maps an arena, splits its
block into a block of capacity 0 and the rest, and returns the payload address
of the first; `mrealloc(p, 0)` on the live 100-byte block of `demo1` takes the
branch `header->size > size`, stores `asize = 0` (which is the mark of a free
block) and returns `p`. -/
theorem C13_zero_size_not_rejected :
    isOk (mmalloc 4 pageA MAP_FAILED 0 init) = true ∧
      outPtr (mmalloc 4 pageA MAP_FAILED 0 init) = 2097192 ∧
      zeroA.first_arena = pageA ∧
      zeroA.hdrs 2097168 = ⟨2097192, 0, 0⟩ ∧ zeroA.hdrs 2097192 = ⟨2097168, 131008, 0⟩ ∧
      mrealloc 4 MAP_FAILED MAP_FAILED 2097192 0 demo1
        = Outcome.ok (2097192, setAsize demo1 2097168 0) ∧
      (demo1.hdrs 2097168).asize = 100 ∧
      ((setAsize demo1 2097168 0).hdrs 2097168).asize = 0 :=
  ⟨by decide!, by decide!, by decide!, by decide!, by decide!, by
    unfold mrealloc
    simp only []
    rw [if_neg (by decide!), if_pos (by decide!)]
    rfl, by decide!, by decide!⟩

/-- C14, the code at the failing input: `mmalloc(131007)` on the initial heap.
The new arena holds one free block of capacity 131032; `first_fit` returns it,
`hdr_should_split` answers true (131032 >= 24 + 131007 + 1), and `mmalloc`
calls `hdr_split`, whose documented and asserted precondition
`hdr->size >= req_size + 2*sizeof(Header)` (131032 >= 131055) is false.  The
split leaves a remainder of one byte. -/
theorem C14_split_precondition_violated :
    isOk (new_arena pageA 131007 init) = true ∧
      first_fit 4 131007 tightA = some 2097168 ∧
      tightA.hdrs 2097168 = ⟨2097168, 131032, 0⟩ ∧
      hdr_should_split 2097168 131007 tightA = true ∧
      ¬ ((tightA.hdrs 2097168).size ≥ 131007 + 2 * sizeof_Header) ∧
      isOk (mmalloc 4 pageA MAP_FAILED 131007 init) = true ∧
      outPtr (mmalloc 4 pageA MAP_FAILED 131007 init) = 2097192 ∧
      tightB.hdrs 2097168 = ⟨2228199, 131007, 131007⟩ ∧
      tightB.hdrs 2228199 = ⟨2097168, 1, 0⟩ :=
  ⟨by decide!, by decide!, by decide!, by decide!, by decide!, by decide!, by decide!,
    by decide!, by decide!⟩

/-- C17, the code at the failing inputs: for `size = 2^64 - 40` the sum
`size + sizeof(Header) + sizeof(Arena)` wraps to 0 and `allign_page` returns 0,
which is not greater than `sizeof(Arena) + sizeof(Header)`, the asserted
precondition of `arena_alloc`; the same happens from `MAXREQ + 1` on, where the
addition inside `allign_page` wraps.  For `size = 2^64 - 39` the result is one
page, less than `size`. -/
theorem C17_arena_request_wraps :
    arena_request 18446744073709551576 = 0 ∧
      ¬ (arena_request 18446744073709551576 > sizeof_Arena + sizeof_Header) ∧
      (arena_alloc pageA (arena_request 18446744073709551576) init).2.arenas pageA
        = ⟨0, 0⟩ ∧
      arena_request (MAXREQ + 1) = 0 ∧
      arena_request MAXREQ = 18446744073709420544 ∧
      arena_request 18446744073709551577 = 131072 ∧
      ¬ (arena_request 18446744073709551577
          ≥ 18446744073709551577 + sizeof_Header + sizeof_Arena) :=
  ⟨by decide!, by decide!, by decide!, by decide!, by decide!, by decide!, by decide!⟩

/-! ## C15: what `hdr_split` does -/

theorem absorb_stores_hdrs (s : Heap) (b r size : Nat) (hne : b ≠ r) :
    (absorb_stores s b r size).hdrs b
        = ⟨(s.hdrs r).next, add64 (s.hdrs b).size (add64 (s.hdrs r).size sizeof_Header),
            size⟩ ∧
      (∀ x, x ≠ b → (absorb_stores s b r size).hdrs x = s.hdrs x) := by
  unfold absorb_stores
  constructor
  · simp [setAsize_hdrs, setSize_hdrs, setNext_hdrs, hne.symm]
  · intro x hx
    simp [setAsize_hdrs, setSize_hdrs, setNext_hdrs, hx]

/-- C12: for a live reference `ptr` (its header `b` has `asize != 0`) and
`new_size` above the block's capacity, if the list successor `N` is free, is
at the address `b + b->size + sizeof(Header)` and has
`N.size + b.size + sizeof(Header) > new_size` (both as the code computes them):
`mrealloc(ptr, new_size)` returns `ptr`; the header of the block becomes
`next = N.next`, `size = b.size + N.size + sizeof(Header)`, `asize = new_size`;
no other header, no arena record, no static and no payload byte changes; in
every cycle of distinct headers through `b` and `N`, `N` has left the cycle.
In a well-formed heap (every state reached by calls with sizes up to `MAXREQ`
is one, `reach_wf`) the new size is the sum without wrap-around, `N` is no
longer in the block list, the block still is, and the heap is again well
formed with the same live references. -/
theorem C12_grow_by_absorption (s : Heap) (fuel mm1 mm2 ptr new_size : Nat)
    (hlive : (s.hdrs (ptr - sizeof_Header)).asize ≠ 0)
    (hgt : (s.hdrs (ptr - sizeof_Header)).size < new_size)
    (hfree : (s.hdrs (s.hdrs (ptr - sizeof_Header)).next).asize = 0)
    (hadj : add64 (add64 (ptr - sizeof_Header) (s.hdrs (ptr - sizeof_Header)).size)
      sizeof_Header = (s.hdrs (ptr - sizeof_Header)).next)
    (hsz : add64 (add64 (s.hdrs (s.hdrs (ptr - sizeof_Header)).next).size
      (s.hdrs (ptr - sizeof_Header)).size) sizeof_Header > new_size) :
    ∃ s', mrealloc fuel mm1 mm2 ptr new_size s = Outcome.ok (ptr, s') ∧
      s'.hdrs (ptr - sizeof_Header)
        = ⟨(s.hdrs (s.hdrs (ptr - sizeof_Header)).next).next,
            add64 (s.hdrs (ptr - sizeof_Header)).size
              (add64 (s.hdrs (s.hdrs (ptr - sizeof_Header)).next).size sizeof_Header),
            new_size⟩ ∧
      (∀ x, x ≠ ptr - sizeof_Header → s'.hdrs x = s.hdrs x) ∧
      s'.bytes = s.bytes ∧ s'.arenas = s.arenas ∧ s'.first_arena = s.first_arena ∧
      s'.arena_end = s.arena_end ∧ s'.ctor_temp = s.ctor_temp ∧
      (∀ t, ((ptr - sizeof_Header) :: (s.hdrs (ptr - sizeof_Header)).next :: t).Nodup →
        Ring s ((ptr - sizeof_Header) :: (s.hdrs (ptr - sizeof_Header)).next :: t) →
        Ring s' ((ptr - sizeof_Header) :: t)) ∧
      (∀ al bl L, WF s al bl L → ptr ∈ L →
        (s'.hdrs (ptr - sizeof_Header)).size
          = (s.hdrs (ptr - sizeof_Header)).size
            + (s.hdrs (s.hdrs (ptr - sizeof_Header)).next).size + sizeof_Header ∧
        (∃ bl', IsBlockList s' bl') ∧
        (∀ bl', IsBlockList s' bl' →
          ptr - sizeof_Header ∈ bl' ∧ (s.hdrs (ptr - sizeof_Header)).next ∉ bl') ∧
        ∃ bl', WF s' al bl' L) := by
  have hrun := mrealloc_absorb s fuel mm1 mm2 ptr new_size (by omega) (by omega)
    ⟨hfree, hadj, hsz⟩
  generalize hbdef : ptr - sizeof_Header = b at *
  have hne : b ≠ (s.hdrs b).next := by
    intro e
    rw [← e] at hfree
    exact hlive hfree
  obtain ⟨hb, ho⟩ := absorb_stores_hdrs s b (s.hdrs b).next new_size hne
  have heq : absorb_stores s b (s.hdrs b).next new_size
      = setAsize (hdr_merge b (s.hdrs b).next s) b new_size := by
    unfold absorb_stores
    exact absorb_eq s b _ new_size hne
  refine ⟨_, hrun, hb, ho, rfl, rfl, rfl, rfl, rfl, ?_, ?_⟩
  · intro t hnd hring
    have hbt : b ∉ t := fun hm =>
      (List.nodup_cons.1 hnd).1 (List.mem_cons_of_mem _ hm)
    refine ring_remove s _ b _ t hring (by rw [hb]) ?_
    intro y hy
    rw [ho y (fun e => hbt (e ▸ hy))]
  · intro al bl L h hp
    obtain ⟨b', hb', hbu, hpb⟩ := (h.live ptr).1 hp
    have hbb' : b' = b := by omega
    subst hbb'
    obtain ⟨t, hwfr, hperm⟩ := wf_rotate s al bl L h b' hb'
    have hal := wf_al_ne s al bl L h b' hb'
    have hring : Ring s (b' :: t) := hwfr.ring hal
    cases t with
    | nil => exact absurd hring.symm hne
    | cons r t' =>
      have e : (s.hdrs b').next = r := hring.1
      rw [e] at hfree hadj hsz hne heq ⊢
      have hbb := wf_block_bound s al _ L hwfr b' (by simp)
      have hrb := wf_block_bound s al _ L hwfr r (by simp)
      have hr0 : r ≠ 0 := by unfold sizeof_Arena at hrb; omega
      have hadj' := adj_of_add64 b' r _ hbb.2 hr0 hadj
      obtain ⟨hw, hhd⟩ := wf_absorb s al t' L b' r new_size hwfr hbu hfree hadj' hsz (by omega)
      have hnd := wf_nodup s al _ L hwfr
      have hrn : r ∉ b' :: t' := by
        intro hm
        rcases List.mem_cons.1 hm with e' | e'
        · exact hne e'.symm
        · exact (List.nodup_cons.1 (List.nodup_cons.1 hnd).2).1 e'
      rw [heq]
      generalize setAsize (hdr_merge b' r s) b' new_size = s' at *
      obtain ⟨bl1, hbl1, -⟩ := wf_isBlockList s' al _ L hw
      refine ⟨by rw [hhd], ⟨bl1, hbl1⟩, ?_, ⟨_, hw⟩⟩
      intro bl' hbl'
      have hp' := isBlockList_perm s' al _ L bl' hw hbl'
      exact ⟨hp'.mem_iff.2 (by simp), fun hm => hrn (hp'.mem_iff.1 hm)⟩

/-- C12 witness: growing the 100-byte block of `demo1` to 200 bytes absorbs
the free rest of the arena. -/
theorem C12_grow_by_absorption_witness :
    Reach MAXREQ demo1 [2097192] ∧
      demo1.hdrs (2097192 - sizeof_Header) = ⟨2097292, 100, 100⟩ ∧
      demo1.hdrs 2097292 = ⟨2097168, 130908, 0⟩ ∧
      ∃ s', mrealloc 4 MAP_FAILED MAP_FAILED 2097192 200 demo1 = Outcome.ok (2097192, s') ∧
        s'.hdrs (2097192 - sizeof_Header)
          = ⟨(demo1.hdrs (demo1.hdrs (2097192 - sizeof_Header)).next).next,
              add64 (demo1.hdrs (2097192 - sizeof_Header)).size
                (add64 (demo1.hdrs (demo1.hdrs (2097192 - sizeof_Header)).next).size
                  sizeof_Header), 200⟩ ∧
        s'.bytes = demo1.bytes := by
  refine ⟨demo1_reach, by decide!, by decide!, ?_⟩
  obtain ⟨s', h1, h2, -, h4, -⟩ :=
    C12_grow_by_absorption demo1 4 MAP_FAILED MAP_FAILED 2097192 200
      (by decide!) (by decide!) (by decide!) (by decide!) (by decide!)
  exact ⟨s', h1, h2, h4⟩

/-! ## C16: the block list is a cycle -/

theorem isBlockList_unique (s : Heap) (bl bl' : List Nat) (h : IsBlockList s bl)
    (h' : IsBlockList s bl') : bl = bl' := by
  rcases h with ⟨h0, rfl⟩ | ⟨hne, hring, hnd, hhead⟩
  · rcases h' with ⟨-, rfl⟩ | ⟨hne', -⟩
    · rfl
    · exact absurd h0 hne'
  · rcases h' with ⟨h0', -⟩ | ⟨-, hring', hnd', hhead'⟩
    · exact absurd h0' hne
    · cases bl with
      | nil => exact absurd hring (by simp [Ring])
      | cons a t =>
        cases bl' with
        | nil => exact absurd hring' (by simp [Ring])
        | cons a' t' =>
          have ha : a = anchor s := by simpa using hhead
          have ha' : a' = anchor s := by simpa using hhead'
          subst ha
          subst ha'
          rw [seg_unique _ t t' _ _ hring hring' (List.nodup_cons.1 hnd).1
            (List.nodup_cons.1 hnd').1]

theorem first_fit_loop_stuck (s : Heap) (size first x : Nat) (h1 : (s.hdrs x).next = x)
    (h2 : (s.hdrs x).asize ≠ 0) (hx : x ≠ first) (fuel : Nat) :
    first_fit_loop size first s fuel x = none := by
  induction fuel with
  | zero => simp [first_fit_loop]
  | succ n ih =>
    have hf : ¬ ((s.hdrs x).asize = 0 ∧ (s.hdrs x).size ≥ size) := fun h => h2 h.1
    simp only [first_fit_loop, h1, hf, if_false, hx, ne_eq, not_false_eq_true, if_true]
    exact ih

theorem first_fit_stuck (s : Heap) (size x : Nat)
    (h0 : (s.hdrs (s.first_arena + sizeof_Arena)).next = x) (h1 : (s.hdrs x).next = x)
    (h2 : (s.hdrs x).asize ≠ 0) (hx : x ≠ s.first_arena + sizeof_Arena) (fuel : Nat) :
    first_fit fuel size s = none := by
  unfold first_fit
  cases fuel with
  | zero => simp [first_fit_loop]
  | succ n =>
    have hf : ¬ ((s.hdrs x).asize = 0 ∧ (s.hdrs x).size ≥ size) := fun h => h2 h.1
    simp only [first_fit_loop, h0, hf, if_false, hx, ne_eq, not_false_eq_true, if_true]
    exact first_fit_loop_stuck s size _ x h1 h2 hx n

theorem hdr_get_prev_loop_stuck (s : Heap) (hdr x : Nat) (h1 : (s.hdrs x).next = x)
    (hx : x ≠ hdr) (fuel : Nat) : hdr_get_prev_loop hdr s fuel x = none := by
  induction fuel with
  | zero => simp [hdr_get_prev_loop]
  | succ n ih =>
    simp only [hdr_get_prev_loop, h1, hx, ne_eq, not_false_eq_true, if_true]
    exact ih

theorem hdr_get_prev_stuck (s : Heap) (hdr x : Nat) (h0 : (s.hdrs hdr).next = x)
    (h1 : (s.hdrs x).next = x) (hx : x ≠ hdr) (fuel : Nat) :
    hdr_get_prev fuel hdr s = none := by
  unfold hdr_get_prev
  cases fuel with
  | zero => simp [hdr_get_prev_loop]
  | succ n =>
    simp only [hdr_get_prev_loop, h0, hx, ne_eq, not_false_eq_true, if_true]
    exact hdr_get_prev_loop_stuck s hdr x h1 hx n

/-- C16, the code at the failing input: after `mmalloc(1)` and
`mmalloc(2^64 - 24)` (two
calls with `size > 0` on live state; `size + sizeof(Header) + sizeof(Arena)`
wraps to 16, and inside `hdr_split` the address `hdr + sizeof(Header) + size`
wraps to `hdr`) the anchor points to the header at `pageB + 16`, which points
to itself: following `next` from the anchor never returns to the anchor, no
list of headers is the block list, and neither the loop of `first_fit(1)` nor
the loop of `hdr_get_prev(anchor)` ever ends. -/
theorem C16_cycle_broken :
    Reach SIZE_MAX ovfC [1048616, 2097192] ∧ ovfC.first_arena ≠ 0 ∧
      anchor ovfC = 2097168 ∧ (ovfC.hdrs 2097168).next = 1048592 ∧
      (ovfC.hdrs 1048592).next = 1048592 ∧ (∀ bl, ¬ IsBlockList ovfC bl) ∧
      (∀ fuel, first_fit fuel 1 ovfC = none) ∧
      (∀ fuel, hdr_get_prev fuel 2097168 ovfC = none) :=
  ⟨ovfC_reach, by decide!, by decide!, by decide!, by decide!, ovfC_no_ring,
    first_fit_stuck ovfC 1 1048592 (by decide!) (by decide!) (by decide!) (by decide!),
    hdr_get_prev_stuck ovfC 2097168 1048592 (by decide!) (by decide!) (by decide)⟩

/-- Where the size arithmetic does not wrap: in every heap state reached by
valid calls with sizes up to `MAXREQ` in which an arena exists, the block list is one non-empty cycle from
the anchor: a list `a :: t` of distinct headers with `a` the anchor, closed
under `next`, in which following `next` from `a` walks through `t` and returns
to `a` (alone, the anchor points to itself), and it is the only block list;
with fuel for one round `first_fit` returns, and `hdr_get_prev` of a listed
block returns a listed block `p` with `p->next == hdr`.  The cycle holds every
block: the first block of every arena, the header of every live reference, and
its blocks with their headers add up to the bytes of all arenas. -/
theorem reach_cycle (s : Heap) (L : List Nat) (h : Reach MAXREQ s L)
    (hne : s.first_arena ≠ 0) :
    ∃ t, IsBlockList s (anchor s :: t) ∧ Ring s (anchor s :: t) ∧ (anchor s :: t).Nodup ∧
      (∀ bl, IsBlockList s bl → bl = anchor s :: t) ∧
      (t = [] → (s.hdrs (anchor s)).next = anchor s) ∧
      (∀ x ∈ anchor s :: t, (s.hdrs x).next ∈ anchor s :: t) ∧
      (∀ fuel size, t.length < fuel → ∃ r, first_fit fuel size s = some r) ∧
      (∀ fuel hdr, hdr ∈ anchor s :: t → t.length < fuel →
        ∃ p, hdr_get_prev fuel hdr s = some p ∧ p ∈ anchor s :: t ∧ (s.hdrs p).next = hdr) ∧
      (∀ al, IsArenaList s al → ∀ a ∈ al, a + sizeof_Arena ∈ anchor s :: t) ∧
      (∀ p ∈ L, p - sizeof_Header ∈ anchor s :: t) ∧
      (∀ al, IsArenaList s al → blockBytes s (anchor s :: t) = arenaBytes s al) := by
  obtain ⟨al, bl, hw⟩ := reach_wf s L h
  have hal : al ≠ [] := fun e => hne ((arenaChain_first s al _ hw.ar.achain).2 e)
  obtain ⟨t, hperm, hring, hnd, hff, -⟩ := wf_first_fit s al bl L 0 hw hal
  have hbl : IsBlockList s (anchor s :: t) := Or.inr ⟨hne, hring, hnd, rfl⟩
  refine ⟨t, hbl, hring, hnd, fun bl' hbl' => isBlockList_unique s _ _ hbl' hbl, ?_,
    fun x hx => ring_next_mem s _ x hring hx, ?_, ?_, ?_, ?_, ?_⟩
  · intro e
    subst e
    exact hring
  · intro fuel size hf
    obtain ⟨t2, hperm2, -, -, hff2, -⟩ := wf_first_fit s al bl L size hw hal
    have hlen : t2.length = t.length := by
      have := (hperm2.trans hperm.symm).length_eq
      simpa using this
    exact ⟨_, hff2 fuel (by omega)⟩
  · intro fuel hdr hm hf
    obtain ⟨t2, hwf2, hperm2⟩ := wf_rotate s al bl L hw hdr (hperm.mem_iff.1 hm)
    have hlen : t2.length = t.length := by
      have := (hperm2.trans hperm.symm).length_eq
      simpa using this
    have hpe := prev_eq s al t2 L hdr fuel hwf2 (by omega)
    have hring2 : Ring s (hdr :: t2) := hwf2.ring hal
    have hnd2 := wf_nodup s al _ L hwf2
    refine ⟨_, hpe, ?_, ?_⟩
    · apply (hperm2.trans hperm.symm).mem_iff.1
      rcases List.eq_nil_or_concat t2 with e | ⟨t', q, e⟩
      · subst e; simp
      · subst e; simp
    · rcases List.eq_nil_or_concat t2 with e | ⟨t', q, e⟩
      · subst e
        exact hring2
      · have hq : t2.getLastD hdr = q := by subst e; simp
        have hqne : t2.getLastD hdr ≠ hdr := by
          rw [hq]
          intro e'
          apply (List.nodup_cons.1 hnd2).1
          rw [e, ← e']
          simp
        obtain ⟨t'', -, hr3⟩ := ring_prev s hdr t2 hring2 hqne
        exact hr3.1
  · intro al' hal' a ha
    have : al' = al := arenaChain_unique s _ _ _ hal' hw.ar.achain
    subst this
    exact hperm.mem_iff.2 (hw.firsts a ha)
  · intro p hp
    obtain ⟨b, hb, -, e⟩ := (hw.live p).1 hp
    have : p - sizeof_Header = b := by omega
    rw [this]
    exact hperm.mem_iff.2 hb
  · intro al' hal'
    have : al' = al := arenaChain_unique s _ _ _ hal' hw.ar.achain
    subst this
    rw [blockBytes_perm s _ _ hperm]
    exact hw.cons

/-- Example for `reach_cycle`: the heap `demo1` (one used block and the free
rest). -/
theorem reach_cycle_demo :
    demo1.first_arena ≠ 0 ∧
      ∃ t, IsBlockList demo1 (anchor demo1 :: t) ∧ Ring demo1 (anchor demo1 :: t) := by
  refine ⟨by decide!, ?_⟩
  obtain ⟨t, h1, h2, -⟩ := reach_cycle demo1 _ demo1_reach (by decide!)
  exact ⟨t, h1, h2⟩

/-! ## C18: merges stay inside one arena -/

theorem demo4_reach : Reach MAXREQ demo4 [2097270, 2097192] :=
  Reach.free demo4c demo4 [2097270, 2097226, 2097192] 4 2097226 demo4c_reach (by decide)
    demo4_run

/-- In a well-formed heap, two listed blocks of which the second starts where
the first ends lie in one arena, in address order, and the second is not the
first block of an arena. -/
theorem wf_adjacent (s : Heap) (al bl L : List Nat) (h : WF s al bl L) (l r : Nat)
    (hl : l ∈ bl) (hr : r ∈ bl)
    (hadj : add64 (add64 l (s.hdrs l).size) sizeof_Header = r) :
    l + sizeof_Header + (s.hdrs l).size = r ∧ MergeInArena s l r := by
  have hlb := wf_block_bound s al bl L h l hl
  have hrb := wf_block_bound s al bl L h r hr
  have hr0 : r ≠ 0 := by unfold sizeof_Arena at hrb; omega
  have hadj' := adj_of_add64 l r _ hlb.2 hr0 hadj
  obtain ⟨a, ha, a1, a2⟩ := h.inar l hl
  obtain ⟨a', ha', a1', a2'⟩ := h.inar r hr
  have hlt : l < r := by unfold sizeof_Header at hadj'; omega
  have hsame : a = a' := by
    rcases arena_disj s al h.ar a a' ha ha' with e | e | e
    · exact e
    · exfalso; unfold sizeof_Header sizeof_Arena at *; omega
    · exfalso; unfold sizeof_Header sizeof_Arena at *; omega
  subst hsame
  refine ⟨hadj', hlt, ⟨al, h.ar.achain, a, ha, ⟨?_, ?_⟩, ⟨?_, ?_⟩⟩, ?_⟩
  · unfold sizeof_Arena at a1; omega
  · unfold sizeof_Header at a2; omega
  · unfold sizeof_Arena at a1'; omega
  · unfold sizeof_Header at a2'; omega
  · rintro ⟨al2, hal2, c, hc, e⟩
    have : al2 = al := arenaChain_unique s _ _ _ hal2 h.ar.achain
    subst this
    have hcb := (h.ar.abound c hc).1
    rcases arena_disj s al2 h.ar a c ha hc with e' | e' | e'
    · subst e'; omega
    · unfold sizeof_Header sizeof_Arena at *; omega
    · unfold sizeof_Header sizeof_Arena at *; omega

theorem brk1_run : mfree 4 1048616 ovfC = Outcome.ok brk1 := free_ok _ (by decide!)

theorem brk2_run :
    mmalloc 4 MAP_FAILED MAP_FAILED 1048684 brk1 = Outcome.ok (1048616, brk2) :=
  run_ok _ _ (by decide!) (by decide!)

theorem brk1_reach : Reach SIZE_MAX brk1 [2097192] :=
  Reach.free ovfC brk1 [1048616, 2097192] 4 1048616 ovfC_reach (by decide) brk1_run

theorem brk2_reach : Reach SIZE_MAX brk2 [1048616, 2097192] :=
  Reach.malloc brk1 brk2 [2097192] 4 MAP_FAILED MAP_FAILED 1048684 1048616 brk1_reach
    (by decide) (by decide) (pages_none brk1 _) brk2_run

/-- C18, the code at the failing input: `mmalloc(1)`, `mmalloc(2^64 - 24)`,
`mfree` of the
second reference and `mmalloc(1048684)` (valid calls, the two arenas at `pageA`
and `pageB` are disjoint) reach a state in which the block at `pageB + 16` has
as list successor the free header at 2097300, which lies in the arena at
`pageA`.  In `mfree` of the last reference `hdr_can_merge(left, right)` holds
for this pair and `hdr_merge` is executed, though the two headers lie in
different arenas. -/
theorem C18_merge_across_arenas :
    Reach SIZE_MAX brk2 [1048616, 2097192] ∧ IsArenaList brk2 [pageA, pageB] ∧
      (brk2.arenas pageA).size = 131072 ∧ (brk2.arenas pageB).size = 131072 ∧
      ((setAsize brk2 1048592 0).hdrs 1048592).next = 2097300 ∧
      hdr_can_merge 1048592 2097300 (setAsize brk2 1048592 0) = true ∧
      InArena brk2 pageB 1048592 ∧ InArena brk2 pageA 2097300 ∧
      ¬ SameArena (setAsize brk2 1048592 0) 1048592 2097300 ∧
      mfree 4 1048616 brk2 = Outcome.ok brk3 ∧
      brk3.hdrs 1048592 = ⟨1048592, 18446744073709551592, 0⟩ := by
  refine ⟨brk2_reach, by decide!, by decide!, by decide!, by decide!, by decide!,
    by unfold InArena; decide!, by unfold InArena; decide!, ?_, free_ok _ (by decide!),
    by decide!⟩
  rintro ⟨al, hal, a, ha, ⟨h1, h2⟩, ⟨h3, h4⟩⟩
  have hal2 : IsArenaList (setAsize brk2 1048592 0) [pageA, pageB] := by decide!
  have : al = [pageA, pageB] := arenaChain_unique _ _ _ _ hal hal2
  subst this
  simp only [List.mem_cons, List.mem_singleton, List.not_mem_nil, or_false] at ha
  rcases ha with rfl | rfl
  · revert h1; decide
  · revert h4; decide!

/-- Where the size arithmetic does not wrap: in every heap state reached by
valid calls with sizes up to `MAXREQ`, for every live reference `p` with header `hdr`: when
`hdr_can_merge(hdr, hdr->next)` holds in `mfree(p)` (after `hdr->asize = 0`),
when `hdr_can_merge(prev, hdr)` holds for the predecessor found afterwards, and
when the free successor of `hdr` is adjacent in `mrealloc(p, ..)`, the left
block is below the right one, both lie in one arena, and the right one is not
the first block of an arena; and in every such state with an arena the search
anchor and the cursor of `hdr_ctor` are members of the block list. -/
theorem reach_merges_stay_in_arena (s : Heap) (L : List Nat) (h : Reach MAXREQ s L) :
    (∀ p ∈ L,
      (hdr_can_merge (p - sizeof_Header)
          ((setAsize s (p - sizeof_Header) 0).hdrs (p - sizeof_Header)).next
          (setAsize s (p - sizeof_Header) 0) = true →
        MergeInArena (setAsize s (p - sizeof_Header) 0) (p - sizeof_Header)
          ((setAsize s (p - sizeof_Header) 0).hdrs (p - sizeof_Header)).next) ∧
      (∀ fuel prev,
        hdr_get_prev fuel (p - sizeof_Header)
          (mfree_fwd (p - sizeof_Header) (setAsize s (p - sizeof_Header) 0)) = some prev →
        hdr_can_merge prev (p - sizeof_Header)
          (mfree_fwd (p - sizeof_Header) (setAsize s (p - sizeof_Header) 0)) = true →
        MergeInArena (mfree_fwd (p - sizeof_Header) (setAsize s (p - sizeof_Header) 0))
          prev (p - sizeof_Header)) ∧
      ((s.hdrs (s.hdrs (p - sizeof_Header)).next).asize = 0 →
        add64 (add64 (p - sizeof_Header) (s.hdrs (p - sizeof_Header)).size) sizeof_Header
          = (s.hdrs (p - sizeof_Header)).next →
        MergeInArena s (p - sizeof_Header) (s.hdrs (p - sizeof_Header)).next)) ∧
    (s.first_arena ≠ 0 →
      ∃ bl, IsBlockList s bl ∧ anchor s ∈ bl ∧ s.ctor_temp ∈ bl) := by
  obtain ⟨al, bl, hw⟩ := reach_wf s L h
  constructor
  · intro p hp
    obtain ⟨b, hb, hbu, hpb⟩ := (hw.live p).1 hp
    have hsub : p - sizeof_Header = b := by omega
    rw [hsub]
    have hL : ∀ q, q ∈ L.filter (fun q => decide (q ≠ p)) ↔
        (q ∈ L ∧ q ≠ b + sizeof_Header) ∨ ((0 : Nat) ≠ 0 ∧ q = b + sizeof_Header) := by
      intro q
      simp [List.mem_filter, hpb]
    have hwf1 := wf_setAsize s al bl L _ b 0 hw hb (Nat.zero_le _) hL
    have hal := wf_al_ne s al bl L hw b hb
    refine ⟨?_, ?_, ?_⟩
    · intro hc
      generalize setAsize s b 0 = s1 at *
      obtain ⟨c1, -, -⟩ := (hdr_can_merge_iff _ _ s1).1 hc
      have hnm := ring_next_mem s1 bl b (hwf1.ring hal) hb
      exact (wf_adjacent s1 al bl _ hwf1 b _ hb hnm c1).2
    · intro fuel prev hprev hc
      generalize setAsize s b 0 = s1 at *
      obtain ⟨t, hwfr, hperm⟩ := wf_rotate s1 al bl _ hwf1 b hb
      obtain ⟨t2, hwf2, -, -⟩ := wf_forward s1 al t _ b hwfr
      have hs2 : mfree_fwd b s1 = (if b < (s1.hdrs b).next ∧
          hdr_can_merge b (s1.hdrs b).next s1 = true
          then hdr_merge b (s1.hdrs b).next s1 else s1) := rfl
      rw [← hs2] at hwf2
      generalize mfree_fwd b s1 = s2 at *
      have hpm : prev ∈ b :: t2 := by
        rcases wf_backward s2 al t2 _ b fuel hwf2 with e | ⟨e, -⟩
        · rw [e] at hprev
          cases hprev
          rcases List.eq_nil_or_concat t2 with e' | ⟨t', q, e'⟩
          · subst e'; simp
          · subst e'; simp
        · rw [e] at hprev; cases hprev
      obtain ⟨c1, -, -⟩ := (hdr_can_merge_iff _ _ s2).1 hc
      exact (wf_adjacent s2 al _ _ hwf2 prev b hpm (by simp) c1).2
    · intro _ c1
      have hnm := ring_next_mem s bl b (hw.ring hal) hb
      exact (wf_adjacent s al bl _ hw b _ hb hnm c1).2
  · intro hne
    have hal : al ≠ [] := fun e => hne ((arenaChain_first s al _ hw.ar.achain).2 e)
    obtain ⟨bl', hbl', hperm⟩ := wf_isBlockList s al bl L hw
    refine ⟨bl', hbl', hperm.mem_iff.2 (wf_anchor s al bl L hw hal).2.2, ?_⟩
    obtain ⟨a, ha, e⟩ := hw.ctemp hal
    rw [e]
    exact hperm.mem_iff.2 (hw.firsts a ha)

/-- Example for `reach_merges_stay_in_arena`: in `demo4` (used 10, free 20, used 30, free rest) the release
of the third block finds its successor, the free rest, mergeable. -/
theorem reach_merges_stay_in_arena_demo :
    Reach MAXREQ demo4 [2097270, 2097192] ∧
      hdr_can_merge (2097270 - sizeof_Header)
        ((setAsize demo4 (2097270 - sizeof_Header) 0).hdrs (2097270 - sizeof_Header)).next
        (setAsize demo4 (2097270 - sizeof_Header) 0) = true ∧
      MergeInArena (setAsize demo4 (2097270 - sizeof_Header) 0) (2097270 - sizeof_Header)
        ((setAsize demo4 (2097270 - sizeof_Header) 0).hdrs (2097270 - sizeof_Header)).next :=
  ⟨demo4_reach, by decide!,
    ((reach_merges_stay_in_arena demo4 _ demo4_reach).1 2097270 (by simp)).1 (by decide!)⟩

/-! ## The invariant with coalescing, along `mmalloc` -/

theorem nfp_perm (s : Heap) (bl bl' : List Nat) (hp : List.Perm bl' bl)
    (h : NoFreePair s bl) : NoFreePair s bl' :=
  fun l hl => h l (hp.mem_iff.1 hl)

theorem arena_step_hdrs (a mm req : Nat) (s : Heap) :
    (arena_append a (arena_alloc mm req s).2).hdrs = s.hdrs := by
  unfold arena_append arena_alloc
  split_ifs <;> rfl

theorem arena_step_ctor_temp (a mm req : Nat) (s : Heap) :
    (arena_append a (arena_alloc mm req s).2).ctor_temp = s.ctor_temp := by
  unfold arena_append arena_alloc
  split_ifs <;> rfl

/-- Which headers a new arena touches: the new one and the one under the
cursor of `hdr_ctor`, whose `next` becomes the new header. -/
theorem new_arena_hdrs (mm size : Nat) (s s' : Heap) (nh : Nat)
    (h : new_arena mm size s = Outcome.ok (nh, s')) :
    (∀ x, x ≠ nh → x ≠ s.ctor_temp → s'.hdrs x = s.hdrs x) ∧
    (s.ctor_temp ≠ 0 → s.ctor_temp ≠ nh → (s'.hdrs s.ctor_temp).next = nh) := by
  unfold new_arena at h
  simp only [] at h
  split_ifs at h with h0
  simp only [Outcome.ok.injEq, Prod.mk.injEq] at h
  obtain ⟨rfl, rfl⟩ := h
  have e1 := arena_step_hdrs (arena_alloc mm
    (allign_page (add64 (add64 size sizeof_Header) sizeof_Arena)) s).1 mm
    (allign_page (add64 (add64 size sizeof_Header) sizeof_Arena)) s
  have e2 := arena_step_ctor_temp (arena_alloc mm
    (allign_page (add64 (add64 size sizeof_Header) sizeof_Arena)) s).1 mm
    (allign_page (add64 (add64 size sizeof_Header) sizeof_Arena)) s
  generalize arena_append (arena_alloc mm
    (allign_page (add64 (add64 size sizeof_Header) sizeof_Arena)) s).1 (arena_alloc mm
    (allign_page (add64 (add64 size sizeof_Header) sizeof_Arena)) s).2 = s2 at *
  generalize (arena_alloc mm
    (allign_page (add64 (add64 size sizeof_Header) sizeof_Arena)) s).1 + sizeof_Arena
    = nh at *
  generalize sub64 (sub64 (s2.arenas (arena_alloc mm
    (allign_page (add64 (add64 size sizeof_Header) sizeof_Arena)) s).1).size sizeof_Header)
    sizeof_Arena = sz at *
  obtain ⟨-, -, -, c4, -, c6, -⟩ := hdr_ctor_spec s2 nh sz
  rw [e2] at c4 c6
  constructor
  · intro x hx hc
    rw [c4 x hx hc, e1]
  · intro hc hn
    exact (c6 hc hn).2

/-- Taking the free block at the head of the ring, with what it does to the
other headers and to coalescing. -/
theorem take_full (s : Heap) (al t L : List Nat) (b size : Nat) (Y : Heap)
    (h : WF s al (b :: t) L) (hfree : (s.hdrs b).asize = 0)
    (hfit : size ≤ (s.hdrs b).size) (hpos : 0 < size)
    (hY : Y = setAsize (if hdr_should_split b size s = true then (hdr_split b size s).2
      else s) b size) :
    ∃ bl', WF Y al bl' ((b + sizeof_Header) :: L) ∧
      (NoFreePair s (b :: t) → NoFreePair Y bl') ∧ bl'.length ≤ t.length + 2 ∧
      (∀ x ∈ b :: t, x ∈ bl') ∧ (∀ x ∈ t, Y.hdrs x = s.hdrs x) ∧
      (Y.hdrs b).asize = size ∧ size ≤ (Y.hdrs b).size ∧ Y.bytes = s.bytes ∧
      Y.arenas = s.arenas ∧ Y.first_arena = s.first_arena := by
  have hal := wf_al_ne s al _ L h b (by simp)
  have hring : Ring s (b :: t) := h.ring hal
  have hnd := wf_nodup s al _ L h
  have hbt : b ∉ t := (List.nodup_cons.1 hnd).1
  have hbb := wf_block_bound s al _ L h b (by simp)
  have hadd : add64 (add64 sizeof_Header size) 1 = sizeof_Header + size + 1 := by
    unfold add64 W sizeof_Header sizeof_Arena at *; omega
  have hL : ∀ p, p ∈ (b + sizeof_Header) :: L ↔
      (p ∈ L ∧ p ≠ b + sizeof_Header) ∨ (size ≠ 0 ∧ p = b + sizeof_Header) := by
    intro p
    simp only [List.mem_cons]
    constructor
    · rintro (e | e)
      · exact Or.inr ⟨by omega, e⟩
      · by_cases e' : p = b + sizeof_Header
        · exact Or.inr ⟨by omega, e'⟩
        · exact Or.inl ⟨e, e'⟩
    · rintro (⟨e, _⟩ | ⟨_, e⟩)
      · exact Or.inr e
      · exact Or.inl e
  by_cases hs : sizeof_Header + size + 1 ≤ (s.hdrs b).size
  · have hss : hdr_should_split b size s = true := by
      simp [hdr_should_split, hadd, hs]
    rw [if_pos hss] at hY
    obtain ⟨-, e_b, e_r, e_o, e3, e1, -, -, e5⟩ := hdr_split_spec s b size hbb.2 hs
    have hwf1 := wf_split s al t L b size h hs hfree
    generalize (hdr_split b size s).2 = X at *
    have hn : size ≤ (X.hdrs b).size := by rw [e_b]
    have hwf2 := wf_setAsize X al _ L _ b size hwf1 (List.mem_cons_self _ _) hn hL
    have hnd2 := wf_nodup X al _ L hwf1
    have hrb : b + sizeof_Header + size ≠ b := by unfold sizeof_Header; omega
    have hrt : b + sizeof_Header + size ∉ t :=
      (List.nodup_cons.1 (List.nodup_cons.1 hnd2).2).1
    have hYb : Y.hdrs b = ⟨b + sizeof_Header + size, size, size⟩ := by
      rw [hY, setAsize_hdrs, if_pos rfl, e_b]
    have hYr : Y.hdrs (b + sizeof_Header + size)
        = ⟨(s.hdrs b).next, (s.hdrs b).size - size - sizeof_Header, 0⟩ := by
      rw [hY, setAsize_hdrs, if_neg hrb, e_r]
    have hYo : ∀ x, x ≠ b → x ≠ b + sizeof_Header + size → Y.hdrs x = s.hdrs x := by
      intro x h1 h2
      rw [hY, setAsize_hdrs, if_neg h1]
      exact e_o x h1 h2
    have hYy : Y.bytes = s.bytes := by rw [hY, setAsize_bytes]; exact e5
    have hYa : Y.arenas = s.arenas := by rw [hY, setAsize_arenas]; exact e3
    have hYf : Y.first_arena = s.first_arena := by rw [hY, setAsize_first_arena]; exact e1
    rw [← hY] at hwf2
    clear hY
    refine ⟨_, hwf2, ?_, by simp, ?_, ?_, by rw [hYb], by rw [hYb], hYy, hYa, hYf⟩
    · intro hnf l hl hlf hmf hadj
      simp only [List.mem_cons] at hl
      rcases hl with e | e | hl
      · rw [e, hYb] at hlf
        simp only [] at hlf
        omega
      · rw [e, hYr] at hmf hadj
        simp only [] at hmf hadj
        have hnm := ring_next_mem s _ b hring (List.mem_cons_self _ _)
        rcases List.mem_cons.1 hnm with e' | e'
        · rw [e', hYb] at hmf
          simp only [] at hmf
          omega
        · have hne1 : (s.hdrs b).next ≠ b := fun e'' => hbt (e'' ▸ e')
          have hne2 : (s.hdrs b).next ≠ b + sizeof_Header + size := fun e'' => hrt (e'' ▸ e')
          rw [hYo _ hne1 hne2] at hmf
          exact hnf b (List.mem_cons_self _ _) hfree hmf (by omega)
      · have hlb : l ≠ b := fun e => hbt (e ▸ hl)
        have hlr : l ≠ b + sizeof_Header + size := fun e => hrt (e ▸ hl)
        rw [hYo l hlb hlr] at hlf hmf hadj
        have hnm := ring_next_mem s _ l hring (List.mem_cons_of_mem _ hl)
        rcases List.mem_cons.1 hnm with e' | e'
        · rw [e', hYb] at hmf
          simp only [] at hmf
          omega
        · have hne1 : (s.hdrs l).next ≠ b := fun e'' => hbt (e'' ▸ e')
          have hne2 : (s.hdrs l).next ≠ b + sizeof_Header + size := fun e'' => hrt (e'' ▸ e')
          rw [hYo _ hne1 hne2] at hmf
          exact hnf l (List.mem_cons_of_mem _ hl) hlf hmf hadj
    · intro x hx
      rcases List.mem_cons.1 hx with e | e
      · rw [e]; exact List.mem_cons_self _ _
      · exact List.mem_cons_of_mem _ (List.mem_cons_of_mem _ e)
    · intro x hx
      exact hYo x (fun e => hbt (e ▸ hx)) (fun e => hrt (e ▸ hx))
  · have hss : ¬ hdr_should_split b size s = true := by
      simp [hdr_should_split, hadd]; omega
    rw [if_neg hss] at hY
    have hwf2 := wf_setAsize s al _ L _ b size h (List.mem_cons_self _ _) hfit hL
    have hYb : Y.hdrs b = { s.hdrs b with asize := size } := by
      rw [hY, setAsize_hdrs, if_pos rfl]
    have hYo : ∀ x, x ≠ b → Y.hdrs x = s.hdrs x := by
      intro x h1
      rw [hY, setAsize_hdrs, if_neg h1]
    rw [← hY] at hwf2
    refine ⟨_, hwf2, ?_, by simp, fun x hx => hx, ?_, by rw [hYb], by rw [hYb]; exact hfit,
      by rw [hY]; rfl, by rw [hY]; rfl, by rw [hY]; rfl⟩
    · intro hnf l hl hlf hmf hadj
      rcases List.mem_cons.1 hl with e | hl
      · rw [e, hYb] at hlf
        simp only [] at hlf
        omega
      · have hlb : l ≠ b := fun e => hbt (e ▸ hl)
        rw [hYo l hlb] at hlf hmf hadj
        by_cases e' : (s.hdrs l).next = b
        · rw [e', hYb] at hmf
          simp only [] at hmf
          omega
        · rw [hYo _ e'] at hmf
          exact hnf l (List.mem_cons_of_mem _ hl) hlf hmf hadj
    · intro x hx
      exact hYo x (fun e => hbt (e ▸ hx))

/-- A new arena creates no free pair: its block ends where the arena ends,
and no older block ends where it starts. -/
theorem new_arena_nfp (s s1 : Heap) (al bl t L : List Nat) (mm size : Nat)
    (h : WF s al bl L)
    (hrun : new_arena mm size s = Outcome.ok (mm + sizeof_Arena, s1))
    (hw1 : WF s1 (al ++ [mm]) ((mm + sizeof_Arena) :: t) L) (hperm : List.Perm t bl)
    (hsz : (s1.hdrs (mm + sizeof_Arena)).size
      = arena_request size - sizeof_Header - sizeof_Arena)
    (hasz : (s1.arenas mm).size = arena_request size)
    (hframe : ∀ x ∈ bl, (s1.hdrs x).size = (s.hdrs x).size ∧
      (s1.hdrs x).asize = (s.hdrs x).asize)
    (hn : NoFreePair s bl) : NoFreePair s1 ((mm + sizeof_Arena) :: t) := by
  intro l hl hlf hmf hadj
  have hal1 : al ++ [mm] ≠ [] := by simp
  have hring1 := hw1.ring hal1
  have hnd1 := wf_nodup s1 _ _ L hw1
  have hNt : mm + sizeof_Arena ∉ t := (List.nodup_cons.1 hnd1).1
  have hm := ring_next_mem s1 _ l hring1 hl
  have hmb := wf_block_bound s1 _ _ L hw1 _ hm
  have hadd : add64 (add64 l (s1.hdrs l).size) sizeof_Header = (s1.hdrs l).next :=
    add64_adj l _ _ hadj (by unfold sizeof_Header at hmb; omega)
  obtain ⟨-, hlt, ⟨al2, hal2, a, ha, ⟨i1, i2⟩, ⟨i3, i4⟩⟩, hnf⟩ :=
    wf_adjacent s1 _ _ _ hw1 l _ hl hm hadd
  have hal2e : al2 = al ++ [mm] := arenaChain_unique s1 _ _ _ hal2 hw1.ar.achain
  subst hal2e
  have hmm : mm ∈ al ++ [mm] := by simp
  have hmN : (s1.hdrs l).next ≠ mm + sizeof_Arena := by
    intro e
    exact hnf ⟨al ++ [mm], hw1.ar.achain, mm, hmm, e⟩
  have hab := (hw1.ar.abound mm hmm).1
  have hlN : l ≠ mm + sizeof_Arena := by
    intro e
    subst e
    rw [hsz] at hadj
    rw [hasz] at hab
    rcases arena_disj s1 _ hw1.ar a mm ha hmm with e' | e' | e'
    · subst e'
      rw [hasz] at i4
      unfold sizeof_Header sizeof_Arena at *; omega
    · unfold sizeof_Header sizeof_Arena at *; omega
    · rw [hasz] at e'
      unfold sizeof_Header sizeof_Arena at *; omega
  have hlt' : l ∈ t := by
    rcases List.mem_cons.1 hl with e | e
    · exact absurd e hlN
    · exact e
  have hmt : (s1.hdrs l).next ∈ t := by
    rcases List.mem_cons.1 hm with e | e
    · exact absurd e hmN
    · exact e
  have hlbl : l ∈ bl := hperm.mem_iff.1 hlt'
  have hmbl : (s1.hdrs l).next ∈ bl := hperm.mem_iff.1 hmt
  obtain ⟨f1, f2⟩ := new_arena_hdrs mm size s s1 _ hrun
  have hlb := wf_block_bound s al bl L h l hlbl
  by_cases hc : l = s.ctor_temp
  · have hc0 : s.ctor_temp ≠ 0 := by
      rw [← hc]; unfold sizeof_Arena at hlb; omega
    have := f2 hc0 (by rw [← hc]; exact hlN)
    rw [← hc] at this
    exact hmN this
  · have hsame := f1 l hlN hc
    rw [hsame] at hlf hmf hadj hmbl
    rw [(hframe _ hmbl).2] at hmf
    exact hn l hlbl hlf hmf hadj

/-- The tail of `mmalloc`: invariant, coalescing, length of the list, and
the headers of the used blocks. -/
theorem mmalloc_search_full (s : Heap) (al bl L : List Nat) (fuel mm2 size p : Nat)
    (s' : Heap) (h : WF s al bl L) (hal : al ≠ []) (hpos : 0 < size) (hB : size ≤ MAXREQ)
    (hpg : FreshPage s mm2 (arena_request size))
    (hrun : mmalloc_search fuel mm2 size s = Outcome.ok (p, s')) :
    ∃ al' bl', WF s' al' bl' (p :: L) ∧ (NoFreePair s bl → NoFreePair s' bl') ∧
      bl'.length ≤ bl.length + 2 ∧
      (∀ x ∈ bl, x ∈ bl' ∧ ((s.hdrs x).asize ≠ 0 →
        (s'.hdrs x).asize = (s.hdrs x).asize ∧ (s'.hdrs x).size = (s.hdrs x).size)) ∧
      p ∉ L ∧ sizeof_Header ≤ p ∧ (s'.hdrs (p - sizeof_Header)).asize = size ∧
      size ≤ (s'.hdrs (p - sizeof_Header)).size ∧ s'.bytes = s.bytes := by
  obtain ⟨t, hperm, hring, hnd, -, hff⟩ := wf_first_fit s al bl L size h hal
  have hsub : ∀ b : Nat, b + sizeof_Header - sizeof_Header = b := fun b => by omega
  unfold mmalloc_search at hrun
  rcases hff fuel with e | e
  · rw [e] at hrun; cases hrun
  rw [e] at hrun
  cases hfind : (t ++ [anchor s]).find? (fits s size) with
  | some b =>
    rw [hfind] at hrun
    simp only [Option.getD_some] at hrun
    have hbmem : b ∈ bl := by
      have := List.mem_of_find?_eq_some hfind
      apply hperm.mem_iff.1
      simp only [List.mem_append, List.mem_singleton, List.mem_cons] at this ⊢
      tauto
    have hfits := List.find?_some hfind
    simp only [fits, decide_eq_true_eq] at hfits
    have hb0 : b ≠ 0 := by
      have := (wf_block_bound s al bl L h b hbmem).1
      unfold sizeof_Arena at this; omega
    rw [if_pos hb0] at hrun
    obtain ⟨t', hwf', hperm'⟩ := wf_rotate s al bl L h b hbmem
    have hp : p = b + sizeof_Header := by cases hrun; rfl
    have hs' : s' = setAsize (if hdr_should_split b size s = true
        then (hdr_split b size s).2 else s) b size := by cases hrun; rfl
    obtain ⟨bl', k1, k2, k3, k4, k5, k6, k7, k8, -, -⟩ :=
      take_full s al t' L b size s' hwf' hfits.1 hfits.2 hpos hs'
    clear hrun hs'
    subst hp
    have hlen : t'.length + 1 = bl.length := by
      have := hperm'.length_eq
      simpa using this
    refine ⟨al, bl', k1, fun hn => k2 (nfp_perm s bl _ hperm' hn), by omega, ?_, ?_,
      by omega, by rw [hsub]; exact k6, by rw [hsub]; exact k7, k8⟩
    · intro x hx
      have hx' : x ∈ b :: t' := hperm'.mem_iff.2 hx
      refine ⟨k4 x hx', fun hu => ?_⟩
      rcases List.mem_cons.1 hx' with e' | e'
      · rw [e'] at hu; exact absurd hfits.1 hu
      · rw [k5 x e']; exact ⟨rfl, rfl⟩
    · intro hm
      obtain ⟨x, _, hx1, hx2⟩ := (h.live _).1 hm
      have : x = b := by omega
      subst this
      exact hx1 hfits.1
  | none =>
    rw [hfind] at hrun
    simp only [Option.getD_none, ne_eq, not_true_eq_false, if_false] at hrun
    have hmm : mm2 ≠ MAP_FAILED := by
      intro e'
      have : new_arena mm2 size s = Outcome.fault := by
        simp [new_arena, arena_alloc, e']
      rw [this] at hrun
      cases hrun
    obtain ⟨s1, t1, n1, n2, n3, n4, n5, n6, n7, -, n9, -⟩ :=
      wf_new_arena s al bl L mm2 size h hB hmm hpg
    rw [n1] at hrun
    simp only [] at hrun
    obtain ⟨hr1, -, -, -⟩ := arena_request_bound size hB
    have hfit : size ≤ (s1.hdrs (mm2 + sizeof_Arena)).size := by
      rw [n4]; omega
    have hp : p = mm2 + sizeof_Arena + sizeof_Header := by cases hrun; rfl
    have hs' : s' = setAsize (if hdr_should_split (mm2 + sizeof_Arena) size s1 = true
        then (hdr_split (mm2 + sizeof_Arena) size s1).2 else s1)
        (mm2 + sizeof_Arena) size := by cases hrun; rfl
    obtain ⟨bl', k1, k2, k3, k4, k5, k6, k7, k8, -, -⟩ :=
      take_full s1 (al ++ [mm2]) t1 L (mm2 + sizeof_Arena) size s' n2 n5 hfit hpos hs'
    clear hrun hs'
    subst hp
    have hlen : t1.length = bl.length := n3.length_eq
    refine ⟨al ++ [mm2], bl', k1,
      fun hn => k2 (new_arena_nfp s s1 al bl t1 L mm2 size h n1 n2 n3 n4 n9 n6 hn),
      by omega, ?_, ?_, by omega, by rw [hsub]; exact k6, by rw [hsub]; exact k7,
      by rw [k8, n7]⟩
    · intro x hx
      have hx' : x ∈ t1 := n3.mem_iff.2 hx
      refine ⟨k4 x (List.mem_cons_of_mem _ hx'), fun _ => ?_⟩
      rw [k5 x hx']
      exact ⟨(n6 x hx).2, (n6 x hx).1⟩
    · intro hm
      obtain ⟨x, hx0, hx1, hx2⟩ := (h.live _).1 hm
      have hx : x = mm2 + sizeof_Arena := by omega
      have hnd1 := wf_nodup s1 _ _ L n2
      have hxt : x ∈ t1 := n3.mem_iff.2 hx0
      exact (List.nodup_cons.1 hnd1).1 (hx ▸ hxt)

/-- Function `mmalloc`: invariant, coalescing, length of the list, and the headers of
the used blocks. -/
theorem mmalloc_full (s : Heap) (al bl L : List Nat) (fuel mm1 mm2 size p : Nat) (s' : Heap)
    (h : WF s al bl L) (hpos : 0 < size) (hB : size ≤ MAXREQ) (hpg : Pages s mm1 mm2 size)
    (hrun : mmalloc fuel mm1 mm2 size s = Outcome.ok (p, s')) :
    ∃ al' bl', WF s' al' bl' (p :: L) ∧ (NoFreePair s bl → NoFreePair s' bl') ∧
      bl'.length ≤ bl.length + 3 ∧
      (∀ x ∈ bl, x ∈ bl' ∧ ((s.hdrs x).asize ≠ 0 →
        (s'.hdrs x).asize = (s.hdrs x).asize ∧ (s'.hdrs x).size = (s.hdrs x).size)) ∧
      p ∉ L ∧ sizeof_Header ≤ p ∧ (s'.hdrs (p - sizeof_Header)).asize = size ∧
      size ≤ (s'.hdrs (p - sizeof_Header)).size ∧ s'.bytes = s.bytes := by
  unfold mmalloc at hrun
  by_cases hf : s.first_arena = 0
  · rw [if_pos hf] at hrun
    have hal : al = [] := (arenaChain_first s al _ h.ar.achain).1 hf
    subst hal
    have hbl : bl = [] := (h.empty rfl).1
    subst hbl
    by_cases hmm : mm1 = MAP_FAILED
    · rw [new_arena_fault mm1 size s hmm] at hrun
      cases hrun
    obtain ⟨s1, t1, n1, n2, n3, n4, n5, n6, n7, -, n9, -⟩ :=
      wf_new_arena s [] [] L mm1 size h hB hmm hpg.1
    rw [n1] at hrun
    simp only [] at hrun
    have hpg2 : FreshPage s1 mm2 (arena_request size) := by
      rcases hpg.2.1 with e | ⟨e1, e2, e3, -⟩
      · exact Or.inl e
      · refine Or.inr ⟨e1, e2, e3, ?_⟩
        intro al' hal' a ha
        have : al' = [] ++ [mm1] := arenaChain_unique s1 _ _ _ hal' n2.ar.achain
        subst this
        simp only [List.nil_append, List.mem_singleton] at ha
        subst ha
        rw [n9]
        have hne2 : mm2 ≠ MAP_FAILED := by
          obtain ⟨-, hr2, -, -⟩ := arena_request_bound size hB
          clear n1 n2 hrun hpg h
          unfold MAP_FAILED W PAGE_SIZE at *; omega
        rcases hpg.2.2 hmm hne2 with e | e
        · exact Or.inr e
        · exact Or.inl e
    have ht1 : t1 = [] := List.Perm.eq_nil n3
    subst ht1
    obtain ⟨al', bl', k1, k2, k3, -, k5, k6, k7, k8, k9⟩ :=
      mmalloc_search_full s1 _ _ L fuel mm2 size p s' n2 (by simp) hpos hB hpg2 hrun
    refine ⟨al', bl', k1,
      fun hn => k2 (new_arena_nfp s s1 [] [] [] L mm1 size h n1 n2 n3 n4 n9 n6 hn),
      by simpa using k3, fun x hx => by simp at hx, k5, k6, k7, k8, k9.trans n7⟩
  · rw [if_neg hf] at hrun
    have hal : al ≠ [] := fun e => hf ((arenaChain_first s al _ h.ar.achain).2 e)
    obtain ⟨al', bl', k1, k2, k3, k4, k5⟩ :=
      mmalloc_search_full s al bl L fuel mm2 size p s' h hal hpos hB hpg.2.1 hrun
    exact ⟨al', bl', k1, k2, by omega, k4, k5⟩

/-! ## The invariant with coalescing, along `mfree` -/

/-- Function `hdr_merge` never stores to `asize`. -/
theorem hdr_merge_asize (l r : Nat) (s : Heap) (x : Nat) :
    ((hdr_merge l r s).hdrs x).asize = (s.hdrs x).asize := by
  unfold hdr_merge
  simp only [setNext_hdrs, setSize_hdrs]
  split_ifs <;> first | rfl | (subst_vars; rfl)

theorem mfree_fwd_asize (b : Nat) (s : Heap) (x : Nat) :
    ((mfree_fwd b s).hdrs x).asize = (s.hdrs x).asize := by
  unfold mfree_fwd
  split_ifs
  · exact hdr_merge_asize _ _ _ _
  · rfl

theorem mfree_bwd_asize (prev b : Nat) (s : Heap) (x : Nat) :
    ((mfree_bwd prev b s).hdrs x).asize = (s.hdrs x).asize := by
  unfold mfree_bwd
  split_ifs
  · exact hdr_merge_asize _ _ _ _
  · rfl

theorem mfree_unfold_ptr (s : Heap) (fuel p : Nat) :
    mfree fuel p s =
      match hdr_get_prev fuel (p - sizeof_Header)
        (mfree_fwd (p - sizeof_Header) (setAsize s (p - sizeof_Header) 0)) with
      | none => Outcome.nofuel
      | some prev => Outcome.ok (mfree_bwd prev (p - sizeof_Header)
          (mfree_fwd (p - sizeof_Header) (setAsize s (p - sizeof_Header) 0))) := by
  unfold mfree mfree_fwd mfree_bwd
  rfl

/-- Function `mfree` stores `asize = 0` in the header of its argument and leaves every
other `asize` as it was. -/
theorem mfree_asize (s s' : Heap) (fuel p : Nat) (h : mfree fuel p s = Outcome.ok s') :
    (s'.hdrs (p - sizeof_Header)).asize = 0 ∧
      ∀ x, x ≠ p - sizeof_Header → (s'.hdrs x).asize = (s.hdrs x).asize := by
  rw [mfree_unfold_ptr] at h
  cases hq : hdr_get_prev fuel (p - sizeof_Header)
      (mfree_fwd (p - sizeof_Header) (setAsize s (p - sizeof_Header) 0)) with
  | none => rw [hq] at h; cases h
  | some prev =>
    rw [hq] at h
    simp only [Outcome.ok.injEq] at h
    subst h
    constructor
    · rw [mfree_bwd_asize, mfree_fwd_asize, setAsize_hdrs, if_pos rfl]
    · intro x hx
      rw [mfree_bwd_asize, mfree_fwd_asize, setAsize_hdrs, if_neg hx]

/-- The forward step of `mfree` on a block just marked free: afterwards the
only free pair that can be left has the block as its right-hand side. -/
theorem fwd_nfp (s1 : Heap) (al t L : List Nat) (b : Nat) (h : WF s1 al (b :: t) L)
    (hbf : (s1.hdrs b).asize = 0)
    (hP : ∀ l ∈ b :: t, (s1.hdrs l).asize = 0 → (s1.hdrs (s1.hdrs l).next).asize = 0 →
      l + sizeof_Header + (s1.hdrs l).size = (s1.hdrs l).next →
      l = b ∨ (s1.hdrs l).next = b) :
    ∃ t2, WF (mfree_fwd b s1) al (b :: t2) L ∧ t2.length ≤ t.length ∧
      ((mfree_fwd b s1).hdrs b).asize = 0 ∧
      (∀ l ∈ b :: t2, ((mfree_fwd b s1).hdrs l).asize = 0 →
        ((mfree_fwd b s1).hdrs ((mfree_fwd b s1).hdrs l).next).asize = 0 →
        l + sizeof_Header + ((mfree_fwd b s1).hdrs l).size = ((mfree_fwd b s1).hdrs l).next →
        ((mfree_fwd b s1).hdrs l).next = b) := by
  have hal := wf_al_ne s1 al _ L h b (by simp)
  have hring := h.ring hal
  have hnd := wf_nodup s1 al _ L h
  have hbt : b ∉ t := (List.nodup_cons.1 hnd).1
  by_cases hc : b < (s1.hdrs b).next ∧ hdr_can_merge b (s1.hdrs b).next s1 = true
  · have hs2 : mfree_fwd b s1 = hdr_merge b (s1.hdrs b).next s1 := by
      unfold mfree_fwd; rw [if_pos hc]
    rw [hs2]
    cases t with
    | nil =>
      have e : (s1.hdrs b).next = b := hring
      rw [e] at hc
      exact absurd hc.1 (lt_irrefl _)
    | cons r t' =>
      have e : (s1.hdrs b).next = r := hring.1
      rw [e] at hc ⊢
      obtain ⟨c1, -, c3⟩ := (hdr_can_merge_iff b r s1).1 hc.2
      have hbb := wf_block_bound s1 al _ L h b (by simp)
      have hrb := wf_block_bound s1 al _ L h r (by simp)
      have hr0 : r ≠ 0 := by unfold sizeof_Arena at hrb; omega
      have hadj := adj_of_add64 b r _ hbb.2 hr0 c1
      have hne : b ≠ r := by omega
      have hnw : (s1.hdrs b).size + (s1.hdrs r).size + sizeof_Header < W := by
        unfold sizeof_Header sizeof_Arena at *; omega
      obtain ⟨m1, m2, -⟩ := hdr_merge_spec s1 b r hne hnw
      have hw2 := wf_merge s1 al t' L b r h hadj c3
      have hrt : r ∉ t' := (List.nodup_cons.1 (List.nodup_cons.1 hnd).2).1
      generalize hdr_merge b r s1 = s2 at *
      refine ⟨t', hw2, by simp, by rw [m1]; exact hbf, ?_⟩
      intro l hl hlf hmf hadj2
      rcases List.mem_cons.1 hl with e' | hl'
      · subst e'
        rw [m1] at hmf hadj2 ⊢
        simp only [] at hmf hadj2 ⊢
        by_contra hx
        rw [m2 _ hx] at hmf
        rcases hP r (by simp) c3 hmf (by omega) with e' | e'
        · exact hne e'.symm
        · exact hx e'
      · have hlb : l ≠ b := fun e' => hbt (e' ▸ List.mem_cons_of_mem _ hl')
        rw [m2 l hlb] at hlf hmf hadj2 ⊢
        by_contra hx
        rw [m2 _ hx] at hmf
        rcases hP l (List.mem_cons_of_mem _ (List.mem_cons_of_mem _ hl')) hlf hmf hadj2
          with e' | e'
        · exact hlb e'
        · exact hx e'
  · have hs2 : mfree_fwd b s1 = s1 := by
      unfold mfree_fwd; rw [if_neg hc]
    rw [hs2]
    refine ⟨t, h, le_refl _, hbf, ?_⟩
    intro l hl hlf hmf hadj2
    rcases hP l hl hlf hmf hadj2 with e' | e'
    · exfalso
      subst e'
      apply hc
      have hm := ring_next_mem s1 _ l hring hl
      have hmb := wf_block_bound s1 al _ L h _ hm
      refine ⟨by unfold sizeof_Header at hadj2; omega, ?_⟩
      rw [hdr_can_merge_iff]
      exact ⟨add64_adj l _ _ hadj2 (by unfold sizeof_Header at hmb; omega), hlf, hmf⟩
    · exact e'

/-- The backward step of `mfree`: afterwards no free pair is left. -/
theorem bwd_nfp (s2 : Heap) (al t2 L : List Nat) (b : Nat) (h : WF s2 al (b :: t2) L)
    (hbf : (s2.hdrs b).asize = 0)
    (hP : ∀ l ∈ b :: t2, (s2.hdrs l).asize = 0 → (s2.hdrs (s2.hdrs l).next).asize = 0 →
      l + sizeof_Header + (s2.hdrs l).size = (s2.hdrs l).next → (s2.hdrs l).next = b) :
    ∃ bl', WF (mfree_bwd (t2.getLastD b) b s2) al bl' L ∧
      NoFreePair (mfree_bwd (t2.getLastD b) b s2) bl' ∧ bl'.length ≤ t2.length + 1 := by
  have hal := wf_al_ne s2 al _ L h b (by simp)
  have hring := h.ring hal
  have hnd := wf_nodup s2 al _ L h
  by_cases hc : t2.getLastD b < b ∧ hdr_can_merge (t2.getLastD b) b s2 = true
  · have hs3 : mfree_bwd (t2.getLastD b) b s2 = hdr_merge (t2.getLastD b) b s2 := by
      unfold mfree_bwd; rw [if_pos hc]
    rw [hs3]
    have hne : t2.getLastD b ≠ b := by omega
    obtain ⟨t', ht', hring'⟩ := ring_prev s2 b t2 hring hne
    have hpred : ∀ x ∈ b :: t2, (s2.hdrs x).next = b → t2.getLastD b = x :=
      fun x hx hn => ring_pred s2 b x t2 hring hnd hx hn
    generalize t2.getLastD b = prev at *
    have hperm : List.Perm (prev :: b :: t') (b :: t2) := by
      rw [ht']
      have : List.Perm (prev :: (b :: t')) ((b :: t') ++ [prev]) := by
        simpa using (List.perm_append_comm : List.Perm ([prev] ++ (b :: t')) ((b :: t') ++ [prev]))
      simpa using this
    have hwf' := wf_perm s2 al _ _ L h hperm (fun _ => hring')
    have hnd' := wf_nodup s2 al _ L hwf'
    obtain ⟨c1, c2, c3⟩ := (hdr_can_merge_iff prev b s2).1 hc.2
    have hpb := wf_block_bound s2 al _ L hwf' prev (by simp)
    have hbb := wf_block_bound s2 al _ L hwf' b (by simp)
    have hb0 : b ≠ 0 := by unfold sizeof_Arena at hbb; omega
    have hadj := adj_of_add64 prev b _ hpb.2 hb0 c1
    have hnw : (s2.hdrs prev).size + (s2.hdrs b).size + sizeof_Header < W := by
      unfold sizeof_Header sizeof_Arena at *; omega
    obtain ⟨m1, m2, -⟩ := hdr_merge_spec s2 prev b hne hnw
    have hw3 := wf_merge s2 al t' L prev b hwf' hadj c3
    have hpt : prev ∉ b :: t' := (List.nodup_cons.1 hnd').1
    have hbt' : b ∉ t' := (List.nodup_cons.1 (List.nodup_cons.1 hnd').2).1
    have hmem : ∀ l ∈ t', l ∈ b :: t2 := fun l hl =>
      hperm.mem_iff.1 (List.mem_cons_of_mem _ (List.mem_cons_of_mem _ hl))
    generalize hdr_merge prev b s2 = s3 at *
    refine ⟨_, hw3, ?_, by rw [ht']; simp⟩
    intro l hl hlf hmf hadj2
    rcases List.mem_cons.1 hl with e' | hl'
    · subst e'
      rw [m1] at hmf hadj2
      simp only [] at hmf hadj2
      have hx : (s2.hdrs b).next ≠ l := by
        intro e'
        rw [e'] at hadj2
        unfold sizeof_Header at *; omega
      rw [m2 _ hx] at hmf
      have := hP b (by simp) hbf hmf (by omega)
      rw [this] at hadj2
      unfold sizeof_Header at *; omega
    · have hlp : l ≠ prev := fun e' => hpt (e' ▸ List.mem_cons_of_mem _ hl')
      have hlb : l ≠ b := fun e' => hbt' (e' ▸ hl')
      rw [m2 l hlp] at hlf hmf hadj2
      by_cases hx : (s2.hdrs l).next = prev
      · have := hP l (hmem l hl') hlf (by rw [hx]; exact c2) hadj2
        rw [hx] at this
        exact hne this
      · rw [m2 _ hx] at hmf
        have hnb := hP l (hmem l hl') hlf hmf hadj2
        exact hlp (hpred l (hmem l hl') hnb).symm
  · have hs3 : mfree_bwd (t2.getLastD b) b s2 = s2 := by
      unfold mfree_bwd; rw [if_neg hc]
    rw [hs3]
    refine ⟨_, h, ?_, le_refl _⟩
    intro l hl hlf hmf hadj2
    have hnb := hP l hl hlf hmf hadj2
    have hpe := ring_pred s2 b l t2 hring hnd hl hnb
    apply hc
    rw [hpe]
    have hbb := wf_block_bound s2 al _ L h b (by simp)
    refine ⟨by unfold sizeof_Header at hadj2; omega, ?_⟩
    rw [hdr_can_merge_iff]
    rw [hnb] at hadj2 hmf
    exact ⟨add64_adj l b _ hadj2 (by unfold sizeof_Header at hbb; omega), hlf, hmf⟩

/-- Function `mfree` of a live reference keeps the heap coalesced. -/
theorem mfree_nfp (s : Heap) (al bl L : List Nat) (fuel p : Nat) (s' : Heap)
    (h : WF s al bl L) (hp : p ∈ L) (hn : NoFreePair s bl)
    (hrun : mfree fuel p s = Outcome.ok s') :
    ∃ bl', WF s' al bl' (L.filter (fun q => decide (q ≠ p))) ∧ NoFreePair s' bl' := by
  obtain ⟨b, hb, -, hpb⟩ := (h.live p).1 hp
  have hL : ∀ q, q ∈ L.filter (fun q => decide (q ≠ p)) ↔
      (q ∈ L ∧ q ≠ b + sizeof_Header) ∨ ((0 : Nat) ≠ 0 ∧ q = b + sizeof_Header) := by
    intro q
    simp [List.mem_filter, hpb]
  have hwf1 := wf_setAsize s al bl L _ b 0 h hb (Nat.zero_le _) hL
  have h1b : ((setAsize s b 0).hdrs b).asize = 0 := by rw [setAsize_at]
  have h1o : ∀ x, x ≠ b → (setAsize s b 0).hdrs x = s.hdrs x :=
    fun x hx => setAsize_other s b 0 x hx
  have hrun2 : mfree fuel (b + sizeof_Header) s = Outcome.ok s' := by rw [← hpb]; exact hrun
  rw [mfree_unfold] at hrun2
  generalize setAsize s b 0 = s1 at *
  obtain ⟨t, hwfr, hperm⟩ := wf_rotate s1 al bl _ hwf1 b hb
  have hP1 : ∀ l ∈ b :: t, (s1.hdrs l).asize = 0 → (s1.hdrs (s1.hdrs l).next).asize = 0 →
      l + sizeof_Header + (s1.hdrs l).size = (s1.hdrs l).next →
      l = b ∨ (s1.hdrs l).next = b := by
    intro l hl hlf hmf hadj
    by_contra hcon
    push_neg at hcon
    obtain ⟨c1, c2⟩ := hcon
    rw [h1o l c1] at hlf hmf hadj c2
    rw [h1o _ c2] at hmf
    exact hn l (hperm.mem_iff.1 hl) hlf hmf hadj
  obtain ⟨t2, hwf2, -, hbf2, hP2⟩ := fwd_nfp s1 al t _ b hwfr h1b hP1
  generalize mfree_fwd b s1 = s2 at *
  obtain ⟨bl', hwf3, hn3, -⟩ := bwd_nfp s2 al t2 _ b hwf2 hbf2 hP2
  rcases wf_backward s2 al t2 _ b fuel hwf2 with e | ⟨e, -⟩
  · rw [e] at hrun2
    simp only [Outcome.ok.injEq] at hrun2
    subst hrun2
    exact ⟨bl', hwf3, hn3⟩
  · rw [e] at hrun2; cases hrun2

/-! ## The invariant with coalescing, along `mrealloc` -/

/-- Storing a requested size that is not 0 creates no free pair. -/
theorem setAsize_nfp (s : Heap) (bl : List Nat) (b n : Nat) (hn : NoFreePair s bl)
    (hpos : n ≠ 0) : NoFreePair (setAsize s b n) bl := by
  intro l hl hlf hmf hadj
  by_cases e : l = b
  · subst e
    rw [setAsize_at] at hlf
    exact hpos hlf
  · rw [setAsize_other s b n l e] at hlf hmf hadj
    by_cases e2 : (s.hdrs l).next = b
    · rw [e2, setAsize_at] at hmf
      exact hpos hmf
    · rw [setAsize_other s b n _ e2] at hmf
      exact hn l hl hlf hmf hadj

/-- A used block that absorbs its list successor creates no free pair. -/
theorem merge_used_nfp (s : Heap) (t : List Nat) (b r : Nat) (hne : b ≠ r)
    (hnw : (s.hdrs b).size + (s.hdrs r).size + sizeof_Header < W)
    (hu : (s.hdrs b).asize ≠ 0) (hn : NoFreePair s (b :: r :: t)) :
    NoFreePair (hdr_merge b r s) (b :: t) := by
  obtain ⟨-, m2, -⟩ := hdr_merge_spec s b r hne hnw
  have mb := hdr_merge_asize b r s b
  generalize hdr_merge b r s = s2 at *
  intro l hl hlf hmf hadj
  by_cases e : l = b
  · subst e
    rw [mb] at hlf
    exact hu hlf
  · rw [m2 l e] at hlf hmf hadj
    have hl' : l ∈ b :: r :: t := by
      rcases List.mem_cons.1 hl with e' | e'
      · exact absurd e' e
      · exact List.mem_cons_of_mem _ (List.mem_cons_of_mem _ e')
    by_cases e2 : (s.hdrs l).next = b
    · rw [e2, mb] at hmf
      exact hu hmf
    · rw [m2 _ e2] at hmf
      exact hn l hl' hlf hmf hadj

/-- Function `mrealloc` of a live reference keeps the invariant and the heap
coalesced. -/
theorem mrealloc_nfp (s : Heap) (al bl L : List Nat) (fuel mm1 mm2 p size r : Nat)
    (s' : Heap) (h : WF s al bl L) (hn : NoFreePair s bl) (hp : p ∈ L) (hpos : 0 < size)
    (hB : size ≤ MAXREQ) (hpg : Pages s mm1 mm2 size)
    (hrun : mrealloc fuel mm1 mm2 p size s = Outcome.ok (r, s')) :
    ∃ al' bl', WF s' al' bl'
      (if r = 0 then L else r :: L.filter (fun q => decide (q ≠ p))) ∧
      NoFreePair s' bl' := by
  obtain ⟨b, hb, hbu, hpb⟩ := (h.live p).1 hp
  have hsub : p - sizeof_Header = b := by omega
  have hp0 : p ≠ 0 := by unfold sizeof_Header at hpb; omega
  unfold mrealloc at hrun
  simp only [] at hrun
  rw [hsub] at hrun
  by_cases c1 : (s.hdrs b).size = size
  · rw [if_pos c1] at hrun
    simp only [Outcome.ok.injEq, Prod.mk.injEq] at hrun
    obtain ⟨rfl, rfl⟩ := hrun
    rw [if_neg hp0]
    exact ⟨al, bl, wf_live_congr s al bl L _ h (live_replace L p hp), hn⟩
  rw [if_neg c1] at hrun
  by_cases c2 : (s.hdrs b).size > size
  · rw [if_pos c2] at hrun
    simp only [Outcome.ok.injEq, Prod.mk.injEq] at hrun
    obtain ⟨rfl, rfl⟩ := hrun
    rw [if_neg hp0]
    refine ⟨al, bl, wf_setAsize s al bl L _ b size h hb (le_of_lt c2) ?_,
      setAsize_nfp s bl b size hn (by omega)⟩
    intro q
    rw [live_replace L p hp q]
    constructor
    · intro hq
      by_cases e : q = b + sizeof_Header
      · exact Or.inr ⟨by omega, e⟩
      · exact Or.inl ⟨hq, e⟩
    · rintro (⟨e, _⟩ | ⟨_, e⟩)
      · exact e
      · rw [e, ← hpb]; exact hp
  rw [if_neg c2] at hrun
  obtain ⟨t, hwfr, hperm⟩ := wf_rotate s al bl L h b hb
  have hal := wf_al_ne s al bl L h b hb
  by_cases c3 : (s.hdrs (s.hdrs b).next).asize = 0 ∧
      add64 (add64 b (s.hdrs b).size) sizeof_Header = (s.hdrs b).next ∧
      add64 (add64 (s.hdrs (s.hdrs b).next).size (s.hdrs b).size) sizeof_Header > size
  · rw [if_pos c3] at hrun
    have hbb := wf_block_bound s al _ L hwfr b (by simp)
    have hb0 : b ≠ 0 := by unfold sizeof_Arena at hbb; omega
    have hring : Ring s (b :: t) := hwfr.ring hal
    cases t with
    | nil =>
      exfalso
      have e : (s.hdrs b).next = b := hring
      rw [e] at c3
      have := adj_of_add64 b b _ hbb.2 hb0 c3.2.1
      unfold sizeof_Header at this; omega
    | cons rr t' =>
      have e : (s.hdrs b).next = rr := hring.1
      rw [e] at c3 hrun
      have hrb := wf_block_bound s al _ L hwfr rr (by simp)
      have hr0 : rr ≠ 0 := by unfold sizeof_Arena at hrb; omega
      have hadj := adj_of_add64 b rr _ hbb.2 hr0 c3.2.1
      have hne : b ≠ rr := by unfold sizeof_Header at hadj; omega
      have hnw : (s.hdrs b).size + (s.hdrs rr).size + sizeof_Header < W := by
        unfold sizeof_Header sizeof_Arena at *; omega
      rw [absorb_eq s b rr size hne] at hrun
      simp only [Outcome.ok.injEq, Prod.mk.injEq] at hrun
      obtain ⟨rfl, rfl⟩ := hrun
      rw [if_neg hp0]
      have hw := (wf_absorb s al t' L b rr size hwfr hbu c3.1 hadj c3.2.2 hpos).1
      have hn2 := merge_used_nfp s t' b rr hne hnw hbu (nfp_perm s bl _ hperm hn)
      exact ⟨al, _, wf_live_congr _ al _ L _ hw (live_replace L p hp),
        setAsize_nfp _ _ b size hn2 (by omega)⟩
  · rw [if_neg c3] at hrun
    cases hm : mmalloc fuel mm1 mm2 size s with
    | fault => rw [hm] at hrun; cases hrun
    | nofuel => rw [hm] at hrun; cases hrun
    | ok v =>
      obtain ⟨np, s1⟩ := v
      rw [hm] at hrun
      simp only [] at hrun
      obtain ⟨al1, bl1, k1, kn, -, -, k2, k3, -, -, -⟩ :=
        mmalloc_full s al bl L fuel mm1 mm2 size np s1 h hpos hB hpg hm
      have hnp0 : np ≠ 0 := by unfold sizeof_Header at k3; omega
      rw [if_pos hnp0] at hrun
      have hw2 : WF (memcpy np p (s1.hdrs b).asize s1) al1 bl1 (np :: L) := by
        rw [memcpy_eq]; exact wf_bytes s1 al1 bl1 _ _ k1
      have hn2 : NoFreePair (memcpy np p (s1.hdrs b).asize s1) bl1 := kn hn
      generalize memcpy np p (s1.hdrs b).asize s1 = s2 at *
      have hpm : p ∈ np :: L := List.mem_cons_of_mem _ hp
      cases hf : mfree fuel p s2 with
      | fault => rw [hf] at hrun; cases hrun
      | nofuel => rw [hf] at hrun; cases hrun
      | ok s3 =>
        rw [hf] at hrun
        simp only [Outcome.ok.injEq, Prod.mk.injEq] at hrun
        obtain ⟨rfl, rfl⟩ := hrun
        obtain ⟨bl', k5, k6⟩ := mfree_nfp s2 al1 bl1 _ fuel p s3 hw2 hpm hn2 hf
        rw [if_neg hnp0]
        have hnpp : np ≠ p := fun e => k2 (e ▸ hp)
        have hfl : (np :: L).filter (fun q => decide (q ≠ p))
            = np :: L.filter (fun q => decide (q ≠ p)) := by
          simp [List.filter_cons, hnpp]
        rw [hfl] at k5
        exact ⟨al1, bl', k5, k6⟩

/-- Every state reachable by valid calls with requests up to `MAXREQ`
satisfies the heap invariant and is coalesced. -/
theorem reach_nfp (s : Heap) (L : List Nat) (h : Reach MAXREQ s L) :
    ∃ al bl, WF s al bl L ∧ NoFreePair s bl := by
  induction h with
  | start s h1 _ h3 =>
    exact ⟨[], [], wf_start s h1 h3, fun l hl => by simp at hl⟩
  | malloc s s' L fuel mm1 mm2 size p _ hpos hB hpg hrun ih =>
    obtain ⟨al, bl, hw, hn⟩ := ih
    obtain ⟨al', bl', k1, k2, -⟩ :=
      mmalloc_full s al bl L fuel mm1 mm2 size p s' hw hpos hB hpg hrun
    exact ⟨al', bl', k1, k2 hn⟩
  | free s s' L fuel p _ hp hrun ih =>
    obtain ⟨al, bl, hw, hn⟩ := ih
    obtain ⟨bl', k1, k2⟩ := mfree_nfp s al bl L fuel p s' hw hp hn hrun
    exact ⟨al, bl', k1, k2⟩
  | realloc s s' L fuel mm1 mm2 p size r _ hp hpos hB hpg hrun ih =>
    obtain ⟨al, bl, hw, hn⟩ := ih
    exact mrealloc_nfp s al bl L fuel mm1 mm2 p size r s' hw hn hp hpos hB hpg hrun
  | write s L p i v _ _ _ ih =>
    obtain ⟨al, bl, hw, hn⟩ := ih
    exact ⟨al, bl, wf_bytes s al bl L _ hw, hn⟩

theorem wf_fully_coalesced (s : Heap) (al bl L : List Nat) (h : WF s al bl L)
    (hn : NoFreePair s bl) : FullyCoalesced s := by
  intro bl' hbl' l hl r hr hnext hadj hfree
  have hperm := isBlockList_perm s al bl L bl' h hbl'
  have hl' := hperm.mem_iff.1 hl
  have hr' := hperm.mem_iff.1 hr
  obtain ⟨hadj', -⟩ := wf_adjacent s al bl L h l r hl' hr' hadj
  exact hn l hl' hfree.1 (by rw [hnext]; exact hfree.2) (by rw [hnext]; exact hadj')

/-! ## C19: the heap stays coalesced -/

theorem wrap1_run :
    mmalloc 4 MAP_FAILED MAP_FAILED 100 brk1 = Outcome.ok (1048616, wrap1) :=
  run_ok _ _ (by decide!) (by decide!)

theorem wrap2_run :
    mmalloc 4 MAP_FAILED MAP_FAILED 1048428 wrap1 = Outcome.ok (1048740, wrap2) :=
  run_ok _ _ (by decide!) (by decide!)

theorem wrap3_run : mfree 4 1048616 wrap2 = Outcome.ok wrap3 := free_ok _ (by decide!)

theorem wrap3_reach : Reach SIZE_MAX wrap3 [1048740, 2097192] :=
  Reach.free wrap2 wrap3 [1048740, 1048616, 2097192] 4 1048616
    (Reach.malloc wrap1 wrap2 [1048616, 2097192] 4 MAP_FAILED MAP_FAILED 1048428 1048740
      (Reach.malloc brk1 wrap1 [2097192] 4 MAP_FAILED MAP_FAILED 100 1048616 brk1_reach
        (by decide) (by decide) (pages_none brk1 _) wrap1_run)
      (by decide) (by decide) (pages_none wrap1 _) wrap2_run)
    (by decide) wrap3_run

/-- C19, the code at the failing input: the calls `mmalloc(1)`,
`mmalloc(2^64 - 24)`, `mfree`, `mmalloc(100)`, `mmalloc(1048428)`, `mfree`
reach a state whose block list is the cycle 2097168, 1048592, 1048716 and in
which the anchor 2097168 is free with `size = 2^64 - 1048600`, its list
successor 1048592 is free, and `anchor + size + sizeof(Header)` is, in 64-bit
arithmetic, the address 1048592.  The last `mfree` did not merge the two: its
backward test requires `prev < header`. -/
theorem C19_free_pair_not_merged :
    Reach SIZE_MAX wrap3 [1048740, 2097192] ∧
      IsBlockList wrap3 [2097168, 1048592, 1048716] ∧
      wrap3.hdrs 2097168 = ⟨1048592, 18446744073708503016, 0⟩ ∧
      wrap3.hdrs 1048592 = ⟨1048716, 100, 0⟩ ∧
      add64 (add64 2097168 (wrap3.hdrs 2097168).size) sizeof_Header = 1048592 ∧
      hdr_can_merge 2097168 1048592 wrap3 = true ∧
      ¬ FullyCoalesced wrap3 := by
  refine ⟨wrap3_reach, by decide!, by decide!, by decide!, by decide!, by decide!, ?_⟩
  intro hfc
  exact hfc [2097168, 1048592, 1048716] (by decide!) 2097168 (by simp) 1048592 (by simp)
    (by decide!) (by decide!) (by decide!)

/-- Where the size arithmetic does not wrap: every heap state reached by valid
calls with sizes > 0 and at most `MAXREQ` has a block list, and it is fully coalesced: no two blocks
`l`, `r` of the list with `l->next == r` and `r` at the address
`l + l->size + sizeof(Header)` are both free; and the state after `mfree` of
a live reference, with its one forward and one backward merge, is again such a
state. -/
theorem reach_fully_coalesced (s : Heap) (L : List Nat) (h : Reach MAXREQ s L) :
    (∃ bl, IsBlockList s bl) ∧ FullyCoalesced s ∧
      ∀ fuel p s', p ∈ L → mfree fuel p s = Outcome.ok s' →
        (∃ bl, IsBlockList s' bl) ∧ FullyCoalesced s' := by
  obtain ⟨al, bl, hw, hn⟩ := reach_nfp s L h
  obtain ⟨bl', hbl', -⟩ := wf_isBlockList s al bl L hw
  refine ⟨⟨bl', hbl'⟩, wf_fully_coalesced s al bl L hw hn, ?_⟩
  intro fuel p s' hp hrun
  obtain ⟨bl2, hw2, hn2⟩ := mfree_nfp s al bl L fuel p s' hw hp hn hrun
  obtain ⟨bl3, hbl3, -⟩ := wf_isBlockList s' al bl2 _ hw2
  exact ⟨⟨bl3, hbl3⟩, wf_fully_coalesced s' al bl2 _ hw2 hn2⟩

/-- Example for `reach_fully_coalesced`: the heap `cex5d` (two arenas, every block released). -/
theorem reach_fully_coalesced_demo :
    Reach MAXREQ cex5d [] ∧ IsBlockList cex5d [2097168, 1048592] ∧ FullyCoalesced cex5d :=
  ⟨cex5d_reach, by decide!, (reach_fully_coalesced cex5d [] cex5d_reach).2.1⟩

/-! ## C20: allocate, then release -/

theorem setAsize_twice (s : Heap) (b n m : Nat) :
    setAsize (setAsize s b n) b m = setAsize s b m := by
  apply heap_ext
  · rfl
  · rfl
  · rfl
  · rfl
  · intro x
    by_cases e : x = b
    · subst e
      rw [setAsize_at, setAsize_at, setAsize_at]
    · rw [setAsize_other _ _ _ _ e, setAsize_other _ _ _ _ e, setAsize_other _ _ _ _ e]
  · rfl

theorem fully_coalesced_nfp (s : Heap) (al bl L : List Nat) (h : WF s al bl L)
    (hfc : FullyCoalesced s) : NoFreePair s bl := by
  intro l hl hlf hmf hadj
  obtain ⟨bl', hbl', hperm⟩ := wf_isBlockList s al bl L h
  have hal := wf_al_ne s al bl L h l hl
  have hm := ring_next_mem s bl l (h.ring hal) hl
  have hmb := wf_block_bound s al bl L h _ hm
  exact hfc bl' hbl' l (hperm.mem_iff.2 hl) _ (hperm.mem_iff.2 hm) rfl
    (add64_adj l _ _ hadj (by unfold sizeof_Header at hmb; omega)) ⟨hlf, hmf⟩

/-- What `first_fit` returns, when it is not `NULL`, is a listed block that is free
and large enough. -/
theorem wf_first_fit_found (s : Heap) (al bl L : List Nat) (fuel size b : Nat)
    (h : WF s al bl L) (hal : al ≠ []) (hff : first_fit fuel size s = some b) (hb : b ≠ 0) :
    b ∈ bl ∧ (s.hdrs b).asize = 0 ∧ size ≤ (s.hdrs b).size := by
  obtain ⟨t, hperm, -, -, -, hff2⟩ := wf_first_fit s al bl L size h hal
  rcases hff2 fuel with e | e
  · rw [e] at hff; cases hff
  · rw [e] at hff
    cases hfind : (t ++ [anchor s]).find? (fits s size) with
    | none =>
      rw [hfind] at hff
      simp only [Option.getD_none, Option.some.injEq] at hff
      exact absurd hff.symm hb
    | some c =>
      rw [hfind] at hff
      simp only [Option.getD_some, Option.some.injEq] at hff
      subst hff
      have hmem := List.mem_of_find?_eq_some hfind
      have hfits := List.find?_some hfind
      simp only [fits, decide_eq_true_eq] at hfits
      refine ⟨?_, hfits.1, hfits.2⟩
      apply hperm.mem_iff.1
      simp only [List.mem_append, List.mem_singleton, List.mem_cons] at hmem ⊢
      tauto

theorem mmalloc_found_eq (s : Heap) (fuel mm1 mm2 size b : Nat) (hne : s.first_arena ≠ 0)
    (hff : first_fit fuel size s = some b) (hb : b ≠ 0) :
    mmalloc fuel mm1 mm2 size s = Outcome.ok (b + sizeof_Header,
      setAsize (if hdr_should_split b size s = true then (hdr_split b size s).2 else s)
        b size) := by
  unfold mmalloc
  rw [if_neg hne]
  unfold mmalloc_search
  rw [hff]
  simp only []
  rw [if_pos hb]

/-- Taking the free block at the head of the ring of a coalesced heap and
releasing it again restores every listed header. -/
theorem take_release (s : Heap) (al t L : List Nat) (b size fuel : Nat)
    (h : WF s al (b :: t) L) (hn : NoFreePair s (b :: t))
    (hfree : (s.hdrs b).asize = 0) (hfit : size ≤ (s.hdrs b).size)
    (hfuel : t.length < fuel) :
    ∃ s2, mfree fuel (b + sizeof_Header)
        (setAsize (if hdr_should_split b size s = true then (hdr_split b size s).2 else s)
          b size) = Outcome.ok s2 ∧
      (∀ x ∈ b :: t, s2.hdrs x = s.hdrs x) ∧ WF s2 al (b :: t) L ∧
      s2.first_arena = s.first_arena ∧ s2.arenas = s.arenas ∧ s2.arena_end = s.arena_end ∧
      s2.ctor_temp = s.ctor_temp ∧ s2.bytes = s.bytes := by
  have hal := wf_al_ne s al _ L h b (by simp)
  have hnd := wf_nodup s al _ L h
  have hbt : b ∉ t := (List.nodup_cons.1 hnd).1
  have hbb := wf_block_bound s al _ L h b (by simp)
  have hadd : add64 (add64 sizeof_Header size) 1 = sizeof_Header + size + 1 := by
    unfold add64 W sizeof_Header sizeof_Arena at *; omega
  have hcb : ∀ (M : Heap), (∀ x ∈ t, M.hdrs x = s.hdrs x) →
      ∀ P ∈ b :: t, P ≠ b → (M.hdrs P).next = b →
        (M.hdrs P).asize ≠ 0 ∨ P + sizeof_Header + (M.hdrs P).size ≠ b := by
    intro M hM P hP hPb hnx
    have hPt : P ∈ t := by
      rcases List.mem_cons.1 hP with e | e
      · exact absurd e hPb
      · exact e
    rw [hM P hPt] at hnx ⊢
    by_contra hcon
    push_neg at hcon
    exact hn P hP hcon.1 (by rw [hnx]; exact hfree) (by rw [hnx]; exact hcon.2)
  rw [mfree_unfold, setAsize_twice]
  by_cases hs : sizeof_Header + size + 1 ≤ (s.hdrs b).size
  · have hss : hdr_should_split b size s = true := by
      simp [hdr_should_split, hadd, hs]
    rw [if_pos hss]
    obtain ⟨-, e_b, e_r, e_o, e3, e1, e7, e8, e5⟩ := hdr_split_spec s b size hbb.2 hs
    have hwfX := wf_split s al t L b size h hs hfree
    generalize (hdr_split b size s).2 = X at *
    have hndX := wf_nodup X al _ L hwfX
    have hrt : b + sizeof_Header + size ∉ t :=
      (List.nodup_cons.1 (List.nodup_cons.1 hndX).2).1
    have hne : b ≠ b + sizeof_Header + size := by unfold sizeof_Header; omega
    have hXn : (X.hdrs b).next = b + sizeof_Header + size := by rw [e_b]
    have hXs : (X.hdrs b).size = size := by rw [e_b]
    have hXa : (X.hdrs b).asize = 0 := by rw [e_b]; exact hfree
    have hXrn : (X.hdrs (b + sizeof_Header + size)).next = (s.hdrs b).next := by rw [e_r]
    have hXrs : (X.hdrs (b + sizeof_Header + size)).size
        = (s.hdrs b).size - size - sizeof_Header := by rw [e_r]
    have hXra : (X.hdrs (b + sizeof_Header + size)).asize = 0 := by rw [e_r]
    have hX0 : setAsize X b 0 = X := by
      have := setAsize_self X b
      rw [hXa] at this
      exact this
    rw [hX0]
    have hadj : b + sizeof_Header + (X.hdrs b).size = b + sizeof_Header + size := by
      rw [hXs]
    have hfw : mfree_fwd b X = hdr_merge b (b + sizeof_Header + size) X := by
      unfold mfree_fwd
      rw [hXn, if_pos]
      refine ⟨by unfold sizeof_Header; omega, ?_⟩
      rw [hdr_can_merge_iff]
      exact ⟨add64_adj b _ _ hadj (by unfold sizeof_Header at *; omega), hXa, hXra⟩
    rw [hfw]
    have hnw : (X.hdrs b).size + (X.hdrs (b + sizeof_Header + size)).size + sizeof_Header
        < W := by
      rw [hXs, hXrs]
      unfold sizeof_Header sizeof_Arena at *; omega
    obtain ⟨m1, m2, m3, m4, m5, m6, m7⟩ :=
      hdr_merge_spec X b (b + sizeof_Header + size) hne hnw
    have hwfM := wf_merge X al t L b (b + sizeof_Header + size) hwfX hadj hXra
    rw [hXrn, hXs, hXrs, hXa] at m1
    have hsum : size + ((s.hdrs b).size - size - sizeof_Header) + sizeof_Header
        = (s.hdrs b).size := by omega
    rw [hsum, ← hfree] at m1
    have hMb : (hdr_merge b (b + sizeof_Header + size) X).hdrs b = s.hdrs b := m1
    have hMo : ∀ x ∈ t, (hdr_merge b (b + sizeof_Header + size) X).hdrs x = s.hdrs x := by
      intro x hx
      have hxb : x ≠ b := fun e => hbt (e ▸ hx)
      have hxr : x ≠ b + sizeof_Header + size := fun e => hrt (e ▸ hx)
      rw [m2 x hxb]
      exact e_o x hxb hxr
    generalize hdr_merge b (b + sizeof_Header + size) X = M at *
    rw [prev_eq M al t L b fuel hwfM hfuel]
    simp only []
    rw [no_bwd M al t L b hwfM (hcb M hMo)]
    refine ⟨M, rfl, ?_, hwfM, m4.trans e1, m3.trans e3, m5.trans e7, m6.trans e8,
      m7.trans e5⟩
    intro x hx
    rcases List.mem_cons.1 hx with e | e
    · rw [e]; exact hMb
    · exact hMo x e
  · have hss : ¬ hdr_should_split b size s = true := by
      simp [hdr_should_split, hadd]; omega
    rw [if_neg hss]
    have hs0 : setAsize s b 0 = s := by
      have := setAsize_self s b
      rw [hfree] at this
      exact this
    rw [hs0]
    have hcf : (s.hdrs (s.hdrs b).next).asize ≠ 0 ∨
        b + sizeof_Header + (s.hdrs b).size ≠ (s.hdrs b).next := by
      by_contra hcon
      push_neg at hcon
      exact hn b (List.mem_cons_self _ _) hfree hcon.1 hcon.2
    rw [no_fwd s al t L b h hcf, prev_eq s al t L b fuel h hfuel]
    simp only []
    rw [no_bwd s al t L b h (hcb s (fun _ _ => rfl))]
    exact ⟨s, rfl, fun _ _ => rfl, h, rfl, rfl, rfl, rfl, rfl⟩

theorem first_fit_loop_congr (s s' : Heap) (bl : List Nat) (size first : Nat)
    (hcl : ∀ x ∈ bl, (s.hdrs x).next ∈ bl) (hag : ∀ x ∈ bl, s'.hdrs x = s.hdrs x)
    (fuel : Nat) :
    ∀ x ∈ bl, first_fit_loop size first s' fuel x = first_fit_loop size first s fuel x := by
  induction fuel with
  | zero =>
    intro x _
    simp [first_fit_loop]
  | succ n ih =>
    intro x hx
    have hm := hcl x hx
    simp only [first_fit_loop, hag x hx, hag _ hm, ih _ hm]

theorem isBlockList_agree (s s2 : Heap) (al bl L : List Nat) (h : WF s al bl L)
    (h2 : WF s2 al bl L) (hfa : s2.first_arena = s.first_arena)
    (hag : ∀ x ∈ bl, s2.hdrs x = s.hdrs x) (bl' : List Nat) :
    IsBlockList s2 bl' ↔ IsBlockList s bl' := by
  constructor
  · intro hb
    have hperm := isBlockList_perm s2 al bl L bl' h2 hb
    unfold IsBlockList anchor at hb ⊢
    rw [hfa, ring_congr s s2 bl' (fun y hy => by rw [hag y (hperm.mem_iff.1 hy)])] at hb
    exact hb
  · intro hb
    have hperm := isBlockList_perm s al bl L bl' h hb
    unfold IsBlockList anchor at hb ⊢
    rw [hfa, ring_congr s s2 bl' (fun y hy => by rw [hag y (hperm.mem_iff.1 hy)])]
    exact hb

/-- The round trip in a well-formed heap (every state reached by calls with
sizes up to `MAXREQ` is one, `reach_wf`) that is fully coalesced and has an
arena, for every `size > 0` for which `first_fit(size)` returns a block `b`: `mmalloc(size)` returns `b + 1`
(the payload of `b`), the following `mfree` of that reference returns, and
afterwards the heap has the same block lists as before, every listed header
has its old `next`, `size` and `asize` (split or not), arenas, statics and
payload bytes are as before; a second `mmalloc(size)` returns the same
address. -/
theorem wf_round_trip (s : Heap) (al bl L : List Nat) (fuel mm1 mm2 size b : Nat)
    (h : WF s al bl L) (hfc : FullyCoalesced s) (hne : s.first_arena ≠ 0)
    (_hpos : 0 < size) (hff : first_fit fuel size s = some b) (hb : b ≠ 0)
    (hfuel : bl.length ≤ fuel) :
    ∃ s1 s2 s3, mmalloc fuel mm1 mm2 size s = Outcome.ok (b + sizeof_Header, s1) ∧
      mfree fuel (b + sizeof_Header) s1 = Outcome.ok s2 ∧
      (∀ bl', IsBlockList s2 bl' ↔ IsBlockList s bl') ∧
      (∀ bl', IsBlockList s bl' → ∀ x ∈ bl', s2.hdrs x = s.hdrs x) ∧
      s2.first_arena = s.first_arena ∧ s2.arenas = s.arenas ∧
      s2.arena_end = s.arena_end ∧ s2.ctor_temp = s.ctor_temp ∧ s2.bytes = s.bytes ∧
      mmalloc fuel mm1 mm2 size s2 = Outcome.ok (b + sizeof_Header, s3) := by
  have hal : al ≠ [] := fun e => hne ((arenaChain_first s al _ h.ar.achain).2 e)
  obtain ⟨hbm, hbf, hbs⟩ := wf_first_fit_found s al bl L fuel size b h hal hff hb
  have hn := fully_coalesced_nfp s al bl L h hfc
  obtain ⟨t, hwfr, hperm⟩ := wf_rotate s al bl L h b hbm
  have hlen : t.length + 1 = bl.length := by
    have := hperm.length_eq
    simpa using this
  obtain ⟨s2, r1, r2, r3, r4, r5, r6, r7, r8⟩ :=
    take_release s al t L b size fuel hwfr (nfp_perm s bl _ hperm hn) hbf hbs (by omega)
  have hag : ∀ x ∈ bl, s2.hdrs x = s.hdrs x := fun x hx => r2 x (hperm.mem_iff.2 hx)
  have hw2 : WF s2 al bl L := wf_perm s2 al _ _ L r3 hperm.symm (fun _ => by
    rw [ring_congr s s2 bl (fun y hy => by rw [hag y hy])]
    exact h.ring hal)
  have hff2 : first_fit fuel size s2 = some b := by
    rw [← hff]
    unfold first_fit
    rw [r4]
    exact first_fit_loop_congr s s2 bl size _ (fun x hx => ring_next_mem s bl x (h.ring hal) hx)
      hag fuel _ (wf_anchor s al bl L h hal).2.2
  refine ⟨_, s2, _, mmalloc_found_eq s fuel mm1 mm2 size b hne hff hb, r1,
    isBlockList_agree s s2 al bl L h hw2 r4 hag, ?_, r4, r5, r6, r7, r8,
    mmalloc_found_eq s2 fuel mm1 mm2 size b (by rw [r4]; exact hne) hff2 hb⟩
  intro bl' hbl' x hx
  exact hag x ((isBlockList_perm s al bl L bl' h hbl').mem_iff.1 hx)

/-- Example for `wf_round_trip`: in `demo4` (used 10, free 20, used 30, free rest) a request
of 25 bytes is served by splitting the free rest. -/
theorem wf_round_trip_demo :
    Reach MAXREQ demo4 [2097270, 2097192] ∧ first_fit 4 25 demo4 = some 2097300 ∧
      hdr_should_split 2097300 25 demo4 = true ∧
      ∃ s1 s2 s3, mmalloc 4 MAP_FAILED MAP_FAILED 25 demo4
          = Outcome.ok (2097300 + sizeof_Header, s1) ∧
        mfree 4 (2097300 + sizeof_Header) s1 = Outcome.ok s2 ∧
        (∀ bl', IsBlockList s2 bl' ↔ IsBlockList demo4 bl') ∧
        mmalloc 4 MAP_FAILED MAP_FAILED 25 s2 = Outcome.ok (2097300 + sizeof_Header, s3) := by
  refine ⟨demo4_reach, by decide!, by decide!, ?_⟩
  obtain ⟨al, bl, hw, hn⟩ := reach_nfp _ _ demo4_reach
  have hbl : IsBlockList demo4 [2097168, 2097202, 2097246, 2097300] := by decide!
  have hperm := isBlockList_perm demo4 al bl _ _ hw hbl
  obtain ⟨s1, s2, s3, h1, h2, h3, -, -, -, -, -, -, h4⟩ :=
    wf_round_trip demo4 al bl _ 4 MAP_FAILED MAP_FAILED 25 2097300 hw
      (wf_fully_coalesced demo4 al bl _ hw hn) (by decide!) (by decide) (by decide!)
      (by decide) (by rw [← hperm.length_eq]; decide)
  exact ⟨s1, s2, s3, h1, h2, h3, h4⟩

/-! ## C11: relocating resize -/

theorem mmalloc_fuel (s : Heap) (fuel fuel' mm1 mm2 size : Nat) (hne : s.first_arena ≠ 0)
    (h : first_fit fuel size s = first_fit fuel' size s) :
    mmalloc fuel mm1 mm2 size s = mmalloc fuel' mm1 mm2 size s := by
  unfold mmalloc
  rw [if_neg hne, if_neg hne]
  unfold mmalloc_search
  rw [h]

theorem ovfA_big_first_fit (fuel : Nat) :
    first_fit fuel 18446744073709551592 ovfA = none ∨
      first_fit fuel 18446744073709551592 ovfA = some 0 := by
  match fuel with
  | 0 => exact Or.inl (by decide!)
  | 1 => exact Or.inl (by decide!)
  | n + 2 =>
    right
    have hbl : IsBlockList ovfA [2097168, 2097193] := by decide!
    have := (isBlockList_first_fit ovfA 2097168 [2097193] (n + 2) 18446744073709551592 hbl
      (by simp)).2
    rw [this]
    have hf : ([2097193] ++ [2097168]).find? (fits ovfA 18446744073709551592) = none := by
      decide!
    rw [hf]
    rfl

/-- C11, the code at the failing input: on the heap after `mmalloc(1)`, whose live block has
capacity 1 and a free successor too small to absorb,
`mrealloc(p, 2^64 - 24)` takes the relocation branch; its `mmalloc` succeeds
(the page source answers with the page at `pageB`; the size arithmetic wraps)
and leaves a header that points to itself, and the following `mfree(p)` never
leaves the loop of `hdr_get_prev`: the call does not return, whatever the
fuel. -/
theorem C11_relocation_never_returns :
    Reach MAXREQ ovfA [2097192] ∧ (ovfA.hdrs (2097192 - sizeof_Header)).size = 1 ∧
      (ovfA.hdrs (2097192 - sizeof_Header)).next = 2097193 ∧
      (ovfA.hdrs 2097193).size = 131007 ∧
      Pages ovfA MAP_FAILED pageB 18446744073709551592 ∧
      mmalloc 4 MAP_FAILED pageB 18446744073709551592 ovfA = Outcome.ok (1048616, ovfC) ∧
      ∀ fuel, mrealloc fuel MAP_FAILED pageB 2097192 18446744073709551592 ovfA
        = Outcome.nofuel := by
  refine ⟨ovfA_reach MAXREQ (by decide), by decide!, by decide!, by decide!,
    pages_second ovfA pageB _ (ovfA_fresh _ (by decide)), ovfC_run, ?_⟩
  intro fuel
  unfold mrealloc
  simp only []
  rw [if_neg (by decide!), if_neg (by decide!), if_neg (by decide!)]
  rcases ovfA_big_first_fit fuel with e | e
  · have hm : mmalloc fuel MAP_FAILED pageB 18446744073709551592 ovfA = Outcome.nofuel := by
      unfold mmalloc
      rw [if_neg (by decide!)]
      unfold mmalloc_search
      rw [e]
    rw [hm]
  · have hm : mmalloc fuel MAP_FAILED pageB 18446744073709551592 ovfA
        = Outcome.ok (1048616, ovfC) := by
      rw [mmalloc_fuel ovfA fuel 4 _ _ _ (by decide!) (e.trans (by decide!))]
      exact ovfC_run
    rw [hm]
    simp only []
    rw [if_pos (by decide), mfree_unfold_ptr,
      hdr_get_prev_stuck _ _ 1048592 (by decide!) (by decide!) (by decide) fuel]

/-- Relocation where the size arithmetic does not wrap (`new_size` at most
`MAXREQ`): in a well-formed heap (every state reached by calls with sizes up
to `MAXREQ` is one, `reach_wf`), for a live reference `ptr` whose header records the requested size `a`, and `new_size` greater than the
block's capacity for which the successor cannot be absorbed and `mmalloc`
returns `q`: with fuel for one round of the list `mrealloc(ptr, new_size)`
returns `q`, `q != ptr`, `q` is the payload of a listed used block with
`asize == new_size`, the first `min(a, new_size)` bytes at `q` equal the bytes
at `ptr` before the call, the old header has `asize == 0`, and `q` has
replaced `ptr` among the live references of a well-formed heap. -/
theorem wf_relocating_resize (s : Heap) (al bl L : List Nat)
    (fuel mm1 mm2 ptr new_size q : Nat) (s1 : Heap) (h : WF s al bl L) (hp : ptr ∈ L)
    (hgt : (s.hdrs (ptr - sizeof_Header)).size < new_size)
    (hB : new_size ≤ MAXREQ) (hpg : Pages s mm1 mm2 new_size)
    (hna : ¬ ((s.hdrs (s.hdrs (ptr - sizeof_Header)).next).asize = 0 ∧
      add64 (add64 (ptr - sizeof_Header) (s.hdrs (ptr - sizeof_Header)).size) sizeof_Header
        = (s.hdrs (ptr - sizeof_Header)).next ∧
      add64 (add64 (s.hdrs (s.hdrs (ptr - sizeof_Header)).next).size
        (s.hdrs (ptr - sizeof_Header)).size) sizeof_Header > new_size))
    (hm : mmalloc fuel mm1 mm2 new_size s = Outcome.ok (q, s1))
    (hfuel : bl.length + 3 ≤ fuel) :
    ∃ s', mrealloc fuel mm1 mm2 ptr new_size s = Outcome.ok (q, s') ∧ q ≠ ptr ∧ q ≠ 0 ∧
      (s'.hdrs (q - sizeof_Header)).asize = new_size ∧
      (∀ i, i < min (s.hdrs (ptr - sizeof_Header)).asize new_size →
        s'.bytes (q + i) = s.bytes (ptr + i)) ∧
      (s'.hdrs (ptr - sizeof_Header)).asize = 0 ∧
      (∃ al' bl', WF s' al' bl' (q :: L.filter (fun x => decide (x ≠ ptr)))) ∧
      (∃ bl', IsBlockList s' bl' ∧ q - sizeof_Header ∈ bl') := by
  obtain ⟨b, hb, hbu, hpb⟩ := (h.live ptr).1 hp
  have hsub : ptr - sizeof_Header = b := by omega
  rw [hsub] at hgt hna ⊢
  obtain ⟨al1, bl1, k1, -, klen, kfr, k2, k3, k4, -, kby⟩ :=
    mmalloc_full s al bl L fuel mm1 mm2 new_size q s1 h (by omega) hB hpg hm
  have hq0 : q ≠ 0 := by unfold sizeof_Header at k3; omega
  have hqp : q ≠ ptr := fun e => k2 (e ▸ hp)
  have hasz : (s1.hdrs b).asize = (s.hdrs b).asize := ((kfr b hb).2 hbu).1
  have hrun : mrealloc fuel mm1 mm2 ptr new_size s
      = match mfree fuel ptr (memcpy q ptr (s1.hdrs b).asize s1) with
        | Outcome.ok s3 => Outcome.ok (q, s3)
        | Outcome.fault => Outcome.fault
        | Outcome.nofuel => Outcome.nofuel := by
    unfold mrealloc
    simp only []
    rw [hsub, if_neg (by omega), if_neg (by omega), if_neg hna, hm]
    simp only []
    rw [if_pos hq0]
  have hcp : ∀ i, i < (s1.hdrs b).asize →
      (memcpy q ptr (s1.hdrs b).asize s1).bytes (q + i) = s1.bytes (ptr + i) := by
    intro i hi
    simp only [memcpy]
    rw [if_pos ⟨by omega, by omega⟩]
    congr 1
    omega
  have hhd : (memcpy q ptr (s1.hdrs b).asize s1).hdrs = s1.hdrs := rfl
  have hw2 : WF (memcpy q ptr (s1.hdrs b).asize s1) al1 bl1 (q :: L) := by
    rw [memcpy_eq]; exact wf_bytes s1 al1 bl1 _ _ k1
  generalize memcpy q ptr (s1.hdrs b).asize s1 = s2 at *
  obtain ⟨htot, hpres⟩ := wf_mfree s2 al1 bl1 (q :: L) fuel ptr hw2 (List.mem_cons_of_mem _ hp)
  obtain ⟨s3, hf⟩ := htot (by omega)
  obtain ⟨bl3, hw3, hby3, -⟩ := hpres s3 hf
  obtain ⟨a1, a2⟩ := mfree_asize s2 s3 fuel ptr hf
  rw [hf] at hrun
  simp only [] at hrun
  have hfl : (q :: L).filter (fun x => decide (x ≠ ptr))
      = q :: L.filter (fun x => decide (x ≠ ptr)) := by
    simp [List.filter_cons, hqp]
  rw [hfl] at hw3
  refine ⟨s3, hrun, hqp, hq0, ?_, ?_, ?_, ⟨al1, bl3, hw3⟩, ?_⟩
  · rw [a2 (q - sizeof_Header) (by omega), hhd]
    exact k4
  · intro i hi
    rw [hby3, hcp i (by rw [hasz]; omega), kby]
  · rw [← hsub]; exact a1
  · obtain ⟨bl', hbl', hperm⟩ := wf_isBlockList s3 al1 bl3 _ hw3
    refine ⟨bl', hbl', ?_⟩
    obtain ⟨b', hb', -, e⟩ := (hw3.live q).1 (List.mem_cons_self _ _)
    have : q - sizeof_Header = b' := by omega
    rw [this]
    exact hperm.mem_iff.2 hb'

/-- Example for `wf_relocating_resize`: in `demo4c` (used blocks of 10, 20 and 30 bytes, then the
free rest) the first block is resized to 50 bytes; the new block is split off
the free rest. -/
theorem wf_relocating_resize_demo :
    Reach MAXREQ demo4c [2097270, 2097226, 2097192] ∧
      (demo4c.hdrs (2097192 - sizeof_Header)).size = 10 ∧
      ∃ s', mrealloc 7 MAP_FAILED MAP_FAILED 2097192 50 demo4c = Outcome.ok (2097324, s') ∧
        (s'.hdrs (2097324 - sizeof_Header)).asize = 50 ∧
        (∀ i, i < min (demo4c.hdrs (2097192 - sizeof_Header)).asize 50 →
          s'.bytes (2097324 + i) = demo4c.bytes (2097192 + i)) ∧
        (s'.hdrs (2097192 - sizeof_Header)).asize = 0 := by
  refine ⟨demo4c_reach, by decide!, ?_⟩
  obtain ⟨al, bl, hw⟩ := reach_wf _ _ demo4c_reach
  have hbl : IsBlockList demo4c [2097168, 2097202, 2097246, 2097300] := by decide!
  have hperm := isBlockList_perm demo4c al bl _ _ hw hbl
  obtain ⟨s', h1, -, -, h4, h5, h6, -⟩ :=
    wf_relocating_resize demo4c al bl _ 7 MAP_FAILED MAP_FAILED 2097192 50 2097324
      (outHeap (mmalloc 7 MAP_FAILED MAP_FAILED 50 demo4c)) hw (by simp) (by decide!)
      (by decide) (pages_none demo4c 50) (by decide!)
      (run_ok _ _ (by decide!) (by decide!)) (by rw [← hperm.length_eq]; decide)
  exact ⟨s', h1, h4, h5, h6⟩

/-! ## C4, C7, C20: the loops on a list that is no cycle -/

theorem fresh_list (s : Heap) (al : List Nat) (mm req : Nat) (hc : IsArenaList s al)
    (hm : mm ≠ 0) (hr : 0 < req) (hW : mm + req ≤ W)
    (hd : ∀ a ∈ al, mm + req ≤ a ∨ a + (s.arenas a).size ≤ mm) : FreshPage s mm req :=
  Or.inr ⟨hm, hr, hW, fun al' hal' x hx => by
    have := arenaChain_unique s al' al _ hal' hc
    subst this
    exact hd x hx⟩

/-- The loop of `hdr_get_prev` on a walk that leads into a header that points
to itself, and never meets `hdr`, does not end. -/
theorem hdr_get_prev_loop_walk (s : Heap) (hdr x : Nat) (hx1 : (s.hdrs x).next = x)
    (hxh : x ≠ hdr) (l : List Nat) :
    ∀ y, Seg (fun a => (s.hdrs a).next) y l x → hdr ∉ l →
      ∀ fuel, hdr_get_prev_loop hdr s fuel y = none := by
  induction l with
  | nil =>
    intro y h _ fuel
    have h1 : (s.hdrs y).next = x := h
    cases fuel with
    | zero => simp [hdr_get_prev_loop]
    | succ n =>
      simp only [hdr_get_prev_loop, h1, hxh, ne_eq, not_false_eq_true, if_true]
      exact hdr_get_prev_loop_stuck s hdr x hx1 hxh n
  | cons z l ih =>
    intro y h hnot fuel
    have h1 : (s.hdrs y).next = z := h.1
    have hz : z ≠ hdr := fun e => hnot (by simp [e])
    have hnot' : hdr ∉ l := fun e => hnot (List.mem_cons_of_mem _ e)
    cases fuel with
    | zero => simp [hdr_get_prev_loop]
    | succ n =>
      simp only [hdr_get_prev_loop, h1, hz, ne_eq, not_false_eq_true, if_true]
      exact ih z h.2 hnot' n

theorem hdr_get_prev_walk (s : Heap) (hdr x : Nat) (l : List Nat)
    (h : Seg (fun a => (s.hdrs a).next) hdr l x) (hx1 : (s.hdrs x).next = x)
    (hxh : x ≠ hdr) (hnot : hdr ∉ l) (fuel : Nat) : hdr_get_prev fuel hdr s = none :=
  hdr_get_prev_loop_walk s hdr x hx1 hxh l hdr h hnot fuel

/-- C4, the code at the failing input: after `mmalloc(1)` and
`mmalloc(2^64 - 24)` the heap has an arena, the anchor is used and points to
the used header at `pageB + 16`, which points to itself; the free block at
2097193 (the rest of the first arena, 131007 bytes) is no longer reached from
the anchor.  The loop of `first_fit(1)` never ends: it returns neither a block
nor `NULL`, and `mmalloc(1)` does not return, whatever the fuel. -/
theorem C4_first_fit_never_returns :
    Reach SIZE_MAX ovfC [1048616, 2097192] ∧ ovfC.first_arena = pageA ∧
      ovfC.hdrs 2097168 = ⟨1048592, 1, 1⟩ ∧
      ovfC.hdrs 1048592 = ⟨1048592, 18446744073709551592, 18446744073709551592⟩ ∧
      ovfC.hdrs 2097193 = ⟨2097168, 131007, 0⟩ ∧
      (∀ fuel, first_fit fuel 1 ovfC = none) ∧
      (∀ fuel mm1 mm2, mmalloc fuel mm1 mm2 1 ovfC = Outcome.nofuel) := by
  have hff : ∀ fuel, first_fit fuel 1 ovfC = none :=
    first_fit_stuck ovfC 1 1048592 (by decide!) (by decide!) (by decide!) (by decide!)
  refine ⟨ovfC_reach, by decide!, by decide!, by decide!, by decide!, hff, ?_⟩
  intro fuel mm1 mm2
  unfold mmalloc
  rw [if_neg (by decide!)]
  unfold mmalloc_search
  rw [hff fuel]

theorem tail1_run : mmalloc 8 pageA MAP_FAILED 1 init = Outcome.ok (2097192, tail1) :=
  run_ok _ _ (by decide!) (by decide!)

theorem tail2_run :
    mmalloc 8 MAP_FAILED MAP_FAILED 5 tail1 = Outcome.ok (2097217, tail2) :=
  run_ok _ _ (by decide!) (by decide!)

theorem tail3_run :
    mmalloc 8 MAP_FAILED MAP_FAILED 7 tail2 = Outcome.ok (2097246, tail3) :=
  run_ok _ _ (by decide!) (by decide!)

theorem tail4_run :
    mmalloc 8 MAP_FAILED MAP_FAILED 9 tail3 = Outcome.ok (2097277, tail4) :=
  run_ok _ _ (by decide!) (by decide!)

theorem tail5_run :
    mmalloc 8 MAP_FAILED MAP_FAILED 11 tail4 = Outcome.ok (2097310, tail5) :=
  run_ok _ _ (by decide!) (by decide!)

theorem tail6_run :
    mmalloc 8 MAP_FAILED pageB 18446744073709551592 tail5
      = Outcome.ok (1048616, tail6) :=
  run_ok _ _ (by decide!) (by decide!)

theorem tail6_reach :
    Reach SIZE_MAX tail6 [1048616, 2097310, 2097277, 2097246, 2097217, 2097192] :=
  Reach.malloc tail5 tail6 _ 8 MAP_FAILED pageB 18446744073709551592 1048616
    (Reach.malloc tail4 tail5 _ 8 MAP_FAILED MAP_FAILED 11 2097310
      (Reach.malloc tail3 tail4 _ 8 MAP_FAILED MAP_FAILED 9 2097277
        (Reach.malloc tail2 tail3 _ 8 MAP_FAILED MAP_FAILED 7 2097246
          (Reach.malloc tail1 tail2 _ 8 MAP_FAILED MAP_FAILED 5 2097217
            (Reach.malloc init tail1 [] 8 pageA MAP_FAILED 1 2097192
              (Reach.start init rfl rfl rfl) (by decide) (by decide)
              (pages_first init pageA _
                (fresh_init pageA _ (by decide) (by decide) (by decide)))
              tail1_run)
            (by decide) (by decide) (pages_none tail1 _) tail2_run)
          (by decide) (by decide) (pages_none tail2 _) tail3_run)
        (by decide) (by decide) (pages_none tail3 _) tail4_run)
      (by decide) (by decide) (pages_none tail4 _) tail5_run)
    (by decide) (by decide)
    (pages_second tail5 pageB _
      (fresh_list tail5 [pageA] pageB _ (by decide!) (by decide) (by decide) (by decide)
        (by decide!)))
    tail6_run

/-- C7, the code at the failing input: after `mmalloc` of 1, 5, 7, 9 and 11
bytes and `mmalloc(2^64 - 24)`, the used blocks `A` = 2097222 (7 bytes) and
`B` = 2097253 (9 bytes) have `A.next == B` and
`B == A + sizeof(Header) + A.size`; the list predecessor of `A` (2097193) and
the list successor of `B` (2097286) are used.  The walk from `A` along `next`
leads through `B`, 2097286, 2097321 and the anchor into the header at
`pageB + 16`, which points to itself: `mfree` of either payload never leaves
the loop of `hdr_get_prev`, whatever the fuel. -/
theorem C7_release_never_returns :
    Reach SIZE_MAX tail6 [1048616, 2097310, 2097277, 2097246, 2097217, 2097192] ∧
      tail6.hdrs 2097222 = ⟨2097253, 7, 7⟩ ∧ tail6.hdrs 2097253 = ⟨2097286, 9, 9⟩ ∧
      2097253 = 2097222 + sizeof_Header + (tail6.hdrs 2097222).size ∧
      tail6.hdrs 2097193 = ⟨2097222, 5, 5⟩ ∧ tail6.hdrs 2097286 = ⟨2097321, 11, 11⟩ ∧
      tail6.hdrs 2097321 = ⟨2097168, 130879, 0⟩ ∧
      tail6.hdrs 2097168 = ⟨1048592, 1, 1⟩ ∧
      (tail6.hdrs 1048592).next = 1048592 ∧
      (∀ fuel, mfree fuel (2097222 + sizeof_Header) tail6 = Outcome.nofuel) ∧
      (∀ fuel, mfree fuel (2097253 + sizeof_Header) tail6 = Outcome.nofuel) := by
  refine ⟨tail6_reach, by decide!, by decide!, by decide!, by decide!, by decide!,
    by decide!, by decide!, by decide!, ?_, ?_⟩
  · intro fuel
    rw [mfree_unfold,
      hdr_get_prev_walk _ 2097222 1048592 [2097253, 2097286, 2097321, 2097168]
        (by decide!) (by decide!) (by decide) (by decide) fuel]
  · intro fuel
    rw [mfree_unfold,
      hdr_get_prev_walk _ 2097253 1048592 [2097286, 2097321, 2097168]
        (by decide!) (by decide!) (by decide) (by decide) fuel]

theorem trip1_run :
    mmalloc 4 MAP_FAILED pageB 131008 ovfA = Outcome.ok (1048616, trip1) :=
  run_ok _ _ (by decide!) (by decide!)

theorem trip2_run : mfree 4 1048616 trip1 = Outcome.ok trip2 := free_ok _ (by decide!)

theorem trip3_run :
    mmalloc 4 MAP_FAILED pageC 18446744073709551592 trip2
      = Outcome.ok (4194344, trip3) :=
  run_ok _ _ (by decide!) (by decide!)

theorem trip4_run :
    mmalloc 4 MAP_FAILED MAP_FAILED 100 trip3 = Outcome.ok (1048616, trip4) :=
  run_ok _ _ (by decide!) (by decide!)

theorem trip3_reach : Reach SIZE_MAX trip3 [4194344, 2097192] :=
  Reach.malloc trip2 trip3 [2097192] 4 MAP_FAILED pageC 18446744073709551592 4194344
    (Reach.free trip1 trip2 [1048616, 2097192] 4 1048616
      (Reach.malloc ovfA trip1 [2097192] 4 MAP_FAILED pageB 131008 1048616
        (ovfA_reach SIZE_MAX (by decide)) (by decide) (by decide)
        (pages_second ovfA pageB _ (ovfA_fresh _ (by decide))) trip1_run)
      (by decide) trip2_run)
    (by decide) (by decide)
    (pages_second trip2 pageC _
      (fresh_list trip2 [pageA, pageB] pageC _ (by decide!) (by decide) (by decide)
        (by decide) (by decide!)))
    trip3_run

/-- C20, the code at the failing input: `mmalloc(1)`, `mmalloc(131008)` (second
arena), `mfree` of the second reference and `mmalloc(2^64 - 24)` (third arena)
reach the heap `H` in which the anchor (used) points to the free block at
`pageB + 16` (131032 bytes), which points to the used header at `pageC + 16`,
which points to itself; no two of them are free.  `first_fit(100)` finds the
free block and `mmalloc(100)` returns its payload, but the `mfree` that follows
never leaves the loop of `hdr_get_prev`, whatever the fuel: the round trip does
not come back. -/
theorem C20_release_never_returns :
    Reach SIZE_MAX trip3 [4194344, 2097192] ∧ trip3.first_arena = pageA ∧
      IsArenaList trip3 [pageA, pageB, pageC] ∧
      trip3.hdrs 2097168 = ⟨1048592, 1, 1⟩ ∧ trip3.hdrs 1048592 = ⟨4194320, 131032, 0⟩ ∧
      trip3.hdrs 4194320 = ⟨4194320, 18446744073709551592, 18446744073709551592⟩ ∧
      first_fit 4 100 trip3 = some 1048592 ∧
      mmalloc 4 MAP_FAILED MAP_FAILED 100 trip3 = Outcome.ok (1048616, trip4) ∧
      trip4.hdrs 1048592 = ⟨1048716, 100, 100⟩ ∧
      trip4.hdrs 1048716 = ⟨4194320, 130908, 0⟩ ∧
      (∀ fuel, mfree fuel 1048616 trip4 = Outcome.nofuel) := by
  refine ⟨trip3_reach, by decide!, by decide!, by decide!, by decide!, by decide!,
    by decide!, trip4_run, by decide!, by decide!, ?_⟩
  intro fuel
  rw [mfree_unfold_ptr,
    hdr_get_prev_walk _ (1048616 - sizeof_Header) 4194320 [] (by decide!) (by decide!)
      (by decide) (by decide) fuel]

end Mmal
